import Mathlib

/-! The k-means core of `kmeans_module.c` (and the cluster helpers of `hw2.c`).

The C program keeps its whole state in globals (`data`, `K`, `D`, `N`, `iter`, `eps`,
`cluster_list`) and works on linked lists through pointers.  The embedding below passes
that state explicitly:

* a `double` is a `Dbl`: a rational or one of the IEEE specials `+inf`, `-inf`, `NaN`,
  which the code can create by the unguarded division `sum / cluster->size`;
* the functions that compute with doubles are given twice.  First in exact arithmetic (no
  rounding, no overflow, no underflow), for the properties that read the arithmetic as
  exact: there `sqrt` is not rational, so a distance is kept as the radicand it is the root
  of (`Root`), and the two comparisons the code makes with distances are made on the
  radicands.  Then with the operations on doubles as a parameter (`Arith`), which has two
  instances: the exact operations, and the IEEE 754 binary64 operations the compiled
  program uses (round to nearest, ties to even, overflow to an infinity, gradual
  underflow; each operation rounded on its own, no fused multiply-add and no extended
  precision);
* a `double *` into the data matrix is the index of the row it points to;
* a linked list is a Lean list whose first element is the node the C head pointer refers
  to; a `CLUSTER *` into the cluster list is the position of the cluster in that list and
  `NULL` is `none`;
* dereferencing `NULL` ends the run: the functions that can do so return `Option`;
* `malloc` and `calloc` are taken to succeed, and the Python arguments to be a list of
  lists of floats and a list of non-negative integers.

The file has three parts: the functions of the source, the definitions the properties
are stated with, and the properties.
-/

namespace Kmeans

/-! ## Doubles -/

/-- A C `double` read in exact arithmetic: a finite value is a rational number, and the
three IEEE specials are kept because `0.0 / 0` and `x / 0` produce them. -/
inductive Dbl where
  | fin (q : ℚ)
  | pinf
  | ninf
  | nan
  deriving DecidableEq

namespace Dbl

/-- IEEE addition without rounding. -/
def add : Dbl → Dbl → Dbl
  | fin a, fin b => fin (a + b)
  | fin _, pinf => pinf
  | fin _, ninf => ninf
  | pinf, fin _ => pinf
  | pinf, pinf => pinf
  | ninf, fin _ => ninf
  | ninf, ninf => ninf
  | pinf, ninf => nan
  | ninf, pinf => nan
  | nan, _ => nan
  | _, nan => nan

/-- IEEE negation. -/
def neg : Dbl → Dbl
  | fin a => fin (-a)
  | pinf => ninf
  | ninf => pinf
  | nan => nan

/-- IEEE subtraction without rounding: `a - b` is `a + (-b)`. -/
def sub (a b : Dbl) : Dbl := add a (neg b)

/-- The infinity of the given sign. -/
def signedInf (positive : Bool) : Dbl := if positive then pinf else ninf

/-- IEEE multiplication without rounding (`0 * inf` is NaN). -/
def mul : Dbl → Dbl → Dbl
  | fin a, fin b => fin (a * b)
  | fin a, pinf => if a = 0 then nan else signedInf (decide (0 < a))
  | fin a, ninf => if a = 0 then nan else signedInf (decide (a < 0))
  | pinf, fin b => if b = 0 then nan else signedInf (decide (0 < b))
  | ninf, fin b => if b = 0 then nan else signedInf (decide (b < 0))
  | pinf, pinf => pinf
  | ninf, ninf => pinf
  | pinf, ninf => ninf
  | ninf, pinf => ninf
  | nan, _ => nan
  | _, nan => nan

/-- The division `sum / cluster->size` of a double by an `int`: the `int` is converted to a
double first (0 becomes `+0.0`), so `0.0 / 0` is NaN and `x / 0` is an infinity with the
sign of `x`. -/
def divInt : Dbl → Int → Dbl
  | fin a, n => if n = 0 then (if a = 0 then nan else signedInf (decide (0 < a))) else fin (a / (n : ℚ))
  | pinf, n => signedInf (decide (0 ≤ n))
  | ninf, n => signedInf (decide (n < 0))
  | nan, _ => nan

/-- The C comparison `a < b` on doubles: false as soon as one side is NaN. -/
def lt : Dbl → Dbl → Bool
  | fin a, fin b => decide (a < b)
  | fin _, pinf => true
  | ninf, fin _ => true
  | ninf, pinf => true
  | _, _ => false

/-- A double that is a number (neither an infinity nor NaN). -/
def isFin : Dbl → Bool
  | fin _ => true
  | _ => false

instance : Add Dbl := ⟨add⟩
instance : Sub Dbl := ⟨sub⟩
instance : Mul Dbl := ⟨mul⟩

end Dbl

/-- The result of `sqrt(radicand)`, kept as its radicand because the square root of a
rational need not be rational.  `Dbl.sqrt` only stores a radicand that is non-negative,
`+inf` or NaN; on those `sqrt` is strictly increasing and maps NaN to NaN, so the
comparisons of two such values are the comparisons of their radicands. -/
structure Root where
  radicand : Dbl
  deriving DecidableEq

/-- C `sqrt`: NaN for a negative argument (and for `-inf`). -/
def Dbl.sqrt : Dbl → Root
  | Dbl.fin q => if q < 0 then ⟨Dbl.nan⟩ else ⟨Dbl.fin q⟩
  | Dbl.pinf => ⟨Dbl.pinf⟩
  | Dbl.ninf => ⟨Dbl.nan⟩
  | Dbl.nan => ⟨Dbl.nan⟩

/-- The constant `INFINITY` as a distance (`sqrt(+inf)` is `+inf`). -/
def INFINITY : Root := ⟨Dbl.pinf⟩

/-- The comparison `dist < minDist` of two distances. -/
def Root.lt (a b : Root) : Bool := Dbl.lt a.radicand b.radicand

/-- The comparison `diff > eps` of a distance with a double: for a finite distance
`sqrt s` and a finite `e` it holds when `e` is negative or `e * e < s`. -/
def Root.gt : Root → Dbl → Bool
  | ⟨Dbl.nan⟩, _ => false
  | ⟨Dbl.ninf⟩, _ => false
  | _, Dbl.nan => false
  | _, Dbl.pinf => false
  | _, Dbl.ninf => true
  | ⟨Dbl.pinf⟩, Dbl.fin _ => true
  | ⟨Dbl.fin s⟩, Dbl.fin e => decide (e < 0) || decide (e * e < s)

/-! ## Data model -/

/-- One node of the `POINT_LIST` linked list; the `next` pointer is the tail of the Lean
list that holds the node.  `head` is the row of `data` the node points to. -/
structure POINT_LIST where
  head : Nat
  size : Int
  deriving DecidableEq

/-- The struct `CLUSTER`. -/
structure CLUSTER where
  centroid : List Dbl
  prev : List Dbl
  point_list : List POINT_LIST
  size : Int
  deriving DecidableEq

/-- The globals of `kmeans_module.c`.  A `CLUSTER_LIST` node is an element of
`cluster_list` (its own `size` field is never read or written). -/
structure KState where
  data : List (List Dbl)
  K : Nat
  D : Nat
  N : Nat
  iter : Int
  eps : Dbl
  cluster_list : List CLUSTER
  deriving DecidableEq

/-- The globals when the module is loaded: `data` and `cluster_list` are `NULL`, the
numbers are zero-initialised. -/
def initialState : KState := ⟨[], 0, 0, 0, 0, Dbl.fin 0, []⟩

/-- Read `a[i]` from a C array; a read past the end is undefined in C and gives NaN here. -/
def rd (a : List Dbl) (i : Nat) : Dbl := a.getD i Dbl.nan

/-- Row `i` of the data matrix, `data[i]`. -/
def row (data : List (List Dbl)) (i : Nat) : List Dbl := data.getD i []

/-! ## Setup (`processMatrix`, `createCluster`, `addCluster`, `initializeClusters`) -/

/-- `processMatrix`: allocate `N` rows of `D` doubles and copy `array[i][j]` into them.  A
missing item makes `PyList_GetItem` return `NULL`, for which `PyFloat_AsDouble` gives
`-1.0`. -/
def processMatrix (N D : Nat) (array : List (List Dbl)) : List (List Dbl) :=
  (List.range N).map (fun i => (List.range D).map (fun j => (array.getD i []).getD j (Dbl.fin (-1))))

/-- `createCluster` of `kmeans_module.c`: `centroid` and `prev` are `calloc`ed with `D`
zeroed slots, then slots `0..D-1` are filled from the point. -/
def createCluster (D : Nat) (point : List Dbl) : CLUSTER :=
  let blank : CLUSTER := ⟨List.replicate D (Dbl.fin 0), List.replicate D (Dbl.fin 0), [], 0⟩
  let filled := (List.range D).foldl
    (fun c i => { c with prev := c.prev.set i (rd point i), centroid := c.centroid.set i (rd point i) })
    blank
  { filled with point_list := [], size := 0 }

/-- `addCluster`: the new node becomes the head of `cluster_list`. -/
def addCluster (s : KState) (cluster : CLUSTER) : KState :=
  { s with cluster_list := cluster :: s.cluster_list }

/-- The loop of `initializeClusters` over the seed indices `array[0..K-1]`, here the list
of those indices: create a cluster from `data[j]` and add it. -/
def initializeLoop (s : KState) : List Nat → KState
  | [] => s
  | j :: rest => initializeLoop (addCluster s (createCluster s.D (row s.data j))) rest

/-- `initializeClusters`: the first `K` entries of the index list are used. -/
def initializeClusters (s : KState) (array : List Nat) : KState :=
  initializeLoop s (array.take s.K)

/-- `kmeansSetup`: `N`, `D`, `K` are the sizes of the Python lists, then the data are
copied and the clusters created.  `PyList_GetItem(data_py, 0)` of an empty list is `NULL`
and taking its size dereferences it. -/
def kmeansSetup (s : KState) (data_py : List (List Dbl)) (centroids_py : List Nat) :
    Option KState :=
  match data_py with
  | [] => none
  | row0 :: _ =>
    let s1 := { s with N := data_py.length, D := row0.length, K := centroids_py.length }
    let s2 := { s1 with data := processMatrix s1.N s1.D data_py }
    some (initializeClusters s2 centroids_py)

/-! ## Distance and assignment -/

/-- `calculateDistance`: the sum of the squared coordinate differences over `0..D-1`, then
`sqrt`. -/
def calculateDistance (D : Nat) (point_a point_b : List Dbl) : Root :=
  Dbl.sqrt ((List.range D).foldl
    (fun sum i => let diff := rd point_a i - rd point_b i; sum + diff * diff) (Dbl.fin 0))

/-- The `while` loop of `findClosestCluster`: `curr` is the rest of the list, `idx` the
position of its first cluster in the whole list, `minDist` and `closestCluster` the two
locals. -/
def findClosestLoop (D : Nat) (point : List Dbl) :
    List CLUSTER → Nat → Root → Option Nat → Option Nat
  | [], _, _, closestCluster => closestCluster
  | c :: next, idx, minDist, closestCluster =>
    let dist := calculateDistance D point c.centroid
    if Root.lt dist minDist then findClosestLoop D point next (idx + 1) dist (some idx)
    else findClosestLoop D point next (idx + 1) minDist closestCluster

/-- `findClosestCluster`: the position of the returned cluster, `none` for `NULL`. -/
def findClosestCluster (s : KState) (point : List Dbl) : Option Nat :=
  findClosestLoop s.D point s.cluster_list 0 INFINITY none

/-- `addPoint`: a new node in front of the list, whose `size` is one more than the size of
the old head node (1 for an empty list). -/
def addPoint (point_list : List POINT_LIST) (point : Nat) : List POINT_LIST :=
  match point_list with
  | [] => ⟨point, 1⟩ :: []
  | old :: _ => ⟨point, old.size + 1⟩ :: point_list

/-- The two statements `addPoint(&cluster->point_list, data[i]); cluster->size++;`. -/
def addToCluster (cluster : CLUSTER) (i : Nat) : CLUSTER :=
  { cluster with point_list := addPoint cluster.point_list i, size := cluster.size + 1 }

/-- Apply `f` to the element at position `k` of a list (the write through a pointer). -/
def updateAt {α : Type} (f : α → α) : Nat → List α → List α
  | _, [] => []
  | 0, x :: xs => f x :: xs
  | k + 1, x :: xs => x :: updateAt f k xs

/-- The loop of `addPointsToClusters` over the rows `i`; a `NULL` result of
`findClosestCluster` is dereferenced, which ends the run. -/
def addPointsLoop (s : KState) : List Nat → Option KState
  | [] => some s
  | i :: rest =>
    match findClosestCluster s (row s.data i) with
    | none => none
    | some k =>
      addPointsLoop { s with cluster_list := updateAt (fun c => addToCluster c i) k s.cluster_list } rest

/-- `addPointsToClusters`: rows `0..N-1` in order. -/
def addPointsToClusters (s : KState) : Option KState :=
  addPointsLoop s (List.range s.N)

/-! ## One iteration -/

/-- `updateCentroid`: for each coordinate the sum over the point list, from its head on,
divided by `cluster->size`. -/
def updateCentroid (data : List (List Dbl)) (D : Nat) (cluster : CLUSTER) : CLUSTER :=
  (List.range D).foldl
    (fun c i =>
      let sum := c.point_list.foldl (fun sum curr => sum + rd (row data curr.head) i) (Dbl.fin 0)
      { c with centroid := c.centroid.set i (Dbl.divInt sum c.size) })
    cluster

/-- `clearCluster`: the nodes are freed, the list is `NULL` and the size 0. -/
def clearCluster (cluster : CLUSTER) : CLUSTER :=
  { cluster with point_list := [], size := 0 }

/-- The `for` loop of `kmeansIteration` that copies `centroid` into `prev`. -/
def savePrev (D : Nat) (cluster : CLUSTER) : CLUSTER :=
  (List.range D).foldl (fun c i => { c with prev := c.prev.set i (rd c.centroid i) }) cluster

/-- The `while` loop of `kmeansIteration` over the cluster list: the clusters as it leaves
them and the final `flag`. -/
def iterationLoop (s : KState) : List CLUSTER → Int → List CLUSTER × Int
  | [], flag => ([], flag)
  | c :: next, flag =>
    let c1 := updateCentroid s.data s.D (savePrev s.D c)
    let diff := calculateDistance s.D c1.prev c1.centroid
    let flag1 := if Root.gt diff s.eps then 1 else flag
    let r := iterationLoop s next flag1
    (clearCluster c1 :: r.1, r.2)

/-- `kmeansIteration`: the new globals and the returned flag. -/
def kmeansIteration (s : KState) : Option (KState × Int) :=
  match addPointsToClusters s with
  | none => none
  | some s1 =>
    let r := iterationLoop s1 s1.cluster_list 0
    some ({ s1 with cluster_list := r.1 }, r.2)

/-! ## The driver -/

/-- The loop of `convert_c_matrix_to_py_list` for the remaining `K - i` rows; `curr` being
`NULL` while rows remain is a `NULL` dereference. -/
def convertLoop (D : Nat) : Nat → List CLUSTER → Option (List (List Dbl))
  | 0, _ => some []
  | _ + 1, [] => none
  | n + 1, c :: next =>
    match convertLoop D n next with
    | none => none
    | some rows => some ((List.range D).map (fun j => rd c.centroid j) :: rows)

/-- `convert_c_matrix_to_py_list`: `K` rows of `D` values, read along `cluster_list`. -/
def convert_c_matrix_to_py_list (s : KState) : Option (List (List Dbl)) :=
  convertLoop s.D s.K s.cluster_list

/-- `freeMemory`: everything is released, `data` and `cluster_list` are `NULL` again. -/
def freeMemory (s : KState) : KState :=
  { s with data := [], cluster_list := [] }

/-- The loop `while (iter > 0) { flag = kmeansIteration(); if (flag == 0) break; iter--; }`
where `n` is the value of `iter` when it is positive and 0 otherwise.  The second
component counts the calls of `kmeansIteration` (it is not in the C code). -/
def kmeansLoop (s : KState) : Nat → Option (KState × Nat)
  | 0 => some (s, 0)
  | n + 1 =>
    match kmeansIteration s with
    | none => none
    | some (s1, flag) =>
      if flag = 0 then some (s1, 1)
      else
        match kmeansLoop { s1 with iter := s1.iter - 1 } n with
        | none => none
        | some (s2, calls) => some (s2, calls + 1)

/-- `kmeans`: the returned list of centroids and the globals it leaves behind. -/
def kmeans (s : KState) (iter : Int) (eps : Dbl) (data_py : List (List Dbl))
    (centroids_py : List Nat) : Option (List (List Dbl) × KState) :=
  match kmeansSetup { s with iter := iter, eps := eps } data_py centroids_py with
  | none => none
  | some s1 =>
    match kmeansLoop s1 iter.toNat with
    | none => none
    | some (s2, _) =>
      match convert_c_matrix_to_py_list s2 with
      | none => none
      | some newdata => some (newdata, freeMemory s2)

/-! ## The cluster helpers of `hw2.c`

`hw2.c` holds earlier versions of five functions; they take the dimension `D` and the
list they work on as arguments instead of reading globals. -/

namespace Hw2

/-- `addPoint` of `hw2.c`: the same as in `kmeans_module.c`. -/
def addPoint (point_list : List POINT_LIST) (point : Nat) : List POINT_LIST :=
  match point_list with
  | [] => ⟨point, 1⟩ :: []
  | old :: _ => ⟨point, old.size + 1⟩ :: point_list

/-- `addCluster` of `hw2.c`: the new node becomes the head of the list passed in. -/
def addCluster (cluster_list : List CLUSTER) (cluster : CLUSTER) : List CLUSTER :=
  cluster :: cluster_list

/-- `createCluster` of `hw2.c`: `centroid` and `prev` are `calloc`ed with `D + 1` zeroed
slots, then slots `0..D-1` are filled from the point. -/
def createCluster (point : List Dbl) (D : Nat) : CLUSTER :=
  let blank : CLUSTER :=
    ⟨List.replicate (D + 1) (Dbl.fin 0), List.replicate (D + 1) (Dbl.fin 0), [], 0⟩
  let filled := (List.range D).foldl
    (fun c i => { c with prev := c.prev.set i (rd point i), centroid := c.centroid.set i (rd point i) })
    blank
  { filled with point_list := [], size := 0 }

/-- `clearCluster` of `hw2.c`: the nodes are freed, the list is `NULL` and the size 0. -/
def clearCluster (cluster : CLUSTER) : CLUSTER :=
  { cluster with point_list := [], size := 0 }

/-- `updateCentroid` of `hw2.c`: for each coordinate the sum over the point list divided
by `cluster->size`; the rows the nodes point to are those of `data`. -/
def updateCentroid (data : List (List Dbl)) (cluster : CLUSTER) (D : Nat) : CLUSTER :=
  (List.range D).foldl
    (fun c i =>
      let sum := c.point_list.foldl (fun sum curr => sum + rd (row data curr.head) i) (Dbl.fin 0)
      { c with centroid := c.centroid.set i (Dbl.divInt sum c.size) })
    cluster

end Hw2

/-! ## IEEE 754 binary64 arithmetic

The arithmetic the compiled program computes with: every operation returns the double
nearest to the exact result.  A finite double is kept as the rational it stands for (the
two zeros are not told apart: no operation of the code depends on the sign of a zero). -/

namespace Ieee

/-- The power `2 ^ k` for an integer `k`, as a rational. -/
def pow2 (k : Int) : ℚ :=
  if 0 ≤ k then ((2 ^ k.toNat : Nat) : ℚ) else 1 / ((2 ^ (-k).toNat : Nat) : ℚ)

/-- The loop of `log2`: halve `n` until it is below 2, counting the halvings (`fuel` bounds
their number). -/
def log2Loop : Nat → Nat → Nat
  | 0, _ => 0
  | fuel + 1, n => if n < 2 then 0 else log2Loop fuel (n / 2) + 1

/-- The integer `e` with `2 ^ e ≤ n < 2 ^ (e + 1)`, for a positive natural number `n`. -/
def log2 (n : Nat) : Nat := log2Loop n n

/-- The integer `e` with `2 ^ e ≤ a < 2 ^ (e + 1)`, for a positive rational `a`. -/
def floorLog2 (a : ℚ) : Int :=
  let k : Int := (log2 a.num.natAbs : Int) - (log2 a.den : Int)
  if a < pow2 k then k - 1 else k

/-- The integer nearest to the non-negative rational `n`, the even one of the two when `n`
is half-way between them. -/
def roundHalfEven (n : ℚ) : Nat :=
  let f : Nat := n.num.natAbs / n.den
  let r : ℚ := n - (f : ℚ)
  if r < 1 / 2 then f
  else if 1 / 2 < r then f + 1
  else if f % 2 = 0 then f else f + 1

/-- The binary64 value nearest to the rational `q` (round to nearest, ties to even): 53
significant bits, least exponent `-1022` (below it the spacing stays `2 ^ -1074`), and an
infinity when the rounded magnitude reaches `2 ^ 1024`. -/
def round (q : ℚ) : Dbl :=
  if q = 0 then Dbl.fin 0
  else
    let a : ℚ := |q|
    let e : Int := max (floorLog2 a) (-1022)
    let ulp : ℚ := pow2 (e - 52)
    let r : ℚ := (roundHalfEven (a / ulp) : ℚ) * ulp
    if pow2 1024 ≤ r then Dbl.signedInf (decide (0 < q))
    else Dbl.fin (if 0 < q then r else -r)

/-- Binary64 addition: the exact sum, rounded. -/
def add : Dbl → Dbl → Dbl
  | Dbl.fin a, Dbl.fin b => round (a + b)
  | a, b => Dbl.add a b

/-- Binary64 subtraction: the exact difference, rounded. -/
def sub : Dbl → Dbl → Dbl
  | Dbl.fin a, Dbl.fin b => round (a - b)
  | a, b => Dbl.sub a b

/-- Binary64 multiplication: the exact product, rounded. -/
def mul : Dbl → Dbl → Dbl
  | Dbl.fin a, Dbl.fin b => round (a * b)
  | a, b => Dbl.mul a b

/-- Binary64 division of a double by an `int` (converted exactly to a double): the exact
quotient, rounded; a zero divisor as in `Dbl.divInt`. -/
def divInt : Dbl → Int → Dbl
  | Dbl.fin a, n => if n = 0 then Dbl.divInt (Dbl.fin a) n else round (a / (n : ℚ))
  | a, n => Dbl.divInt a n

/-- The loop of the integer square root: the bits `b - 1, …, 0` are tried from the highest
down, and a bit is kept when the square stays at most `n`. -/
def isqrtLoop (n : Nat) : Nat → Nat → Nat
  | 0, acc => acc
  | b + 1, acc =>
    if (acc + 2 ^ b) * (acc + 2 ^ b) ≤ n then isqrtLoop n b (acc + 2 ^ b) else isqrtLoop n b acc

/-- The integer square root: the greatest `r` with `r * r ≤ n`. -/
def isqrt (n : Nat) : Nat := isqrtLoop n (log2 n / 2 + 1) 0

/-- Binary64 `sqrt`: the square root, correctly rounded.  For `q > 0` with
`2 ^ e ≤ q < 2 ^ (e + 1)` the root lies in the binade of exponent `⌊e / 2⌋`, whose
spacing is `ulp`; `m` is the integer nearest to `sqrt q / ulp`. -/
def sqrt : Dbl → Dbl
  | Dbl.fin q =>
    if q < 0 then Dbl.nan
    else if q = 0 then Dbl.fin 0
    else
      let ulp : ℚ := pow2 (Int.fdiv (floorLog2 q) 2 - 52)
      let t : ℚ := q / (ulp * ulp)
      let f : Nat := isqrt (t.num.natAbs / t.den)
      let half : ℚ := (f : ℚ) + 1 / 2
      let m : Nat :=
        if t < half * half then f
        else if half * half < t then f + 1
        else if f % 2 = 0 then f else f + 1
      Dbl.fin ((m : ℚ) * ulp)
  | Dbl.pinf => Dbl.pinf
  | Dbl.ninf => Dbl.nan
  | Dbl.nan => Dbl.nan

end Ieee

/-! ## The functions that compute with doubles, for any double arithmetic -/

/-- The operations on doubles that the code uses: `+`, `-`, `*`, the division by an
`int`, `sqrt`, the constant `INFINITY`, and the two comparisons `dist < minDist` and
`diff > eps`.  `R` is the type of the values `sqrt` returns. -/
structure Arith (R : Type) where
  add : Dbl → Dbl → Dbl
  sub : Dbl → Dbl → Dbl
  mul : Dbl → Dbl → Dbl
  divInt : Dbl → Int → Dbl
  sqrt : Dbl → R
  infinity : R
  lt : R → R → Bool
  gt : R → Dbl → Bool

/-- Exact arithmetic: the operations of `Dbl`, distances kept as radicands. -/
def exactArith : Arith Root :=
  ⟨Dbl.add, Dbl.sub, Dbl.mul, Dbl.divInt, Dbl.sqrt, INFINITY, Root.lt, Root.gt⟩

/-- IEEE 754 binary64 arithmetic: every operation rounds to nearest (ties to even), a
distance is a double, `diff > eps` is `eps < diff`. -/
def ieeeArith : Arith Dbl :=
  ⟨Ieee.add, Ieee.sub, Ieee.mul, Ieee.divInt, Ieee.sqrt, Dbl.pinf, Dbl.lt, fun diff eps => Dbl.lt eps diff⟩

namespace Gen

/-- `calculateDistance` with the operations of `A`. -/
def calculateDistance {R : Type} (A : Arith R) (D : Nat) (point_a point_b : List Dbl) : R :=
  A.sqrt ((List.range D).foldl
    (fun sum i => let diff := A.sub (rd point_a i) (rd point_b i); A.add sum (A.mul diff diff))
    (Dbl.fin 0))

/-- The `while` loop of `findClosestCluster` with the operations of `A`. -/
def findClosestLoop {R : Type} (A : Arith R) (D : Nat) (point : List Dbl) :
    List CLUSTER → Nat → R → Option Nat → Option Nat
  | [], _, _, closestCluster => closestCluster
  | c :: next, idx, minDist, closestCluster =>
    let dist := calculateDistance A D point c.centroid
    if A.lt dist minDist then findClosestLoop A D point next (idx + 1) dist (some idx)
    else findClosestLoop A D point next (idx + 1) minDist closestCluster

/-- `findClosestCluster` with the operations of `A`. -/
def findClosestCluster {R : Type} (A : Arith R) (s : KState) (point : List Dbl) : Option Nat :=
  findClosestLoop A s.D point s.cluster_list 0 A.infinity none

/-- The loop of `addPointsToClusters` with the operations of `A`. -/
def addPointsLoop {R : Type} (A : Arith R) (s : KState) : List Nat → Option KState
  | [] => some s
  | i :: rest =>
    match findClosestCluster A s (row s.data i) with
    | none => none
    | some k =>
      addPointsLoop A
        { s with cluster_list := updateAt (fun c => addToCluster c i) k s.cluster_list } rest

/-- `addPointsToClusters` with the operations of `A`. -/
def addPointsToClusters {R : Type} (A : Arith R) (s : KState) : Option KState :=
  addPointsLoop A s (List.range s.N)

/-- `updateCentroid` with the operations of `A`. -/
def updateCentroid {R : Type} (A : Arith R) (data : List (List Dbl)) (D : Nat)
    (cluster : CLUSTER) : CLUSTER :=
  (List.range D).foldl
    (fun c i =>
      let sum := c.point_list.foldl (fun sum curr => A.add sum (rd (row data curr.head) i)) (Dbl.fin 0)
      { c with centroid := c.centroid.set i (A.divInt sum c.size) })
    cluster

/-- The `while` loop of `kmeansIteration` with the operations of `A`. -/
def iterationLoop {R : Type} (A : Arith R) (s : KState) : List CLUSTER → Int → List CLUSTER × Int
  | [], flag => ([], flag)
  | c :: next, flag =>
    let c1 := updateCentroid A s.data s.D (savePrev s.D c)
    let diff := calculateDistance A s.D c1.prev c1.centroid
    let flag1 := if A.gt diff s.eps then 1 else flag
    let r := iterationLoop A s next flag1
    (clearCluster c1 :: r.1, r.2)

/-- `kmeansIteration` with the operations of `A`. -/
def kmeansIteration {R : Type} (A : Arith R) (s : KState) : Option (KState × Int) :=
  match addPointsToClusters A s with
  | none => none
  | some s1 =>
    let r := iterationLoop A s1 s1.cluster_list 0
    some ({ s1 with cluster_list := r.1 }, r.2)

/-- The loop of `kmeans` with the operations of `A`; the second component counts the
calls of `kmeansIteration`. -/
def kmeansLoop {R : Type} (A : Arith R) (s : KState) : Nat → Option (KState × Nat)
  | 0 => some (s, 0)
  | n + 1 =>
    match kmeansIteration A s with
    | none => none
    | some (s1, flag) =>
      if flag = 0 then some (s1, 1)
      else
        match kmeansLoop A { s1 with iter := s1.iter - 1 } n with
        | none => none
        | some (s2, calls) => some (s2, calls + 1)

/-- `kmeans` with the operations of `A`. -/
def kmeans {R : Type} (A : Arith R) (s : KState) (iter : Int) (eps : Dbl)
    (data_py : List (List Dbl)) (centroids_py : List Nat) : Option (List (List Dbl) × KState) :=
  match kmeansSetup { s with iter := iter, eps := eps } data_py centroids_py with
  | none => none
  | some s1 =>
    match kmeansLoop A s1 iter.toNat with
    | none => none
    | some (s2, _) =>
      match convert_c_matrix_to_py_list s2 with
      | none => none
      | some newdata => some (newdata, freeMemory s2)

end Gen

/-! ## Definitions used to state the properties -/

/-! ### Values and comparisons -/

/-- The rational value of a finite double (0 for the specials). -/
def Dbl.val : Dbl → ℚ
  | Dbl.fin q => q
  | _ => 0

/-- The first `D` slots of the array hold numbers. -/
def FinVec (D : Nat) (v : List Dbl) : Prop := ∀ i, i < D → (rd v i).isFin = true

instance (D : Nat) (v : List Dbl) : Decidable (FinVec D v) := by
  unfold FinVec; infer_instance

/-- The squared Euclidean distance of the first `D` coordinates, as a rational. -/
def sqDist (D : Nat) (a b : List Dbl) : ℚ :=
  ((List.range D).map (fun i => ((rd a i).val - (rd b i).val) ^ 2)).sum

/-- The C comparison `a <= b` on doubles: false as soon as one side is NaN. -/
def Dbl.le : Dbl → Dbl → Bool
  | Dbl.fin a, Dbl.fin b => decide (a ≤ b)
  | Dbl.nan, _ => false
  | _, Dbl.nan => false
  | Dbl.ninf, _ => true
  | _, Dbl.pinf => true
  | _, _ => false

/-- The comparison `a <= b` of two distances. -/
def Root.le (a b : Root) : Bool := Dbl.le a.radicand b.radicand

/-- The C comparison `diff <= eps` of a distance with a double: for a finite distance
`sqrt s` and a finite `e` it holds when `e` is not negative and `s <= e * e`; it is false
as soon as one side is NaN. -/
def Root.leEps : Root → Dbl → Bool
  | ⟨Dbl.nan⟩, _ => false
  | ⟨Dbl.ninf⟩, _ => false
  | _, Dbl.nan => false
  | _, Dbl.pinf => true
  | _, Dbl.ninf => false
  | ⟨Dbl.pinf⟩, Dbl.fin _ => false
  | ⟨Dbl.fin s⟩, Dbl.fin e => decide (0 ≤ e) && decide (s ≤ e * e)

/-! ### The loops, in closed form -/

/-- The loop `for (i = 0; i < n; i++) a[i] = f(i);` on an array. -/
def setLoop (f : Nat → Dbl) (n : Nat) (a : List Dbl) : List Dbl :=
  (List.range n).foldl (fun l i => l.set i (f i)) a

/-- The sum `sum += curr->head[i]` along a point list. -/
def coordSum (data : List (List Dbl)) (point_list : List POINT_LIST) (i : Nat) : Dbl :=
  point_list.foldl (fun sum curr => sum + rd (row data curr.head) i) (Dbl.fin 0)

/-- The rows of `l` that `findClosestCluster`, run on the state `s`, gives to cluster `k`. -/
def assignedTo (s : KState) (l : List Nat) (k : Nat) : List Nat :=
  l.filter (fun i => decide (findClosestCluster s (row s.data i) = some k))

/-- What the body of the `while` loop of `kmeansIteration` does to one cluster before it
clears it: copy `centroid` to `prev`, then `updateCentroid`. -/
def recompute (s : KState) (c : CLUSTER) : CLUSTER :=
  updateCentroid s.data s.D (savePrev s.D c)

/-- The test `diff > eps` of the loop body for one cluster. -/
def moved (s : KState) (c : CLUSTER) : Bool :=
  Root.gt (calculateDistance s.D (recompute s c).prev (recompute s c).centroid) s.eps

/-- The Python row a cluster hands out: the first `D` slots of its centroid. -/
def centroidRow (D : Nat) (c : CLUSTER) : List Dbl :=
  (List.range D).map (fun j => rd c.centroid j)

/-- The coordinate-wise mean of the first `N` rows of the data, on `D` coordinates. -/
def meanRow (data : List (List Dbl)) (N D : Nat) : List Dbl :=
  (List.range D).map (fun d =>
    Dbl.fin ((((List.range N).map (fun i => (rd (row data i) d).val)).sum) / (N : ℚ)))

/-- The flag that call number `n + 1` of `kmeansIteration` returns in a run from `s` whose
loop goes on after each earlier call (`iter` is decremented between two calls). -/
def flagOf (s : KState) : Nat → Option Int
  | 0 => (kmeansIteration s).map (fun r => r.2)
  | n + 1 =>
    match kmeansIteration s with
    | none => none
    | some (t, _) => flagOf { t with iter := t.iter - 1 } n

/-- The globals after `n` rounds of the loop body of `kmeans` (a call of
`kmeansIteration`, then `iter--`), whatever the flags are. -/
def stateAfter (s : KState) : Nat → Option KState
  | 0 => some s
  | n + 1 =>
    match kmeansIteration s with
    | none => none
    | some (t, _) => stateAfter { t with iter := t.iter - 1 } n

/-! ### Inputs and states of a run -/

/-- What the interface asks of its input, as far as the code needs it: a non-empty
rectangular matrix of numbers, and a non-empty list of seed indices that are rows of it. -/
def ValidInput (data_py : List (List Dbl)) (centroids_py : List Nat) : Prop :=
  data_py ≠ [] ∧
  (∀ r ∈ data_py, r.length = (data_py.headD []).length ∧ ∀ x ∈ r, x.isFin = true) ∧
  centroids_py ≠ [] ∧ ∀ j ∈ centroids_py, j < data_py.length

instance (data_py : List (List Dbl)) (centroids_py : List Nat) :
    Decidable (ValidInput data_py centroids_py) := by
  unfold ValidInput; infer_instance

/-- The states of a run between two iterations, for a valid input: there is a data row,
the rows hold numbers, every cluster has its two arrays of `D` slots and an empty
membership, `K` is the number of clusters, and at least one centroid holds numbers. -/
def Good (s : KState) : Prop :=
  1 ≤ s.N ∧
  (∀ i, i < s.N → FinVec s.D (row s.data i)) ∧
  (∀ c ∈ s.cluster_list,
    c.centroid.length = s.D ∧ c.prev.length = s.D ∧ c.point_list = [] ∧ c.size = 0) ∧
  s.K = s.cluster_list.length ∧
  ∃ c ∈ s.cluster_list, FinVec s.D c.centroid

/-- The states of a run with one cluster on the data `data_py` with the tolerance `e`. -/
def SingleRun (data_py : List (List Dbl)) (e : ℚ) (t : KState) : Prop :=
  Good t ∧ t.data = data_py ∧ t.N = data_py.length ∧ t.D = (data_py.headD []).length ∧
  t.eps = Dbl.fin e ∧ t.cluster_list.length = 1

/-- The single cluster holds the mean of all rows. -/
def AtMean (t : KState) : Prop :=
  ∃ c, t.cluster_list = [c] ∧ centroidRow t.D c = meanRow t.data t.N t.D

/-! ### Concrete states -/

/-- The state of the worked scenario of the specification after `kmeansSetup`: points
`[[1],[2],[10],[11]]`, seed indices `[0,2]`, `eps = 0.0001`, `iter = 10`. -/
def scenarioState : KState :=
  ⟨[[Dbl.fin 1], [Dbl.fin 2], [Dbl.fin 10], [Dbl.fin 11]], 2, 1, 4, 10, Dbl.fin (1 / 10000),
    [⟨[Dbl.fin 10], [Dbl.fin 10], [], 0⟩, ⟨[Dbl.fin 1], [Dbl.fin 1], [], 0⟩]⟩

/-- The scenario after its first iteration: the centroids are `[10.5]` and `[1.5]`. -/
def scenarioAfterOne : KState :=
  { scenarioState with cluster_list :=
      [⟨[Dbl.fin (21 / 2)], [Dbl.fin 10], [], 0⟩, ⟨[Dbl.fin (3 / 2)], [Dbl.fin 1], [], 0⟩] }

/-- The scenario when its loop ends: the second iteration left the centroids where they
were (`iter` was decremented once). -/
def scenarioFinal : KState :=
  { scenarioState with
    iter := 9,
    cluster_list :=
      [⟨[Dbl.fin (21 / 2)], [Dbl.fin (21 / 2)], [], 0⟩, ⟨[Dbl.fin (3 / 2)], [Dbl.fin (3 / 2)], [], 0⟩] }

/-- The state `kmeansSetup` builds from the data `[[0],[2],[1]]` and the seed indices
`[0,1]`: the cluster of the second seed (centroid `[2]`) is the head of the list. -/
def tieState : KState :=
  ⟨[[Dbl.fin 0], [Dbl.fin 2], [Dbl.fin 1]], 2, 1, 3, 1, Dbl.fin (1 / 10000),
    [⟨[Dbl.fin 2], [Dbl.fin 2], [], 0⟩, ⟨[Dbl.fin 0], [Dbl.fin 0], [], 0⟩]⟩

/-- The state `kmeansSetup` builds from the data `[[1],[1]]` and the seed indices `[0,1]`
with `eps = 0.0001`: two clusters with the same centroid. -/
def twinState : KState :=
  ⟨[[Dbl.fin 1], [Dbl.fin 1]], 2, 1, 2, 1, Dbl.fin (1 / 10000),
    [⟨[Dbl.fin 1], [Dbl.fin 1], [], 0⟩, ⟨[Dbl.fin 1], [Dbl.fin 1], [], 0⟩]⟩

/-- The state that one call of `kmeansIteration` leaves from the data `[[1],[1],[5]]` and
the seed indices `[0,1]`: the cluster seeded last took the three points, the other one
none, and `0.0 / 0` made its centroid NaN. -/
def degenerateState : KState :=
  ⟨[[Dbl.fin 1], [Dbl.fin 1], [Dbl.fin 5]], 2, 1, 3, 5, Dbl.fin (1 / 10000),
    [⟨[Dbl.fin (7 / 3)], [Dbl.fin 1], [], 0⟩, ⟨[Dbl.nan], [Dbl.fin 1], [], 0⟩]⟩

/-- A state with one cluster whose centroid is NaN and one data point (what `kmeansSetup`
builds from the data `[[NaN]]` and the seed list `[0]`). -/
def nanState : KState :=
  ⟨[[Dbl.nan]], 1, 1, 1, 1, Dbl.fin (1 / 10000), [⟨[Dbl.nan], [Dbl.nan], [], 0⟩]⟩

/-! ### More values -/

/-- The least element of a list of rationals (0 for the empty list). -/
def minList : List ℚ → ℚ
  | [] => 0
  | [x] => x
  | x :: y :: l => min x (minList (y :: l))

/-- The squared Euclidean distance from row `i` of the data to its nearest centroid (the
row and the centroids holding numbers). -/
def nearestSq (s : KState) (i : Nat) : ℚ :=
  minList (s.cluster_list.map (fun c => sqDist s.D (row s.data i) c.centroid))

/-- The clustering cost of a state: the sum over the `N` rows of the squared Euclidean
distance from the row to its nearest centroid. -/
def cost (s : KState) : ℚ :=
  ((List.range s.N).map (nearestSq s)).sum

/-- The centroid array of the cluster at position `k` (empty when there is none). -/
def centroidAt (cs : List CLUSTER) (k : Nat) : List Dbl :=
  (cs[k]?.map (fun c => c.centroid)).getD []

/-- The position of the cluster `findClosestCluster` gives to row `i` (0 for `NULL`). -/
def assignment (s : KState) (i : Nat) : Nat :=
  (findClosestCluster s (row s.data i)).getD 0

/-! ### Clusters of a run -/

/-- The clusters a run can hold: a cluster starts with `createCluster` (of either file),
receives points by the two statements of `addPointsToClusters`, is recomputed by the loop
body of `kmeansIteration` (copy to `prev`, `updateCentroid`) and is cleared by
`clearCluster`. -/
inductive ReachableCluster : CLUSTER → Prop where
  | create (D : Nat) (point : List Dbl) : ReachableCluster (createCluster D point)
  | createHw2 (point : List Dbl) (D : Nat) : ReachableCluster (Hw2.createCluster point D)
  | add (c : CLUSTER) (i : Nat) : ReachableCluster c → ReachableCluster (addToCluster c i)
  | save (D : Nat) (c : CLUSTER) : ReachableCluster c → ReachableCluster (savePrev D c)
  | update (data : List (List Dbl)) (D : Nat) (c : CLUSTER) :
      ReachableCluster c → ReachableCluster (updateCentroid data D c)
  | clear (c : CLUSTER) : ReachableCluster c → ReachableCluster (clearCluster c)

/-! ### The loops for any double arithmetic, in closed form -/

namespace Gen

/-- The rows of `l` that `findClosestCluster`, run on the state `s` with the operations of
`A`, gives to the cluster at position `k`. -/
def assignedTo {R : Type} (A : Arith R) (s : KState) (l : List Nat) (k : Nat) : List Nat :=
  l.filter (fun i => decide (findClosestCluster A s (row s.data i) = some k))

/-- The sum `sum += curr->head[i]` along a point list. -/
def coordSum {R : Type} (A : Arith R) (data : List (List Dbl)) (point_list : List POINT_LIST)
    (i : Nat) : Dbl :=
  point_list.foldl (fun sum curr => A.add sum (rd (row data curr.head) i)) (Dbl.fin 0)

/-- What the body of the `while` loop of `kmeansIteration` does to one cluster before it
clears it: copy `centroid` to `prev`, then `updateCentroid`. -/
def recompute {R : Type} (A : Arith R) (s : KState) (c : CLUSTER) : CLUSTER :=
  updateCentroid A s.data s.D (savePrev s.D c)

/-- The test `diff > eps` of the loop body for one cluster. -/
def moved {R : Type} (A : Arith R) (s : KState) (c : CLUSTER) : Bool :=
  A.gt (calculateDistance A s.D (recompute A s c).prev (recompute A s c).centroid) s.eps

/-- What one call of `kmeansIteration` on the state `s` makes of the cluster `c` at
position `k` of the list: the two statements of `addPointsToClusters` for each row that
`findClosestCluster` gives to position `k`, in the order of the rows, then the body of the
`while` loop (copy to `prev`, `updateCentroid`, `clearCluster`). -/
def stepCluster {R : Type} (A : Arith R) (s : KState) (k : Nat) (c : CLUSTER) : CLUSTER :=
  clearCluster (recompute A s ((assignedTo A s (List.range s.N) k).foldl addToCluster c))

/-- The flag that call number `n + 1` of `kmeansIteration` returns in a run from `s` whose
loop goes on after each earlier call (`iter` is decremented between two calls); `none`
when that call or an earlier one dereferences `NULL`. -/
def flagOf {R : Type} (A : Arith R) (s : KState) : Nat → Option Int
  | 0 => (kmeansIteration A s).map (fun r => r.2)
  | n + 1 =>
    match kmeansIteration A s with
    | none => none
    | some (t, _) => flagOf A { t with iter := t.iter - 1 } n

/-- The globals after `n` rounds of the loop body of `kmeans` (a call of
`kmeansIteration`, then `iter--`), whatever the flags are. -/
def stateAfter {R : Type} (A : Arith R) (s : KState) : Nat → Option KState
  | 0 => some s
  | n + 1 =>
    match kmeansIteration A s with
    | none => none
    | some (t, _) => stateAfter A { t with iter := t.iter - 1 } n

end Gen

/-- The laws of the comparison `<` of distances that hold for doubles, rounded or not: it is
irreflexive and transitive, and two values that are both below a third one (so neither is
NaN) and of which neither is below the other are equal. -/
structure Arith.Ordered {R : Type} (A : Arith R) : Prop where
  irrefl : ∀ x, A.lt x x = false
  trans : ∀ x y z, A.lt x y = true → A.lt y z = true → A.lt x z = true
  total : ∀ x y z, A.lt x z = true → A.lt y z = true → A.lt x y = false → A.lt y x = false → x = y

/-- The double `2 ^ k`, for `-1074 ≤ k ≤ 1023`. -/
def Dbl.two (k : Int) : Dbl := Dbl.fin (Ieee.pow2 k)

/-- A state with the point `(0, 0)` and two clusters, at `(1, 2^-30)` and at `(1, 0)`: the
second one is nearer, by less than rounding keeps. -/
def nearState : KState :=
  ⟨[[Dbl.fin 0, Dbl.fin 0]], 2, 2, 1, 1, Ieee.round (1 / 10000),
    [⟨[Dbl.fin 1, Dbl.two (-30)], [Dbl.fin 1, Dbl.two (-30)], [], 0⟩,
     ⟨[Dbl.fin 1, Dbl.fin 0], [Dbl.fin 1, Dbl.fin 0], [], 0⟩]⟩

/-- The state `kmeansSetup` builds from the data `[[0], [2^-600]]` and the seed list `[0]`
with `eps = 2^-900`: the centroid moves by `2^-601`, whose square is below the smallest
double. -/
def tinyState : KState :=
  ⟨[[Dbl.fin 0], [Dbl.two (-600)]], 1, 1, 2, 10, Dbl.two (-900),
    [⟨[Dbl.fin 0], [Dbl.fin 0], [], 0⟩]⟩

/-- The state that one call of `kmeansIteration` leaves, in IEEE arithmetic, from the data
`[[1],[1],[4]]` and the seed indices `[0,1]`: the cluster seeded last took the three rows
(their mean is `2`), the other one none, and `0.0 / 0` made its centroid NaN. -/
def emptiedState : KState :=
  ⟨[[Dbl.fin 1], [Dbl.fin 1], [Dbl.fin 4]], 2, 1, 3, 5, Ieee.round (1 / 10000),
    [⟨[Dbl.fin 2], [Dbl.fin 1], [], 0⟩, ⟨[Dbl.nan], [Dbl.fin 1], [], 0⟩]⟩

/-- The state `tieState` with values that are doubles (`eps` is the double nearest to
`0.0001`) and two iterations allowed. -/
def tieDoubles : KState := { tieState with iter := 2, eps := Ieee.round (1 / 10000) }

/-- The state after the first round of the loop from `tieDoubles`, in IEEE arithmetic: the
cluster of the second seed took the rows 1 and 2 and is at `[1.5]`, the cluster of the
first seed took row 0 and stays at `[0]`. -/
def tieAfterOne : KState :=
  { tieDoubles with
    iter := 1,
    cluster_list := [⟨[Dbl.fin (3 / 2)], [Dbl.fin 2], [], 0⟩, ⟨[Dbl.fin 0], [Dbl.fin 0], [], 0⟩] }

/-- The state `nanState` with an `eps` that is a double. -/
def nanDoubles : KState := { nanState with eps := Ieee.round (1 / 10000) }

/-! ## Properties -/

/-! ## Arithmetic on finite doubles -/

@[simp] theorem Dbl.fin_add (a b : ℚ) : Dbl.fin a + Dbl.fin b = Dbl.fin (a + b) := rfl

@[simp] theorem Dbl.fin_sub (a b : ℚ) : Dbl.fin a - Dbl.fin b = Dbl.fin (a - b) := by
  show Dbl.add (Dbl.fin a) (Dbl.neg (Dbl.fin b)) = _
  simp [Dbl.add, Dbl.neg, sub_eq_add_neg]

@[simp] theorem Dbl.fin_mul (a b : ℚ) : Dbl.fin a * Dbl.fin b = Dbl.fin (a * b) := rfl

theorem Dbl.divInt_fin (a : ℚ) (n : Int) (h : n ≠ 0) :
    Dbl.divInt (Dbl.fin a) n = Dbl.fin (a / (n : ℚ)) := by
  simp [Dbl.divInt, h]

theorem Dbl.isFin_iff (x : Dbl) : x.isFin = true ↔ ∃ q, x = Dbl.fin q := by
  cases x <;> simp [Dbl.isFin]

theorem Dbl.eq_fin_val {x : Dbl} (h : x.isFin = true) : x = Dbl.fin x.val := by
  cases x <;> simp_all [Dbl.isFin, Dbl.val]

theorem sqDist_nonneg (D : Nat) (a b : List Dbl) : 0 ≤ sqDist D a b := by
  unfold sqDist
  apply List.sum_nonneg
  intro x hx
  simp only [List.mem_map] at hx
  obtain ⟨i, -, rfl⟩ := hx
  positivity

theorem foldl_range_succ {β : Type} (f : β → Nat → β) (b : β) (n : Nat) :
    (List.range (n + 1)).foldl f b = f ((List.range n).foldl f b) n := by
  rw [List.range_succ, List.foldl_append]; rfl

theorem sum_range_succ_map (f : Nat → ℚ) (n : Nat) :
    ((List.range (n + 1)).map f).sum = ((List.range n).map f).sum + f n := by
  rw [List.range_succ, List.map_append, List.sum_append]; simp

theorem calculateDistance_fin (D : Nat) (a b : List Dbl) (ha : FinVec D a) (hb : FinVec D b) :
    calculateDistance D a b = ⟨Dbl.fin (sqDist D a b)⟩ := by
  have key : ∀ n, n ≤ D → (List.range n).foldl
      (fun sum i => let diff := rd a i - rd b i; sum + diff * diff) (Dbl.fin 0)
      = Dbl.fin (((List.range n).map (fun i => ((rd a i).val - (rd b i).val) ^ 2)).sum) := by
    intro n
    induction n with
    | zero => intro _; simp
    | succ n ih =>
      intro hn
      rw [foldl_range_succ, ih (Nat.le_of_succ_le hn), sum_range_succ_map]
      have h1 := Dbl.eq_fin_val (ha n hn)
      have h2 := Dbl.eq_fin_val (hb n hn)
      simp only []
      rw [h1, h2]
      simp [pow_two, Dbl.val]
  unfold calculateDistance
  rw [key D le_rfl]
  have := sqDist_nonneg D a b
  unfold sqDist at this ⊢
  simp [Dbl.sqrt, not_lt.mpr this]

theorem setLoop_succ (f : Nat → Dbl) (n : Nat) (a : List Dbl) :
    setLoop f (n + 1) a = (setLoop f n a).set n (f n) := by
  unfold setLoop; rw [foldl_range_succ]

@[simp] theorem setLoop_length (f : Nat → Dbl) (n : Nat) (a : List Dbl) :
    (setLoop f n a).length = a.length := by
  induction n with
  | zero => simp [setLoop]
  | succ n ih => rw [setLoop_succ]; simp [ih]

theorem rd_set (a : List Dbl) (n i : Nat) (x : Dbl) (h : n < a.length) :
    rd (a.set n x) i = if i = n then x else rd a i := by
  unfold rd
  simp only [List.getD_eq_getElem?_getD, List.getElem?_set]
  by_cases hi : i = n
  · subst hi; simp [h]
  · have : ¬ n = i := fun e => hi e.symm
    simp [hi, this]

theorem rd_setLoop (f : Nat → Dbl) (n : Nat) (a : List Dbl) (h : n ≤ a.length) (i : Nat) :
    rd (setLoop f n a) i = if i < n then f i else rd a i := by
  induction n with
  | zero => simp [setLoop]
  | succ n ih =>
    rw [setLoop_succ, rd_set _ _ _ _ (by simpa using h), ih (Nat.le_of_succ_le h)]
    by_cases h1 : i = n
    · subst h1; simp
    · by_cases h2 : i < n
      · simp [h1, h2, Nat.lt_succ_of_lt h2]
      · have : ¬ i < n + 1 := by omega
        simp [h1, h2, this]

theorem createCluster_eq (D : Nat) (point : List Dbl) :
    createCluster D point =
      ⟨setLoop (rd point) D (List.replicate D (Dbl.fin 0)),
       setLoop (rd point) D (List.replicate D (Dbl.fin 0)), [], 0⟩ := by
  have key : ∀ n (c : CLUSTER), (List.range n).foldl
      (fun c i => { c with prev := c.prev.set i (rd point i), centroid := c.centroid.set i (rd point i) }) c
      = { c with prev := setLoop (rd point) n c.prev, centroid := setLoop (rd point) n c.centroid } := by
    intro n c
    induction n with
    | zero => simp [setLoop]
    | succ n ih => rw [foldl_range_succ, ih, setLoop_succ, setLoop_succ]
  unfold createCluster
  simp only [key]

theorem savePrev_eq (D : Nat) (c : CLUSTER) :
    savePrev D c = { c with prev := setLoop (rd c.centroid) D c.prev } := by
  have key : ∀ n, (List.range n).foldl
      (fun c i => { c with prev := c.prev.set i (rd c.centroid i) }) c
      = { c with prev := setLoop (rd c.centroid) n c.prev } := by
    intro n
    induction n with
    | zero => simp [setLoop]
    | succ n ih => rw [foldl_range_succ, ih, setLoop_succ]
  exact key D

theorem updateCentroid_eq (data : List (List Dbl)) (D : Nat) (c : CLUSTER) :
    updateCentroid data D c =
      { c with centroid := setLoop (fun i => Dbl.divInt (coordSum data c.point_list i) c.size) D c.centroid } := by
  have key : ∀ n, (List.range n).foldl
      (fun c i =>
        let sum := c.point_list.foldl (fun sum curr => sum + rd (row data curr.head) i) (Dbl.fin 0)
        { c with centroid := c.centroid.set i (Dbl.divInt sum c.size) }) c
      = { c with centroid := setLoop (fun i => Dbl.divInt (coordSum data c.point_list i) c.size) n c.centroid } := by
    intro n
    induction n with
    | zero => simp [setLoop]
    | succ n ih => rw [foldl_range_succ, ih, setLoop_succ]; rfl
  exact key D

/-! ## `findClosestCluster` -/

theorem Root.lt_fin_fin (a b : ℚ) : Root.lt ⟨Dbl.fin a⟩ ⟨Dbl.fin b⟩ = decide (a < b) := rfl

theorem Root.lt_fin_INFINITY (a : ℚ) : Root.lt ⟨Dbl.fin a⟩ INFINITY = true := rfl

theorem Root.lt_fin_trans {a b : ℚ} {m : Root} (hab : a ≤ b) (hb : Root.lt ⟨Dbl.fin b⟩ m = true) :
    Root.lt ⟨Dbl.fin a⟩ m = true := by
  rcases m with ⟨m⟩
  cases m <;> simp_all [Root.lt, Dbl.lt]
  exact lt_of_le_of_lt hab hb

theorem Root.lt_fin_of_not {a b : ℚ} {m : Root} (ha : Root.lt ⟨Dbl.fin a⟩ m = true)
    (hb : ¬ Root.lt ⟨Dbl.fin b⟩ m = true) : a < b := by
  rcases m with ⟨m⟩
  cases m <;> simp_all [Root.lt, Dbl.lt]
  exact lt_of_lt_of_le ha hb

/-- Once a cluster has been chosen the loop returns a cluster. -/
theorem findClosestLoop_some (D : Nat) (point : List Dbl) (cs : List CLUSTER) (idx : Nat)
    (m : Root) (k : Nat) : ∃ r, findClosestLoop D point cs idx m (some k) = some r := by
  induction cs generalizing idx m k with
  | nil => exact ⟨k, rfl⟩
  | cons c next ih =>
    unfold findClosestLoop
    simp only []
    split
    · exact ih _ _ _
    · exact ih _ _ _

/-- A cluster closer than the running minimum makes the loop return a cluster. -/
theorem findClosestLoop_isSome (D : Nat) (point : List Dbl) (cs : List CLUSTER) (idx : Nat)
    (m : Root) (cl : Option Nat)
    (h : ∃ c ∈ cs, Root.lt (calculateDistance D point c.centroid) m = true) :
    ∃ r, findClosestLoop D point cs idx m cl = some r := by
  induction cs generalizing idx m cl with
  | nil => obtain ⟨c, hc, -⟩ := h; simp at hc
  | cons c next ih =>
    unfold findClosestLoop
    simp only []
    split
    · exact findClosestLoop_some _ _ _ _ _ _
    · rename_i hlt
      apply ih
      obtain ⟨c', hc', hlt'⟩ := h
      rcases List.mem_cons.mp hc' with rfl | hmem
      · exact absurd hlt' hlt
      · exact ⟨c', hmem, hlt'⟩

/-- The returned position is that of a cluster of the list (or the one chosen before). -/
theorem findClosestLoop_range (D : Nat) (point : List Dbl) (cs : List CLUSTER) (idx : Nat)
    (m : Root) (cl : Option Nat) (r : Nat)
    (h : findClosestLoop D point cs idx m cl = some r) :
    cl = some r ∨ (idx ≤ r ∧ r < idx + cs.length) := by
  induction cs generalizing idx m cl with
  | nil => left; simpa [findClosestLoop] using h
  | cons c next ih =>
    unfold findClosestLoop at h
    simp only [] at h
    split at h
    · rcases ih _ _ _ h with h1 | h1
      · right; simp at h1; subst h1; simp
      · right; simp; omega
    · rcases ih _ _ _ h with h1 | h1
      · left; exact h1
      · right; simp; omega

theorem findClosestCluster_lt (s : KState) (point : List Dbl) (k : Nat)
    (h : findClosestCluster s point = some k) : k < s.cluster_list.length := by
  rcases findClosestLoop_range _ _ _ _ _ _ _ h with h1 | h1
  · simp at h1
  · omega

/-- The loop on clusters with finite centroids: either nothing beats the running minimum,
or the result is the first cluster of least squared distance, which beats it. -/
theorem findClosestLoop_fin (D : Nat) (point : List Dbl) (hp : FinVec D point)
    (cs : List CLUSTER) (hcs : ∀ c ∈ cs, FinVec D c.centroid) (idx : Nat) (m : Root)
    (cl : Option Nat) :
    (findClosestLoop D point cs idx m cl = cl ∧
        ∀ c ∈ cs, ¬ Root.lt ⟨Dbl.fin (sqDist D point c.centroid)⟩ m = true) ∨
    ∃ j c, cs[j]? = some c ∧ findClosestLoop D point cs idx m cl = some (idx + j) ∧
      Root.lt ⟨Dbl.fin (sqDist D point c.centroid)⟩ m = true ∧
      (∀ (i : Nat) (c' : CLUSTER), cs[i]? = some c' → sqDist D point c.centroid ≤ sqDist D point c'.centroid) ∧
      (∀ (i : Nat) (c' : CLUSTER), i < j → cs[i]? = some c' → sqDist D point c.centroid < sqDist D point c'.centroid) := by
  induction cs generalizing idx m cl with
  | nil => left; simp [findClosestLoop]
  | cons c next ih =>
    have hc : FinVec D c.centroid := hcs c (List.mem_cons_self _ _)
    have hnext : ∀ c ∈ next, FinVec D c.centroid := fun c' h' => hcs c' (List.mem_cons_of_mem _ h')
    unfold findClosestLoop
    simp only []
    rw [calculateDistance_fin D point c.centroid hp hc]
    split
    · rename_i hlt
      right
      rcases ih hnext (idx + 1) ⟨Dbl.fin (sqDist D point c.centroid)⟩ (some idx) with ⟨h1, h2⟩ | ⟨j, c', hj, h1, h2, h3, h4⟩
      · refine ⟨0, c, by simp, by simpa using h1, hlt, ?_, ?_⟩
        · intro i c' hi
          cases i with
          | zero => simp at hi; subst hi; exact le_rfl
          | succ i =>
            have hmem : c' ∈ next := List.getElem?_mem (by simpa using hi)
            have := h2 c' hmem
            rw [Root.lt_fin_fin] at this
            simpa using this
        · intro i c' hi; omega
      · have hlt' : sqDist D point c'.centroid < sqDist D point c.centroid := by
          rw [Root.lt_fin_fin] at h2; simpa using h2
        refine ⟨j + 1, c', by simpa using hj, ?_, Root.lt_fin_trans hlt'.le hlt, ?_, ?_⟩
        · rw [h1]; congr 1; omega
        · intro i c'' hi
          cases i with
          | zero => simp at hi; subst hi; exact hlt'.le
          | succ i => exact h3 i c'' (by simpa using hi)
        · intro i c'' hij hi
          cases i with
          | zero => simp at hi; subst hi; exact hlt'
          | succ i => exact h4 i c'' (by omega) (by simpa using hi)
    · rename_i hlt
      rcases ih hnext (idx + 1) m cl with ⟨h1, h2⟩ | ⟨j, c', hj, h1, h2, h3, h4⟩
      · left
        refine ⟨h1, ?_⟩
        intro c' hc'
        rcases List.mem_cons.mp hc' with rfl | hmem
        · exact hlt
        · exact h2 c' hmem
      · right
        have hlt' : sqDist D point c'.centroid < sqDist D point c.centroid :=
          Root.lt_fin_of_not h2 hlt
        refine ⟨j + 1, c', by simpa using hj, ?_, h2, ?_, ?_⟩
        · rw [h1]; congr 1; omega
        · intro i c'' hi
          cases i with
          | zero => simp at hi; subst hi; exact hlt'.le
          | succ i => exact h3 i c'' (by simpa using hi)
        · intro i c'' hij hi
          cases i with
          | zero => simp at hi; subst hi; exact hlt'
          | succ i => exact h4 i c'' (by omega) (by simpa using hi)

/-- On a non-empty list of clusters with finite centroids `findClosestCluster` returns the
first cluster of least squared distance. -/
theorem findClosestCluster_fin (s : KState) (point : List Dbl)
    (hp : FinVec s.D point) (hne : s.cluster_list ≠ [])
    (hfin : ∀ c ∈ s.cluster_list, FinVec s.D c.centroid) :
    ∃ k c, findClosestCluster s point = some k ∧ s.cluster_list[k]? = some c ∧
      (∀ (i : Nat) (c' : CLUSTER), s.cluster_list[i]? = some c' →
        sqDist s.D point c.centroid ≤ sqDist s.D point c'.centroid) ∧
      (∀ (i : Nat) (c' : CLUSTER), i < k → s.cluster_list[i]? = some c' →
        sqDist s.D point c.centroid < sqDist s.D point c'.centroid) := by
  rcases findClosestLoop_fin s.D point hp s.cluster_list hfin 0 INFINITY none with
    ⟨-, h2⟩ | ⟨j, c, hj, h1, -, h3, h4⟩
  · obtain ⟨c, hc⟩ := List.exists_mem_of_ne_nil _ hne
    exact absurd (Root.lt_fin_INFINITY _) (h2 c hc)
  · exact ⟨j, c, by simpa [findClosestCluster] using h1, hj, h3, h4⟩

/-- Every row finds a cluster when the rows hold numbers and one centroid does. -/
theorem findClosestCluster_isSome (s : KState) (point : List Dbl) (hp : FinVec s.D point)
    (hc : ∃ c ∈ s.cluster_list, FinVec s.D c.centroid) :
    ∃ k, findClosestCluster s point = some k := by
  obtain ⟨c, hmem, hfin⟩ := hc
  apply findClosestLoop_isSome
  refine ⟨c, hmem, ?_⟩
  rw [calculateDistance_fin _ _ _ hp hfin]
  rfl

/-! ## The comparisons of distances are those of the real square roots -/

theorem Root.lt_iff_sqrt (a b : ℚ) (ha : 0 ≤ a) :
    Root.lt ⟨Dbl.fin a⟩ ⟨Dbl.fin b⟩ = true ↔ Real.sqrt (a : ℝ) < Real.sqrt (b : ℝ) := by
  rw [Root.lt_fin_fin, decide_eq_true_iff]
  have ha' : (0 : ℝ) ≤ (a : ℝ) := by exact_mod_cast ha
  constructor
  · intro h
    exact Real.sqrt_lt_sqrt ha' (by exact_mod_cast h)
  · intro h
    by_contra hle
    have hle' : (b : ℝ) ≤ (a : ℝ) := by exact_mod_cast not_lt.mp hle
    exact absurd h (not_lt.mpr (Real.sqrt_le_sqrt hle'))

theorem Root.gt_iff_sqrt (s e : ℚ) (hs : 0 ≤ s) :
    Root.gt ⟨Dbl.fin s⟩ (Dbl.fin e) = true ↔ (e : ℝ) < Real.sqrt (s : ℝ) := by
  have hs' : (0 : ℝ) ≤ (s : ℝ) := by exact_mod_cast hs
  simp only [Root.gt, Bool.or_eq_true, decide_eq_true_eq]
  constructor
  · rintro (h | h)
    · have : (e : ℝ) < 0 := by exact_mod_cast h
      exact lt_of_lt_of_le this (Real.sqrt_nonneg _)
    · by_cases he : e < 0
      · have : (e : ℝ) < 0 := by exact_mod_cast he
        exact lt_of_lt_of_le this (Real.sqrt_nonneg _)
      · have he' : (0 : ℝ) ≤ (e : ℝ) := by exact_mod_cast not_lt.mp he
        rw [Real.lt_sqrt he']
        have : ((e * e : ℚ) : ℝ) < (s : ℝ) := by exact_mod_cast h
        simpa [pow_two] using this
  · intro h
    by_cases he : e < 0
    · exact Or.inl he
    · right
      have he' : (0 : ℝ) ≤ (e : ℝ) := by exact_mod_cast not_lt.mp he
      rw [Real.lt_sqrt he'] at h
      have : ((e * e : ℚ) : ℝ) < (s : ℝ) := by simpa [pow_two] using h
      exact_mod_cast this

theorem Root.leEps_iff_sqrt (s e : ℚ) (hs : 0 ≤ s) :
    Root.leEps ⟨Dbl.fin s⟩ (Dbl.fin e) = true ↔ Real.sqrt (s : ℝ) ≤ (e : ℝ) := by
  have h1 : Root.leEps ⟨Dbl.fin s⟩ (Dbl.fin e) = !(Root.gt ⟨Dbl.fin s⟩ (Dbl.fin e)) := by
    simp only [Root.leEps, Root.gt]
    by_cases he : e < 0 <;> by_cases hse : e * e < s <;>
      simp [he, hse, not_le.mpr, not_lt.mp, le_of_lt]
  rw [h1, Bool.not_eq_true', ← Bool.not_eq_true, Root.gt_iff_sqrt s e hs, not_lt]

/-! ## `addPointsToClusters` -/

@[simp] theorem updateAt_length {α : Type} (f : α → α) (k : Nat) (l : List α) :
    (updateAt f k l).length = l.length := by
  induction l generalizing k with
  | nil => cases k <;> rfl
  | cons x xs ih => cases k <;> simp [updateAt, ih]

theorem updateAt_getElem? {α : Type} (f : α → α) (k : Nat) (l : List α) (j : Nat) :
    (updateAt f k l)[j]? = if j = k then l[j]?.map f else l[j]? := by
  induction l generalizing k j with
  | nil => cases k <;> simp [updateAt]
  | cons x xs ih =>
    cases k with
    | zero => cases j <;> simp [updateAt]
    | succ k => cases j <;> simp [updateAt, ih]

theorem findClosestLoop_updateAt (D : Nat) (point : List Dbl) (i k : Nat) (cs : List CLUSTER)
    (idx : Nat) (m : Root) (cl : Option Nat) :
    findClosestLoop D point (updateAt (fun c => addToCluster c i) k cs) idx m cl
      = findClosestLoop D point cs idx m cl := by
  induction cs generalizing k idx m cl with
  | nil => cases k <;> rfl
  | cons c next ih =>
    cases k with
    | zero => simp [updateAt, findClosestLoop, addToCluster]
    | succ k => simp [updateAt, findClosestLoop, ih]

theorem addPoint_heads (pl : List POINT_LIST) (i : Nat) :
    (addPoint pl i).map (fun n => n.head) = i :: pl.map (fun n => n.head) := by
  cases pl <;> simp [addPoint]

theorem sum_sizes_updateAt (i k : Nat) (cs : List CLUSTER) (hk : k < cs.length) :
    ((updateAt (fun c => addToCluster c i) k cs).map (fun c => c.size)).sum
      = (cs.map (fun c => c.size)).sum + 1 := by
  induction cs generalizing k with
  | nil => simp at hk
  | cons c next ih =>
    cases k with
    | zero => simp [updateAt, addToCluster]; ring
    | succ k =>
      simp only [updateAt, List.map_cons, List.sum_cons]
      rw [ih k (by simpa using hk)]; ring

/-- What the loop of `addPointsToClusters` leaves when it does not dereference `NULL`. -/
theorem addPointsLoop_spec (l : List Nat) (s s1 : KState) (h : addPointsLoop s l = some s1) :
    s1.data = s.data ∧ s1.K = s.K ∧ s1.D = s.D ∧ s1.N = s.N ∧ s1.iter = s.iter ∧ s1.eps = s.eps ∧
    s1.cluster_list.length = s.cluster_list.length ∧
    (s1.cluster_list.map (fun c => c.size)).sum = (s.cluster_list.map (fun c => c.size)).sum + l.length ∧
    (∀ i ∈ l, ∃ k, findClosestCluster s (row s.data i) = some k) ∧
    ∀ (k : Nat) (c : CLUSTER), s.cluster_list[k]? = some c →
      ∃ c1, s1.cluster_list[k]? = some c1 ∧ c1.centroid = c.centroid ∧ c1.prev = c.prev ∧
        c1.point_list.map (fun n => n.head)
          = (assignedTo s l k).reverse ++ c.point_list.map (fun n => n.head) ∧
        c1.size = c.size + (assignedTo s l k).length := by
  induction l generalizing s with
  | nil =>
    simp only [addPointsLoop, Option.some.injEq] at h
    subst h
    simp only [assignedTo, List.filter_nil, List.reverse_nil, List.nil_append, List.length_nil,
      Nat.cast_zero, add_zero, List.not_mem_nil, false_implies, implies_true, true_and]
    intro k c hc
    exact ⟨c, hc, rfl, rfl, rfl, rfl⟩
  | cons i rest ih =>
    unfold addPointsLoop at h
    split at h
    · exact absurd h (by simp)
    · rename_i k hk
      have hkl := findClosestCluster_lt s _ k hk
      obtain ⟨h1, h2, h3, h4, h5, h6, h7, h8, h9, h10⟩ := ih _ h
      have hfind : ∀ p, findClosestCluster
          { s with cluster_list := updateAt (fun c => addToCluster c i) k s.cluster_list } p
          = findClosestCluster s p := fun p => findClosestLoop_updateAt _ _ _ _ _ _ _ _
      have hassign : ∀ k', assignedTo
          { s with cluster_list := updateAt (fun c => addToCluster c i) k s.cluster_list } rest k'
          = assignedTo s rest k' := by
        intro k'; unfold assignedTo; simp only [hfind]
      refine ⟨h1, h2, h3, h4, h5, h6, by simpa using h7, ?_, ?_, ?_⟩
      · rw [h8]; simp only []
        rw [sum_sizes_updateAt i k _ hkl]; simp; ring
      · intro j hj
        rcases List.mem_cons.mp hj with rfl | hmem
        · exact ⟨k, hk⟩
        · obtain ⟨k', hk'⟩ := h9 j hmem
          exact ⟨k', by rw [← hfind]; exact hk'⟩
      · intro k' c hc
        have hc' : (updateAt (fun c => addToCluster c i) k s.cluster_list)[k']?
            = some (if k' = k then addToCluster c i else c) := by
          rw [updateAt_getElem?, hc]; split <;> rfl
        obtain ⟨c1, e1, e2, e3, e4, e5⟩ := h10 k' _ hc'
        refine ⟨c1, e1, ?_, ?_, ?_, ?_⟩
        · rw [e2]; split <;> rfl
        · rw [e3]; split <;> rfl
        · rw [e4, hassign]
          by_cases hkk : k' = k
          · subst hkk
            simp [assignedTo, hk, addToCluster, addPoint_heads]
          · have : ¬ k = k' := fun e => hkk e.symm
            simp [assignedTo, hk, hkk, this]
        · rw [e5, hassign]
          by_cases hkk : k' = k
          · subst hkk
            simp [assignedTo, hk, addToCluster]; ring
          · have : ¬ k = k' := fun e => hkk e.symm
            simp [assignedTo, hk, hkk, this]

/-- The loop of `addPointsToClusters` returns when every row finds a cluster. -/
theorem addPointsLoop_isSome (l : List Nat) (s : KState)
    (h : ∀ i ∈ l, ∃ k, findClosestCluster s (row s.data i) = some k) :
    ∃ s1, addPointsLoop s l = some s1 := by
  induction l generalizing s with
  | nil => exact ⟨s, rfl⟩
  | cons i rest ih =>
    obtain ⟨k, hk⟩ := h i (List.mem_cons_self _ _)
    unfold addPointsLoop
    rw [hk]
    apply ih
    intro j hj
    obtain ⟨k', hk'⟩ := h j (List.mem_cons_of_mem _ hj)
    refine ⟨k', ?_⟩
    show findClosestLoop _ _ (updateAt _ _ _) _ _ _ = _
    rw [findClosestLoop_updateAt]
    exact hk'

/-! ## `kmeansIteration` -/

theorem iterationLoop_eq (s : KState) (cs : List CLUSTER) (flag : Int) :
    iterationLoop s cs flag
      = (cs.map (fun c => clearCluster (recompute s c)), if cs.any (moved s) then 1 else flag) := by
  induction cs generalizing flag with
  | nil => simp [iterationLoop]
  | cons c next ih =>
    unfold iterationLoop
    simp only [ih, List.map_cons, List.any_cons]
    by_cases h1 : moved s c = true
    · have : Root.gt (calculateDistance s.D (updateCentroid s.data s.D (savePrev s.D c)).prev
          (updateCentroid s.data s.D (savePrev s.D c)).centroid) s.eps = true := h1
      simp [h1, this, recompute]
    · have : ¬ Root.gt (calculateDistance s.D (updateCentroid s.data s.D (savePrev s.D c)).prev
          (updateCentroid s.data s.D (savePrev s.D c)).centroid) s.eps = true := h1
      simp [h1, this, recompute]

theorem kmeansIteration_eq (s : KState) :
    kmeansIteration s = (addPointsToClusters s).map (fun s1 =>
      ({ s1 with cluster_list := s1.cluster_list.map (fun c => clearCluster (recompute s1 c)) },
       if s1.cluster_list.any (moved s1) then 1 else 0)) := by
  unfold kmeansIteration
  cases h : addPointsToClusters s with
  | none => rfl
  | some s1 => simp [iterationLoop_eq]

theorem recompute_prev_length (s : KState) (c : CLUSTER) :
    (recompute s c).prev.length = c.prev.length := by
  simp [recompute, updateCentroid_eq, savePrev_eq]

theorem recompute_centroid_length (s : KState) (c : CLUSTER) :
    (recompute s c).centroid.length = c.centroid.length := by
  simp [recompute, updateCentroid_eq, savePrev_eq]

theorem rd_recompute_prev (s : KState) (c : CLUSTER) (h : s.D ≤ c.prev.length) (d : Nat)
    (hd : d < s.D) : rd (recompute s c).prev d = rd c.centroid d := by
  simp [recompute, updateCentroid_eq, savePrev_eq, rd_setLoop _ _ _ h, hd]

theorem rd_recompute_centroid (s : KState) (c : CLUSTER) (h : s.D ≤ c.centroid.length) (d : Nat)
    (hd : d < s.D) :
    rd (recompute s c).centroid d = Dbl.divInt (coordSum s.data c.point_list d) c.size := by
  simp [recompute, updateCentroid_eq, savePrev_eq, rd_setLoop _ _ _ h, hd]

theorem foldl_add_fin (l : List Nat) (g : Nat → ℚ) (a : ℚ) :
    l.foldl (fun sum j => sum + Dbl.fin (g j)) (Dbl.fin a) = Dbl.fin (a + (l.map g).sum) := by
  induction l generalizing a with
  | nil => simp
  | cons x xs ih => simp [ih, add_assoc]

theorem coordSum_eq_heads (data : List (List Dbl)) (pl : List POINT_LIST) (d : Nat) :
    coordSum data pl d
      = (pl.map (fun n => n.head)).foldl (fun sum j => sum + rd (row data j) d) (Dbl.fin 0) := by
  unfold coordSum
  rw [List.foldl_map]

/-- The coordinate sum over a point list whose rows hold numbers. -/
theorem coordSum_fin (data : List (List Dbl)) (pl : List POINT_LIST) (d : Nat)
    (h : ∀ j ∈ pl.map (fun n => n.head), (rd (row data j) d).isFin = true) :
    coordSum data pl d
      = Dbl.fin (((pl.map (fun n => n.head)).map (fun j => (rd (row data j) d).val)).sum) := by
  rw [coordSum_eq_heads]
  have key : ∀ (l : List Nat) (a : Dbl), (∀ j ∈ l, (rd (row data j) d).isFin = true) →
      l.foldl (fun sum j => sum + rd (row data j) d) a
        = l.foldl (fun sum j => sum + Dbl.fin ((rd (row data j) d).val)) a := by
    intro l
    induction l with
    | nil => intro a _; rfl
    | cons x xs ih =>
      intro a hl
      simp only [List.foldl_cons]
      rw [← Dbl.eq_fin_val (hl x (List.mem_cons_self _ _))]
      exact ih _ (fun j hj => hl j (List.mem_cons_of_mem _ hj))
  rw [key _ _ h, foldl_add_fin]
  simp

theorem mem_assignedTo (s : KState) (l : List Nat) (k i : Nat) :
    i ∈ assignedTo s l k ↔ i ∈ l ∧ findClosestCluster s (row s.data i) = some k := by
  simp [assignedTo]

theorem recompute_congr (s t : KState) (hd : t.data = s.data) (hD : t.D = s.D) (c : CLUSTER) :
    recompute t c = recompute s c := by
  unfold recompute; rw [hd, hD]

theorem moved_congr (s t : KState) (hd : t.data = s.data) (hD : t.D = s.D) (he : t.eps = s.eps)
    (c : CLUSTER) : moved t c = moved s c := by
  unfold moved; rw [recompute_congr s t hd hD, hD, he]

/-- One call of `kmeansIteration` that returns: the globals other than the cluster list are
kept, every row found a cluster, and the cluster at each position is the old one after
the assignment (`c1`), recomputed and cleared; the flag is 1 exactly when one of them
moved by more than `eps`. -/
theorem kmeansIteration_spec (s s' : KState) (flag : Int)
    (hit : kmeansIteration s = some (s', flag)) :
    s'.data = s.data ∧ s'.K = s.K ∧ s'.D = s.D ∧ s'.N = s.N ∧ s'.iter = s.iter ∧ s'.eps = s.eps ∧
    s'.cluster_list.length = s.cluster_list.length ∧
    (∀ i, i < s.N → ∃ k, findClosestCluster s (row s.data i) = some k) ∧
    ∃ cs1 : List CLUSTER, cs1.length = s.cluster_list.length ∧
      s'.cluster_list = cs1.map (fun c => clearCluster (recompute s c)) ∧
      flag = (if cs1.any (moved s) then 1 else 0) ∧
      (cs1.map (fun c => c.size)).sum = (s.cluster_list.map (fun c => c.size)).sum + s.N ∧
      ∀ (k : Nat) (c : CLUSTER), s.cluster_list[k]? = some c →
        ∃ c1, cs1[k]? = some c1 ∧ c1.centroid = c.centroid ∧ c1.prev = c.prev ∧
          c1.point_list.map (fun n => n.head)
            = (assignedTo s (List.range s.N) k).reverse ++ c.point_list.map (fun n => n.head) ∧
          c1.size = c.size + (assignedTo s (List.range s.N) k).length := by
  rw [kmeansIteration_eq] at hit
  cases h1 : addPointsToClusters s with
  | none => rw [h1] at hit; simp at hit
  | some s1 =>
    rw [h1] at hit
    simp only [Option.map_some', Option.some.injEq, Prod.mk.injEq] at hit
    obtain ⟨hs', hflag⟩ := hit
    obtain ⟨e1, e2, e3, e4, e5, e6, e7, e8, e9, e10⟩ := addPointsLoop_spec _ _ _ h1
    have hrec : ∀ c, recompute s1 c = recompute s c := recompute_congr s s1 e1 e3
    have hmov : moved s1 = moved s := funext (moved_congr s s1 e1 e3 e6)
    subst hs'
    refine ⟨e1, e2, e3, e4, e5, e6, by simpa using e7, ?_, s1.cluster_list, e7, ?_, ?_, ?_, e10⟩
    · intro i hi; exact e9 i (List.mem_range.mpr hi)
    · simp only [hrec]
    · rw [← hflag, hmov]
    · rw [e8]; simp

/-- A call of `kmeansIteration` returns when the data rows hold numbers and at least one
centroid does: no row gets `NULL` for a cluster. -/
theorem kmeansIteration_isSome (s : KState)
    (hdata : ∀ i, i < s.N → FinVec s.D (row s.data i))
    (hfin : ∃ c ∈ s.cluster_list, FinVec s.D c.centroid) :
    ∃ r, kmeansIteration s = some r := by
  have hsome : ∀ i ∈ List.range s.N, ∃ k, findClosestCluster s (row s.data i) = some k :=
    fun i hi => findClosestCluster_isSome s _ (hdata i (List.mem_range.mp hi)) hfin
  obtain ⟨s1, hs1⟩ := addPointsLoop_isSome _ s hsome
  have h1 : addPointsToClusters s = some s1 := hs1
  rw [kmeansIteration_eq, h1]
  exact ⟨_, rfl⟩

/-- The recomputed centroid of a cluster whose point list holds the rows `A` (newest
first) and whose size is their number: the mean of those rows, when they hold numbers. -/
theorem recompute_mean (s : KState) (c1 : CLUSTER) (A : List Nat)
    (hheads : c1.point_list.map (fun n => n.head) = A.reverse)
    (hsize : c1.size = (A.length : Int)) (hA : A ≠ [])
    (hdata : ∀ i ∈ A, FinVec s.D (row s.data i)) (halloc : s.D ≤ c1.centroid.length)
    (d : Nat) (hd : d < s.D) :
    rd (clearCluster (recompute s c1)).centroid d
      = Dbl.fin (((A.map (fun i => (rd (row s.data i) d).val)).sum) / (A.length : ℚ)) := by
  have hsz : c1.size ≠ 0 := by
    rw [hsize]
    have : 0 < A.length := List.length_pos.mpr hA
    omega
  have hfin : ∀ j ∈ c1.point_list.map (fun n => n.head), (rd (row s.data j) d).isFin = true := by
    intro j hj
    rw [hheads, List.mem_reverse] at hj
    exact hdata j hj d hd
  show rd (recompute s c1).centroid d = _
  rw [rd_recompute_centroid s c1 halloc d hd, coordSum_fin _ _ _ hfin, Dbl.divInt_fin _ _ hsz,
    hheads, hsize]
  simp [List.sum_reverse]

/-! ## `kmeansSetup` -/

theorem map_range_getD {α : Type} (l : List α) (d : α) :
    (List.range l.length).map (fun j => l.getD j d) = l := by
  apply List.ext_getElem
  · simp
  · intro n h1 h2
    simp [List.getD_eq_getElem?_getD, List.getElem?_eq_getElem h2]

theorem processMatrix_rect (array : List (List Dbl)) (D : Nat)
    (h : ∀ r ∈ array, r.length = D) : processMatrix array.length D array = array := by
  unfold processMatrix
  apply List.ext_getElem
  · simp
  · intro n h1 h2
    have hr : (array[n]).length = D := h _ (List.getElem_mem h2)
    simp only [List.getElem_map, List.getElem_range, List.getD_eq_getElem?_getD,
      List.getElem?_eq_getElem h2, Option.getD_some]
    rw [← hr]
    have := map_range_getD array[n] (Dbl.fin (-1))
    simpa [List.getD_eq_getElem?_getD] using this

theorem initializeLoop_eq (s : KState) (l : List Nat) :
    initializeLoop s l = { s with cluster_list :=
      (l.reverse.map (fun j => createCluster s.D (row s.data j))) ++ s.cluster_list } := by
  induction l generalizing s with
  | nil => simp [initializeLoop]
  | cons j rest ih =>
    unfold initializeLoop
    rw [ih]
    simp [addCluster]

/-- `kmeansSetup` on a non-empty rectangular matrix: the data are copied as they are and
the cluster list gets one cluster per seed index in front, the last seed first. -/
theorem kmeansSetup_eq (s : KState) (data_py : List (List Dbl)) (centroids_py : List Nat)
    (hne : data_py ≠ [])
    (hrect : ∀ r ∈ data_py, r.length = (data_py.headD []).length) :
    kmeansSetup s data_py centroids_py = some
      { s with
        data := data_py, N := data_py.length, D := (data_py.headD []).length,
        K := centroids_py.length,
        cluster_list := (centroids_py.reverse.map
          (fun j => createCluster (data_py.headD []).length (row data_py j))) ++ s.cluster_list } := by
  cases data_py with
  | nil => exact absurd rfl hne
  | cons row0 rest =>
    simp only [kmeansSetup, initializeClusters, List.take_length, List.headD_cons]
    rw [initializeLoop_eq]
    have := processMatrix_rect (row0 :: rest) row0.length (by simpa using hrect)
    simp only [List.length_cons] at this
    simp [this]

theorem createCluster_centroid_length (D : Nat) (point : List Dbl) :
    (createCluster D point).centroid.length = D := by
  simp [createCluster_eq]

theorem createCluster_prev_length (D : Nat) (point : List Dbl) :
    (createCluster D point).prev.length = D := by
  simp [createCluster_eq]

theorem createCluster_point_list (D : Nat) (point : List Dbl) :
    (createCluster D point).point_list = [] ∧ (createCluster D point).size = 0 := by
  simp [createCluster_eq]

theorem rd_createCluster_centroid (D : Nat) (point : List Dbl) (d : Nat) (hd : d < D) :
    rd (createCluster D point).centroid d = rd point d := by
  simp [createCluster_eq, rd_setLoop, hd]

theorem rd_createCluster_prev (D : Nat) (point : List Dbl) (d : Nat) (hd : d < D) :
    rd (createCluster D point).prev d = rd point d := by
  simp [createCluster_eq, rd_setLoop, hd]

/-- The row handed out for a fresh cluster is the point it was created from. -/
theorem centroidRow_createCluster (point : List Dbl) :
    centroidRow point.length (createCluster point.length point) = point := by
  unfold centroidRow
  have : (List.range point.length).map (fun j => rd (createCluster point.length point).centroid j)
      = (List.range point.length).map (fun j => point.getD j Dbl.nan) := by
    apply List.map_congr_left
    intro j hj
    exact rd_createCluster_centroid _ _ _ (List.mem_range.mp hj)
  rw [this, map_range_getD]

theorem convertLoop_eq (D n : Nat) (cs : List CLUSTER) (h : n ≤ cs.length) :
    convertLoop D n cs = some ((cs.take n).map (centroidRow D)) := by
  induction n generalizing cs with
  | zero => simp [convertLoop]
  | succ n ih =>
    cases cs with
    | nil => simp at h
    | cons c next =>
      simp only [convertLoop, ih next (by simpa using h)]
      simp [centroidRow]

theorem row_length_of_rect (data_py : List (List Dbl))
    (hrect : ∀ r ∈ data_py, r.length = (data_py.headD []).length) (j : Nat)
    (hj : j < data_py.length) : (row data_py j).length = (data_py.headD []).length := by
  unfold row
  rw [List.getD_eq_getElem?_getD, List.getElem?_eq_getElem hj]
  exact hrect _ (List.getElem_mem hj)

/-! ## The invariant of a run -/

theorem good_set_iter {s : KState} (h : Good s) (n : Int) : Good { s with iter := n } := h

theorem finVec_of_all_fin (r : List Dbl) (D : Nat) (hl : r.length = D)
    (h : ∀ x ∈ r, x.isFin = true) : FinVec D r := by
  intro i hi
  unfold rd
  rw [List.getD_eq_getElem?_getD, List.getElem?_eq_getElem (by omega)]
  exact h _ (List.getElem_mem _)

theorem finVec_createCluster (D : Nat) (point : List Dbl) (h : FinVec D point) :
    FinVec D (createCluster D point).centroid := by
  intro i hi
  rw [rd_createCluster_centroid D point i hi]
  exact h i hi

theorem finVec_row_of_valid (data_py : List (List Dbl)) (centroids_py : List Nat)
    (hv : ValidInput data_py centroids_py) (i : Nat) (hi : i < data_py.length) :
    FinVec (data_py.headD []).length (row data_py i) := by
  obtain ⟨-, hrows, -, -⟩ := hv
  have hmem : data_py[i] ∈ data_py := List.getElem_mem hi
  have hrow : row data_py i = data_py[i] := by
    unfold row; rw [List.getD_eq_getElem?_getD, List.getElem?_eq_getElem hi]; rfl
  rw [hrow]
  exact finVec_of_all_fin _ _ (hrows _ hmem).1 (hrows _ hmem).2

/-- The state `kmeansSetup` builds from a valid input, on globals without clusters. -/
theorem kmeansSetup_good (s : KState) (data_py : List (List Dbl)) (centroids_py : List Nat)
    (hv : ValidInput data_py centroids_py) (hs : s.cluster_list = []) :
    ∃ s1, kmeansSetup s data_py centroids_py = some s1 ∧ Good s1 ∧
      s1.data = data_py ∧ s1.N = data_py.length ∧ s1.D = (data_py.headD []).length ∧
      s1.K = centroids_py.length ∧ s1.iter = s.iter ∧ s1.eps = s.eps ∧
      s1.cluster_list = centroids_py.reverse.map
        (fun j => createCluster (data_py.headD []).length (row data_py j)) := by
  have hrect : ∀ r ∈ data_py, r.length = (data_py.headD []).length := fun r hr => (hv.2.1 r hr).1
  refine ⟨_, kmeansSetup_eq s data_py centroids_py hv.1 hrect, ?_, rfl, rfl, rfl, rfl, rfl, rfl, ?_⟩
  · refine ⟨?_, ?_, ?_, ?_, ?_⟩
    · exact List.length_pos.mpr hv.1
    · intro i hi; exact finVec_row_of_valid data_py centroids_py hv i hi
    · intro c hc
      simp only [hs, List.append_nil, List.mem_map, List.mem_reverse] at hc
      obtain ⟨j, -, rfl⟩ := hc
      exact ⟨createCluster_centroid_length _ _, createCluster_prev_length _ _,
        (createCluster_point_list _ _).1, (createCluster_point_list _ _).2⟩
    · simp [hs]
    · obtain ⟨j, hj⟩ := List.exists_mem_of_ne_nil _ hv.2.2.1
      refine ⟨createCluster (data_py.headD []).length (row data_py j), ?_, ?_⟩
      · simp only [hs, List.append_nil, List.mem_map, List.mem_reverse]
        exact ⟨j, hj, rfl⟩
      · exact finVec_createCluster _ _ (finVec_row_of_valid data_py centroids_py hv j (hv.2.2.2 j hj))
  · simp [hs]

/-- From a state of a run `kmeansIteration` returns, and leaves a state of a run. -/
theorem kmeansIteration_good (s : KState) (h : Good s) :
    ∃ s' flag, kmeansIteration s = some (s', flag) ∧ Good s' := by
  obtain ⟨hN, hdata, hcl, hK, hfin⟩ := h
  have hsome : ∀ i ∈ List.range s.N, ∃ k, findClosestCluster s (row s.data i) = some k :=
    fun i hi => findClosestCluster_isSome s _ (hdata i (List.mem_range.mp hi)) hfin
  obtain ⟨s1, hs1⟩ := addPointsLoop_isSome _ s hsome
  have hit : kmeansIteration s = some
      ({ s1 with cluster_list := s1.cluster_list.map (fun c => clearCluster (recompute s1 c)) },
       if s1.cluster_list.any (moved s1) then 1 else 0) := by
    rw [kmeansIteration_eq]
    show Option.map _ (addPointsLoop s (List.range s.N)) = _
    rw [hs1]; rfl
  refine ⟨_, _, hit, ?_⟩
  obtain ⟨e1, e2, e3, e4, -, -, hlen, -, cs1, hlen1, hcs, -, -, hpos⟩ := kmeansIteration_spec s _ _ hit
  have hempty : ∀ c ∈ s.cluster_list, c.point_list = [] ∧ c.size = 0 :=
    fun c hc => ⟨(hcl c hc).2.2.1, (hcl c hc).2.2.2⟩
  have halloc : ∀ c ∈ s.cluster_list, s.D ≤ c.centroid.length :=
    fun c hc => le_of_eq (hcl c hc).1.symm
  refine ⟨by rw [e4]; exact hN, ?_, ?_, by rw [e2, hlen]; exact hK, ?_⟩
  · intro i hi; rw [e1, e3]; rw [e4] at hi; exact hdata i hi
  · intro c' hc'
    rw [hcs] at hc'
    obtain ⟨c1, hc1, rfl⟩ := List.mem_map.mp hc'
    obtain ⟨k, hk⟩ := List.mem_iff_getElem?.mp hc1
    have hklt : k < s.cluster_list.length := by
      rw [← hlen1]; exact (List.getElem?_eq_some_iff.mp hk).1
    obtain ⟨c1', hc1', q1, q2, -, -⟩ := hpos k _ (List.getElem?_eq_getElem hklt)
    rw [hk] at hc1'
    obtain rfl : c1 = c1' := by simpa using hc1'
    have hc := hcl _ (List.getElem_mem hklt)
    refine ⟨?_, ?_, rfl, rfl⟩
    · show (recompute s c1).centroid.length = _
      rw [recompute_centroid_length, q1, e3]; exact hc.1
    · show (recompute s c1).prev.length = _
      rw [recompute_prev_length, q2, e3]; exact hc.2.1
  · obtain ⟨k, hk⟩ := hsome 0 (List.mem_range.mpr hN)
    have hklt := findClosestCluster_lt s _ k hk
    obtain ⟨c1, hc1, q1, -, q3, q4⟩ := hpos k _ (List.getElem?_eq_getElem hklt)
    have hc := hcl _ (List.getElem_mem hklt)
    rw [hc.2.2.1] at q3
    rw [hc.2.2.2] at q4
    have hne : assignedTo s (List.range s.N) k ≠ [] :=
      List.ne_nil_of_mem ((mem_assignedTo s _ k 0).mpr ⟨List.mem_range.mpr hN, hk⟩)
    refine ⟨clearCluster (recompute s c1), ?_, ?_⟩
    · rw [hcs]; exact List.mem_map.mpr ⟨c1, List.getElem?_mem hc1, rfl⟩
    · intro d hd
      have hd' : d < s.D := by rw [← e3]; exact hd
      rw [recompute_mean s c1 _ (by simpa using q3) (by simpa using q4) hne
        (fun i hi => hdata i (List.mem_range.mp ((mem_assignedTo _ _ _ _).mp hi).1))
        (by rw [q1]; exact le_of_eq hc.1.symm) d hd']
      rfl

/-! ## The loop of `kmeans` -/

/-- The stop rule of the loop, for a run that returns: at most `M` calls; either `M` calls
none of which returned 0, or the last call is the first one that returned 0. -/
theorem kmeansLoop_calls (M : Nat) (s s2 : KState) (calls : Nat)
    (h : kmeansLoop s M = some (s2, calls)) :
    calls ≤ M ∧
    ((calls = M ∧ ∀ n, n < M → flagOf s n ≠ some 0) ∨
     (1 ≤ calls ∧ flagOf s (calls - 1) = some 0 ∧ ∀ n, n + 1 < calls → flagOf s n ≠ some 0)) := by
  induction M generalizing s s2 calls with
  | zero =>
    simp only [kmeansLoop, Option.some.injEq, Prod.mk.injEq] at h
    obtain ⟨-, rfl⟩ := h
    exact ⟨le_rfl, Or.inl ⟨rfl, fun n hn => absurd hn (by omega)⟩⟩
  | succ M ih =>
    unfold kmeansLoop at h
    cases hit : kmeansIteration s with
    | none => rw [hit] at h; simp at h
    | some r =>
      obtain ⟨s1, flag⟩ := r
      rw [hit] at h
      simp only [] at h
      by_cases hflag : flag = 0
      · rw [if_pos hflag] at h
        simp only [Option.some.injEq, Prod.mk.injEq] at h
        obtain ⟨-, rfl⟩ := h
        refine ⟨by omega, Or.inr ⟨le_rfl, ?_, fun n hn => absurd hn (by omega)⟩⟩
        simp [flagOf, hit, hflag]
      · rw [if_neg hflag] at h
        cases hloop : kmeansLoop { s1 with iter := s1.iter - 1 } M with
        | none => rw [hloop] at h; simp at h
        | some r2 =>
          obtain ⟨s3, c⟩ := r2
          rw [hloop] at h
          simp only [Option.some.injEq, Prod.mk.injEq] at h
          obtain ⟨-, rfl⟩ := h
          obtain ⟨hle, hcase⟩ := ih _ _ c hloop
          have h0 : flagOf s 0 ≠ some 0 := by simp [flagOf, hit, hflag]
          have hsucc : ∀ n, flagOf s (n + 1) = flagOf { s1 with iter := s1.iter - 1 } n := by
            intro n; simp [flagOf, hit]
          refine ⟨by omega, ?_⟩
          rcases hcase with ⟨hc, hall⟩ | ⟨hc, hlast, hall⟩
          · left
            refine ⟨by omega, ?_⟩
            intro n hn
            cases n with
            | zero => exact h0
            | succ n => rw [hsucc]; exact hall n (by omega)
          · right
            refine ⟨by omega, ?_, ?_⟩
            · have : c + 1 - 1 = (c - 1) + 1 := by omega
              rw [this, hsucc]; exact hlast
            · intro n hn
              cases n with
              | zero => exact h0
              | succ n => rw [hsucc]; exact hall n (by omega)

/-- From a state of a run the loop returns, with a state of a run that has the same data,
sizes and number of clusters. -/
theorem kmeansLoop_good (M : Nat) (s : KState) (h : Good s) :
    ∃ s2 calls, kmeansLoop s M = some (s2, calls) ∧ Good s2 ∧ s2.D = s.D ∧ s2.K = s.K ∧
      s2.cluster_list.length = s.cluster_list.length := by
  induction M generalizing s with
  | zero => exact ⟨s, 0, rfl, h, rfl, rfl, rfl⟩
  | succ M ih =>
    obtain ⟨s1, flag, hit, hgood⟩ := kmeansIteration_good s h
    obtain ⟨-, e2, e3, -, -, -, hlen, -⟩ := kmeansIteration_spec s s1 flag hit
    unfold kmeansLoop
    rw [hit]
    simp only []
    by_cases hflag : flag = 0
    · rw [if_pos hflag]
      exact ⟨s1, 1, rfl, hgood, e3, e2, hlen⟩
    · rw [if_neg hflag]
      obtain ⟨s2, c, hloop, hg2, q1, q2, q3⟩ := ih _ (good_set_iter hgood (s1.iter - 1))
      rw [hloop]
      exact ⟨s2, c + 1, rfl, hg2, by rw [q1]; exact e3, by rw [q2]; exact e2, by rw [q3]; exact hlen⟩

/-! ## The properties of the specification -/

/-- C1. Centroid correctness of one iteration, arithmetic being exact: from a state whose
memberships are all empty (the centroid arrays having their `D` slots and the data rows
holding numbers), a call of `kmeansIteration` returns as soon as one centroid holds
numbers, and after a call that returns every cluster that received at least one point
has, in each coordinate `d < D`, the sum of coordinate `d` over exactly the rows that
`findClosestCluster` gave to it under the centroids before the call, divided by the number
of those rows. -/
theorem kmeansIteration_centroid_mean (s : KState)
    (hempty : ∀ c ∈ s.cluster_list, c.point_list = [] ∧ c.size = 0)
    (halloc : ∀ c ∈ s.cluster_list, s.D ≤ c.centroid.length)
    (hdata : ∀ i, i < s.N → FinVec s.D (row s.data i)) :
    ((∃ c ∈ s.cluster_list, FinVec s.D c.centroid) → ∃ r, kmeansIteration s = some r) ∧
    ∀ (s' : KState) (flag : Int), kmeansIteration s = some (s', flag) →
      ∀ (k : Nat) (c' : CLUSTER), s'.cluster_list[k]? = some c' →
        assignedTo s (List.range s.N) k ≠ [] → ∀ d, d < s.D →
        rd c'.centroid d
          = Dbl.fin ((((assignedTo s (List.range s.N) k).map
                (fun i => (rd (row s.data i) d).val)).sum)
              / ((assignedTo s (List.range s.N) k).length : ℚ)) := by
  refine ⟨kmeansIteration_isSome s hdata, ?_⟩
  intro s' flag hit k c' hk hne d hd
  obtain ⟨-, -, -, -, -, -, hlen, -, cs1, hlen1, hcs, -, -, hcl⟩ := kmeansIteration_spec s s' flag hit
  have hklt : k < s.cluster_list.length := by
    rw [← hlen]
    exact (List.getElem?_eq_some_iff.mp hk).1
  obtain ⟨c1, hc1, e1, -, e3, e4⟩ := hcl k s.cluster_list[k] (List.getElem?_eq_getElem hklt)
  have hmem : s.cluster_list[k] ∈ s.cluster_list := List.getElem_mem hklt
  have hc' : c' = clearCluster (recompute s c1) := by
    rw [hcs, List.getElem?_map, hc1] at hk
    simpa using hk.symm
  rw [(hempty _ hmem).1] at e3
  rw [(hempty _ hmem).2] at e4
  rw [hc']
  apply recompute_mean s c1 _ (by simpa using e3) (by simpa using e4) hne _
    (by rw [e1]; exact halloc _ hmem) d hd
  intro i hi
  rw [mem_assignedTo] at hi
  exact hdata i (List.mem_range.mp hi.1)

theorem kmeansIteration_centroid_mean_witness :
    ((∃ c ∈ scenarioState.cluster_list, FinVec scenarioState.D c.centroid) →
      ∃ r, kmeansIteration scenarioState = some r) ∧
    ∀ (s' : KState) (flag : Int), kmeansIteration scenarioState = some (s', flag) →
      ∀ (k : Nat) (c' : CLUSTER), s'.cluster_list[k]? = some c' →
        assignedTo scenarioState (List.range scenarioState.N) k ≠ [] → ∀ d, d < scenarioState.D →
        rd c'.centroid d
          = Dbl.fin ((((assignedTo scenarioState (List.range scenarioState.N) k).map
                (fun i => (rd (row scenarioState.data i) d).val)).sum)
              / ((assignedTo scenarioState (List.range scenarioState.N) k).length : ℚ)) :=
  kmeansIteration_centroid_mean scenarioState (by decide!) (by decide!) (by decide!)

theorem calculateDistance_congr (D : Nat) (a a' b b' : List Dbl)
    (ha : ∀ i, i < D → rd a i = rd a' i) (hb : ∀ i, i < D → rd b i = rd b' i) :
    calculateDistance D a b = calculateDistance D a' b' := by
  have key : ∀ n, n ≤ D → (List.range n).foldl
      (fun sum i => let diff := rd a i - rd b i; sum + diff * diff) (Dbl.fin 0)
      = (List.range n).foldl
      (fun sum i => let diff := rd a' i - rd b' i; sum + diff * diff) (Dbl.fin 0) := by
    intro n
    induction n with
    | zero => intro _; rfl
    | succ n ih =>
      intro hn
      rw [foldl_range_succ, foldl_range_succ, ih (Nat.le_of_succ_le hn)]
      simp only []
      rw [ha n hn, hb n hn]
  unfold calculateDistance
  rw [key D le_rfl]

/-- For a distance that `sqrt` returned, `diff > eps` is false exactly when `diff <= eps`
holds or one of the two is NaN. -/
theorem Root.gt_sqrt_eq_false (x e : Dbl) :
    Root.gt (Dbl.sqrt x) e = false ↔
      (Root.leEps (Dbl.sqrt x) e = true ∨ (Dbl.sqrt x).radicand = Dbl.nan ∨ e = Dbl.nan) := by
  cases x <;> cases e <;> simp [Dbl.sqrt, Root.gt, Root.leEps]
  · rename_i q e
    by_cases hq : q < 0
    · simp [hq, Root.gt, Root.leEps]
    · simp [hq, Root.gt, Root.leEps]
  · rename_i q
    by_cases hq : q < 0 <;> simp [hq, Root.gt, Root.leEps]
  · rename_i q
    by_cases hq : q < 0 <;> simp [hq, Root.gt, Root.leEps]
  · rename_i q
    by_cases hq : q < 0 <;> simp [hq, Root.gt, Root.leEps]

/-- The test `diff > eps` for the cluster at one position, in terms of its centroid before
the call and after it. -/
theorem moved_eq (s : KState) (c c1 : CLUSTER) (h1 : c1.centroid = c.centroid)
    (h2 : c1.prev = c.prev) (halloc : s.D ≤ c.prev.length) :
    moved s c1 = Root.gt
      (calculateDistance s.D c.centroid (clearCluster (recompute s c1)).centroid) s.eps := by
  unfold moved
  congr 1
  apply calculateDistance_congr
  · intro i hi
    rw [rd_recompute_prev s c1 (by rw [h2]; exact halloc) i hi, h1]
  · intro i _; rfl

/-- C8. Zero iterations: for a non-empty rectangular matrix and seed indices that are rows
of it, with `max_iterations = 0` the loop makes no call of `kmeansIteration` and leaves the
globals of `kmeansSetup` untouched, and `kmeans` returns, for the clusters in list order
(last seed first), exactly the seed rows of the matrix. -/
theorem kmeans_zero_iterations (s : KState) (eps : Dbl) (data_py : List (List Dbl))
    (centroids_py : List Nat) (hne : data_py ≠ [])
    (hrect : ∀ r ∈ data_py, r.length = (data_py.headD []).length)
    (hseeds : ∀ j ∈ centroids_py, j < data_py.length) :
    ∃ s1, kmeansSetup { s with iter := 0, eps := eps } data_py centroids_py = some s1 ∧
      kmeansLoop s1 (Int.toNat 0) = some (s1, 0) ∧
      kmeans s 0 eps data_py centroids_py
        = some (centroids_py.reverse.map (fun j => row data_py j), freeMemory s1) := by
  refine ⟨_, kmeansSetup_eq _ data_py centroids_py hne hrect, rfl, ?_⟩
  unfold kmeans
  rw [kmeansSetup_eq _ data_py centroids_py hne hrect]
  simp only [Int.toNat_zero, kmeansLoop, convert_c_matrix_to_py_list]
  rw [convertLoop_eq _ _ _ (by simp)]
  simp only [List.take_left', List.length_map, List.length_reverse, List.map_map]
  have : (centroids_py.reverse.map
      (centroidRow (data_py.headD []).length ∘ fun j => createCluster (data_py.headD []).length (row data_py j)))
      = centroids_py.reverse.map (fun j => row data_py j) := by
    apply List.map_congr_left
    intro j hj
    have hj' : j < data_py.length := hseeds j (List.mem_reverse.mp hj)
    have hl := row_length_of_rect data_py hrect j hj'
    simp only [Function.comp]
    rw [← hl]
    exact centroidRow_createCluster _
  rw [this]

theorem kmeans_zero_iterations_witness :
    ∃ s1, kmeansSetup { initialState with iter := 0, eps := Dbl.fin (1 / 10000) }
        [[Dbl.fin 1], [Dbl.fin 2], [Dbl.fin 10], [Dbl.fin 11]] [0, 2] = some s1 ∧
      kmeansLoop s1 (Int.toNat 0) = some (s1, 0) ∧
      kmeans initialState 0 (Dbl.fin (1 / 10000))
          [[Dbl.fin 1], [Dbl.fin 2], [Dbl.fin 10], [Dbl.fin 11]] [0, 2]
        = some (([0, 2] : List Nat).reverse.map
            (fun j => row [[Dbl.fin 1], [Dbl.fin 2], [Dbl.fin 10], [Dbl.fin 11]] j), freeMemory s1) :=
  kmeans_zero_iterations initialState (Dbl.fin (1 / 10000))
    [[Dbl.fin 1], [Dbl.fin 2], [Dbl.fin 10], [Dbl.fin 11]] [0, 2] (by decide) (by decide!) (by decide)

/-! ## A single cluster -/

theorem sqDist_self (D : Nat) (a b : List Dbl) (h : ∀ d, d < D → rd a d = rd b d) :
    sqDist D a b = 0 := by
  unfold sqDist
  apply List.sum_eq_zero
  intro x hx
  obtain ⟨i, hi, rfl⟩ := List.mem_map.mp hx
  rw [h i (List.mem_range.mp hi)]
  simp

theorem single_assign (t : KState) (hg : Good t) (hlen : t.cluster_list.length = 1) :
    assignedTo t (List.range t.N) 0 = List.range t.N := by
  unfold assignedTo
  rw [List.filter_eq_self]
  intro i hi
  obtain ⟨k, hk⟩ := findClosestCluster_isSome t _ (hg.2.1 i (List.mem_range.mp hi)) hg.2.2.2.2
  have := findClosestCluster_lt t _ k hk
  have hk0 : k = 0 := by omega
  rw [hk, hk0]
  simp

theorem centroidRow_eq_iff (D : Nat) (c : CLUSTER) (f : Nat → Dbl) :
    centroidRow D c = (List.range D).map f ↔ ∀ d, d < D → rd c.centroid d = f d := by
  unfold centroidRow
  constructor
  · intro h d hd
    have := List.map_inj_left.mp h d (List.mem_range.mpr hd)
    exact this
  · intro h
    apply List.map_congr_left
    intro d hd
    exact h d (List.mem_range.mp hd)

/-- One iteration of a run with a single cluster: it returns, the cluster then holds the
mean of all rows, and the flag is 0 when it held the mean before (`e > 0`). -/
theorem single_iteration (data_py : List (List Dbl)) (e : ℚ) (he : 0 < e) (t : KState)
    (h : SingleRun data_py e t) :
    ∃ t' flag, kmeansIteration t = some (t', flag) ∧ SingleRun data_py e t' ∧ AtMean t' ∧
      (AtMean t → flag = 0) := by
  obtain ⟨hg, hdata, hN, hD, heps, hlen⟩ := h
  obtain ⟨t', flag, hit, hg'⟩ := kmeansIteration_good t hg
  obtain ⟨e1, -, e3, e4, -, e6, hlen', -, cs1, hlen1, hcs, hflag, -, hpos⟩ :=
    kmeansIteration_spec t t' flag hit
  obtain ⟨c0, hc0⟩ : ∃ c0, t.cluster_list = [c0] := List.length_eq_one.mp hlen
  obtain ⟨c1, hc1, q1, q2, q3, q4⟩ := hpos 0 c0 (by rw [hc0]; rfl)
  have hcs1 : cs1 = [c1] := by
    obtain ⟨x, hx⟩ : ∃ x, cs1 = [x] := List.length_eq_one.mp (by rw [hlen1, hlen])
    rw [hx] at hc1 ⊢
    simpa using hc1
  have hmem0 : c0 ∈ t.cluster_list := by rw [hc0]; exact List.mem_singleton.mpr rfl
  have hcl0 := hg.2.2.1 c0 hmem0
  rw [hcl0.2.2.1, single_assign t hg hlen] at q3
  rw [hcl0.2.2.2, single_assign t hg hlen] at q4
  have hne : List.range t.N ≠ [] := by
    intro h0
    have := congrArg List.length h0
    simp at this
    have := hg.1
    omega
  have hmean : ∀ d, d < t.D → rd (clearCluster (recompute t c1)).centroid d
      = Dbl.fin ((((List.range t.N).map (fun i => (rd (row t.data i) d).val)).sum) / (t.N : ℚ)) := by
    intro d hd
    have := recompute_mean t c1 (List.range t.N) (by simpa using q3) (by simpa using q4) hne
      (fun i hi => hg.2.1 i (List.mem_range.mp hi)) (by rw [q1]; exact le_of_eq hcl0.1.symm) d hd
    simpa using this
  have hcl' : t'.cluster_list = [clearCluster (recompute t c1)] := by rw [hcs, hcs1]; rfl
  have hat : AtMean t' := by
    refine ⟨_, hcl', ?_⟩
    rw [e3, e1, e4]
    exact (centroidRow_eq_iff _ _ _).mpr hmean
  refine ⟨t', flag, hit, ⟨hg', by rw [e1, hdata], by rw [e4, hN], by rw [e3, hD],
    by rw [e6, heps], by rw [hlen', hlen]⟩, hat, ?_⟩
  rintro ⟨c, hc, hrow⟩
  obtain rfl : c0 = c := by rw [hc0] at hc; simpa using hc
  have hold : ∀ d, d < t.D → rd c0.centroid d
      = Dbl.fin ((((List.range t.N).map (fun i => (rd (row t.data i) d).val)).sum) / (t.N : ℚ)) :=
    (centroidRow_eq_iff _ _ _).mp hrow
  have hprev : ∀ d, d < t.D → rd (recompute t c1).prev d = rd (recompute t c1).centroid d := by
    intro d hd
    rw [rd_recompute_prev t c1 (by rw [q2]; exact le_of_eq hcl0.2.1.symm) d hd, q1, hold d hd]
    exact (hmean d hd).symm
  have hfv : FinVec t.D (recompute t c1).centroid := by
    intro d hd
    have := hmean d hd
    rw [show rd (recompute t c1).centroid d = _ from this]
    rfl
  have hfv' : FinVec t.D (recompute t c1).prev := by
    intro d hd; rw [hprev d hd]; exact hfv d hd
  have hmoved : moved t c1 = false := by
    unfold moved
    rw [calculateDistance_fin _ _ _ hfv' hfv, sqDist_self _ _ _ hprev, heps]
    simp only [Root.gt, Bool.or_eq_false_iff, decide_eq_false_iff_not, not_lt]
    exact ⟨he.le, mul_nonneg he.le he.le⟩
  rw [hflag, hcs1]
  simp [hmoved]

theorem singleRun_set_iter {data_py : List (List Dbl)} {e : ℚ} {t : KState}
    (h : SingleRun data_py e t) (n : Int) : SingleRun data_py e { t with iter := n } := h

theorem atMean_set_iter {t : KState} (h : AtMean t) (n : Int) : AtMean { t with iter := n } := h

theorem single_stateAfter (data_py : List (List Dbl)) (e : ℚ) (he : 0 < e) (n : Nat) (t : KState)
    (h : SingleRun data_py e t) :
    ∃ t', stateAfter t n = some t' ∧ SingleRun data_py e t' ∧ ((1 ≤ n ∨ AtMean t) → AtMean t') := by
  induction n generalizing t with
  | zero =>
    refine ⟨t, rfl, h, ?_⟩
    rintro (h0 | h0)
    · omega
    · exact h0
  | succ n ih =>
    obtain ⟨t1, flag, hit, hrun, hat, -⟩ := single_iteration data_py e he t h
    obtain ⟨t', hst, hrun', hat'⟩ := ih { t1 with iter := t1.iter - 1 } (singleRun_set_iter hrun _)
    refine ⟨t', ?_, hrun', fun _ => hat' (Or.inr (atMean_set_iter hat _))⟩
    unfold stateAfter
    rw [hit]
    exact hst

theorem single_loop (data_py : List (List Dbl)) (e : ℚ) (he : 0 < e) (M : Nat) (hM : 1 ≤ M)
    (t : KState) (h : SingleRun data_py e t) :
    ∃ s2 calls, kmeansLoop t M = some (s2, calls) ∧ SingleRun data_py e s2 ∧ AtMean s2 ∧
      (calls = 1 ∨ calls = 2) := by
  obtain ⟨m, rfl⟩ : ∃ m, M = m + 1 := ⟨M - 1, by omega⟩
  obtain ⟨t1, f1, hit1, hrun1, hat1, -⟩ := single_iteration data_py e he t h
  unfold kmeansLoop
  rw [hit1]
  simp only []
  by_cases hf1 : f1 = 0
  · rw [if_pos hf1]
    exact ⟨t1, 1, rfl, hrun1, hat1, Or.inl rfl⟩
  · rw [if_neg hf1]
    cases m with
    | zero =>
      exact ⟨{ t1 with iter := t1.iter - 1 }, 1, rfl, singleRun_set_iter hrun1 _, atMean_set_iter hat1 _, Or.inl rfl⟩
    | succ m =>
      obtain ⟨t2, f2, hit2, hrun2, hat2, hzero⟩ :=
        single_iteration data_py e he { t1 with iter := t1.iter - 1 } (singleRun_set_iter hrun1 _)
      have hf2 : f2 = 0 := hzero (atMean_set_iter hat1 _)
      refine ⟨t2, 2, ?_, hrun2, hat2, Or.inr rfl⟩
      unfold kmeansLoop
      rw [hit2]
      simp [hf2]

/-- C9. Single cluster, arithmetic being exact: for one seed index, a valid input with
`N > 0` rows of `D` numbers, a tolerance `e > 0` and `max_iterations >= 1`, the single
cluster receives all `N` rows in the assignment of every iteration, after the first
iteration and after every later one its centroid is the coordinate-wise mean of all rows,
the loop stops after one or two calls, and `kmeans` returns that mean as its only row. -/
theorem kmeans_single_cluster (s : KState) (iter : Int) (e : ℚ) (data_py : List (List Dbl))
    (j : Nat) (hv : ValidInput data_py [j]) (hs : s.cluster_list = []) (he : 0 < e)
    (hiter : 1 ≤ iter) :
    ∃ s1 s2 calls,
      kmeansSetup { s with iter := iter, eps := Dbl.fin e } data_py [j] = some s1 ∧
      (∀ n, ∃ t, stateAfter s1 n = some t ∧ t.N = data_py.length ∧
        t.cluster_list.length = 1 ∧
        assignedTo t (List.range t.N) 0 = List.range data_py.length ∧
        (1 ≤ n → ∃ c, t.cluster_list = [c] ∧
          centroidRow (data_py.headD []).length c
            = meanRow data_py data_py.length (data_py.headD []).length)) ∧
      kmeansLoop s1 iter.toNat = some (s2, calls) ∧ (calls = 1 ∨ calls = 2) ∧
      kmeans s iter (Dbl.fin e) data_py [j]
        = some ([meanRow data_py data_py.length (data_py.headD []).length], freeMemory s2) := by
  obtain ⟨s1, hsetup, hgood, hdata, hN, hD, -, -, heps, hcl⟩ :=
    kmeansSetup_good { s with iter := iter, eps := Dbl.fin e } data_py [j] hv hs
  have hrun : SingleRun data_py e s1 := ⟨hgood, hdata, hN, hD, heps, by rw [hcl]; rfl⟩
  have hM : 1 ≤ iter.toNat := by omega
  obtain ⟨s2, calls, hloop, hrun2, hat2, hcalls⟩ := single_loop data_py e he _ hM s1 hrun
  refine ⟨s1, s2, calls, hsetup, ?_, hloop, hcalls, ?_⟩
  · intro n
    obtain ⟨t, hst, hrt, hat⟩ := single_stateAfter data_py e he n s1 hrun
    obtain ⟨hg, htd, htN, htD, -, htl⟩ := hrt
    refine ⟨t, hst, htN, htl, ?_, ?_⟩
    · rw [single_assign t hg htl, htN]
    · intro hn
      obtain ⟨c, hc, hrow⟩ := hat (Or.inl hn)
      rw [htD, htd, htN] at hrow
      exact ⟨c, hc, hrow⟩
  · obtain ⟨hg, htd, htN, htD, -, htl⟩ := hrun2
    obtain ⟨c, hc, hrow⟩ := hat2
    rw [htD, htd, htN] at hrow
    unfold kmeans
    rw [hsetup]
    simp only []
    rw [hloop]
    simp only []
    have hconv : convert_c_matrix_to_py_list s2
        = some [meanRow data_py data_py.length (data_py.headD []).length] := by
      unfold convert_c_matrix_to_py_list
      rw [convertLoop_eq _ _ _ (le_of_eq hg.2.2.2.1), hg.2.2.2.1, List.take_length, hc, htD]
      simp only [List.map_cons, List.map_nil, hrow]
    rw [hconv]

theorem kmeans_single_cluster_witness :
    ∃ s1 s2 calls,
      kmeansSetup { initialState with iter := 3, eps := Dbl.fin (1 / 10000) }
        [[Dbl.fin 1, Dbl.fin 4], [Dbl.fin 3, Dbl.fin 0]] [1] = some s1 ∧
      (∀ n, ∃ t, stateAfter s1 n = some t ∧
        t.N = ([[Dbl.fin 1, Dbl.fin 4], [Dbl.fin 3, Dbl.fin 0]] : List (List Dbl)).length ∧
        t.cluster_list.length = 1 ∧
        assignedTo t (List.range t.N) 0
          = List.range ([[Dbl.fin 1, Dbl.fin 4], [Dbl.fin 3, Dbl.fin 0]] : List (List Dbl)).length ∧
        (1 ≤ n → ∃ c, t.cluster_list = [c] ∧
          centroidRow (([[Dbl.fin 1, Dbl.fin 4], [Dbl.fin 3, Dbl.fin 0]] : List (List Dbl)).headD []).length c
            = meanRow [[Dbl.fin 1, Dbl.fin 4], [Dbl.fin 3, Dbl.fin 0]]
                ([[Dbl.fin 1, Dbl.fin 4], [Dbl.fin 3, Dbl.fin 0]] : List (List Dbl)).length
                (([[Dbl.fin 1, Dbl.fin 4], [Dbl.fin 3, Dbl.fin 0]] : List (List Dbl)).headD []).length)) ∧
      kmeansLoop s1 (3 : Int).toNat = some (s2, calls) ∧ (calls = 1 ∨ calls = 2) ∧
      kmeans initialState 3 (Dbl.fin (1 / 10000)) [[Dbl.fin 1, Dbl.fin 4], [Dbl.fin 3, Dbl.fin 0]] [1]
        = some ([meanRow [[Dbl.fin 1, Dbl.fin 4], [Dbl.fin 3, Dbl.fin 0]]
                ([[Dbl.fin 1, Dbl.fin 4], [Dbl.fin 3, Dbl.fin 0]] : List (List Dbl)).length
                (([[Dbl.fin 1, Dbl.fin 4], [Dbl.fin 3, Dbl.fin 0]] : List (List Dbl)).headD []).length],
            freeMemory s2) :=
  kmeans_single_cluster initialState 3 (1 / 10000) [[Dbl.fin 1, Dbl.fin 4], [Dbl.fin 3, Dbl.fin 0]] 1
    (by decide!) (by decide) (by norm_num) (by decide)

/-- C10. Worked scenario, arithmetic being exact: for the points `[[1],[2],[10],[11]]`,
the seed indices `[0,2]`, `max_iterations = 10` and `eps = 0.0001`, the first call of
`kmeansIteration` returns 1 and moves the centroids to `[10.5]` and `[1.5]`, the second
call returns 0, the loop stops there after two calls, and `kmeans` returns `[10.5]` for the
cluster seeded at `[10]` (position 0 of the list) and `[1.5]` for the cluster seeded at
`[1]` (position 1). -/
theorem kmeans_scenario :
    kmeansSetup { initialState with iter := 10, eps := Dbl.fin (1 / 10000) }
        [[Dbl.fin 1], [Dbl.fin 2], [Dbl.fin 10], [Dbl.fin 11]] [0, 2] = some scenarioState ∧
    scenarioState.cluster_list[0]? = some (createCluster 1 [Dbl.fin 10]) ∧
    scenarioState.cluster_list[1]? = some (createCluster 1 [Dbl.fin 1]) ∧
    kmeansIteration scenarioState = some (scenarioAfterOne, 1) ∧
    kmeansIteration { scenarioAfterOne with iter := 9 } = some (scenarioFinal, 0) ∧
    kmeansLoop scenarioState (10 : Int).toNat = some (scenarioFinal, 2) ∧
    kmeans initialState 10 (Dbl.fin (1 / 10000))
        [[Dbl.fin 1], [Dbl.fin 2], [Dbl.fin 10], [Dbl.fin 11]] [0, 2]
      = some ([[Dbl.fin (21 / 2)], [Dbl.fin (3 / 2)]], freeMemory scenarioFinal) := by
  decide!

/-! ## Two runs in a row -/

theorem kmeansSetup_congr (s t : KState) (data_py : List (List Dbl)) (centroids_py : List Nat)
    (h1 : s.cluster_list = t.cluster_list) (h2 : s.iter = t.iter) (h3 : s.eps = t.eps) :
    kmeansSetup s data_py centroids_py = kmeansSetup t data_py centroids_py := by
  cases data_py with
  | nil => rfl
  | cons row0 rest =>
    simp only [kmeansSetup, initializeClusters, initializeLoop_eq, h1, h2, h3]

theorem kmeans_congr (s t : KState) (iter : Int) (eps : Dbl) (data_py : List (List Dbl))
    (centroids_py : List Nat) (h : s.cluster_list = t.cluster_list) :
    kmeans s iter eps data_py centroids_py = kmeans t iter eps data_py centroids_py := by
  unfold kmeans
  rw [kmeansSetup_congr { s with iter := iter, eps := eps } { t with iter := iter, eps := eps }
    data_py centroids_py h rfl rfl]

theorem kmeans_leaves_empty (s g : KState) (iter : Int) (eps : Dbl) (data_py : List (List Dbl))
    (centroids_py : List Nat) (rows : List (List Dbl))
    (h : kmeans s iter eps data_py centroids_py = some (rows, g)) :
    g.data = [] ∧ g.cluster_list = [] := by
  unfold kmeans at h
  split at h
  · exact absurd h (by simp)
  · split at h
    · exact absurd h (by simp)
    · split at h
      · exact absurd h (by simp)
      · simp only [Option.some.injEq, Prod.mk.injEq] at h
        obtain ⟨-, rfl⟩ := h
        exact ⟨rfl, rfl⟩

/-! ## The properties of the specification, continued -/

/-- C11. Determinism and no state carried between runs: when `kmeans`, called on globals
without clusters, returns the rows `rows` and leaves the globals `g`, then `freeMemory` has
left `data` and `cluster_list` empty in `g`; the same call made next, on `g`, returns the
same rows, as does the same call in a fresh process; and whatever call follows on `g`
gives what it gives in a fresh process, so no cluster of the earlier call takes part. -/
theorem kmeans_no_state_carried (s g : KState) (iter : Int) (eps : Dbl)
    (data_py : List (List Dbl)) (centroids_py : List Nat) (rows : List (List Dbl))
    (hs : s.cluster_list = [])
    (h : kmeans s iter eps data_py centroids_py = some (rows, g)) :
    g.data = [] ∧ g.cluster_list = [] ∧
    kmeans g iter eps data_py centroids_py = some (rows, g) ∧
    kmeans initialState iter eps data_py centroids_py = some (rows, g) ∧
    ∀ (iter' : Int) (eps' : Dbl) (data' : List (List Dbl)) (seeds' : List Nat),
      kmeans g iter' eps' data' seeds' = kmeans initialState iter' eps' data' seeds' := by
  obtain ⟨hd, hc⟩ := kmeans_leaves_empty s g iter eps data_py centroids_py rows h
  refine ⟨hd, hc, ?_, ?_, ?_⟩
  · rw [kmeans_congr g s iter eps data_py centroids_py (by rw [hc, hs])]
    exact h
  · rw [kmeans_congr initialState s iter eps data_py centroids_py (by rw [hs]; rfl)]
    exact h
  · intro iter' eps' data' seeds'
    exact kmeans_congr g initialState iter' eps' data' seeds' (by rw [hc]; rfl)

theorem kmeans_no_state_carried_witness :
    (freeMemory scenarioFinal).data = [] ∧ (freeMemory scenarioFinal).cluster_list = [] ∧
    kmeans (freeMemory scenarioFinal) 10 (Dbl.fin (1 / 10000))
        [[Dbl.fin 1], [Dbl.fin 2], [Dbl.fin 10], [Dbl.fin 11]] [0, 2]
      = some ([[Dbl.fin (21 / 2)], [Dbl.fin (3 / 2)]], freeMemory scenarioFinal) ∧
    kmeans initialState 10 (Dbl.fin (1 / 10000))
        [[Dbl.fin 1], [Dbl.fin 2], [Dbl.fin 10], [Dbl.fin 11]] [0, 2]
      = some ([[Dbl.fin (21 / 2)], [Dbl.fin (3 / 2)]], freeMemory scenarioFinal) ∧
    ∀ (iter' : Int) (eps' : Dbl) (data' : List (List Dbl)) (seeds' : List Nat),
      kmeans (freeMemory scenarioFinal) iter' eps' data' seeds'
        = kmeans initialState iter' eps' data' seeds' :=
  kmeans_no_state_carried initialState (freeMemory scenarioFinal) 10 (Dbl.fin (1 / 10000))
    [[Dbl.fin 1], [Dbl.fin 2], [Dbl.fin 10], [Dbl.fin 11]] [0, 2]
    [[Dbl.fin (21 / 2)], [Dbl.fin (3 / 2)]] (by decide) (by decide!)

theorem createClusterHw2_eq (point : List Dbl) (D : Nat) :
    Hw2.createCluster point D =
      ⟨setLoop (rd point) D (List.replicate (D + 1) (Dbl.fin 0)),
       setLoop (rd point) D (List.replicate (D + 1) (Dbl.fin 0)), [], 0⟩ := by
  have key : ∀ n (c : CLUSTER), (List.range n).foldl
      (fun c i => { c with prev := c.prev.set i (rd point i), centroid := c.centroid.set i (rd point i) }) c
      = { c with prev := setLoop (rd point) n c.prev, centroid := setLoop (rd point) n c.centroid } := by
    intro n c
    induction n with
    | zero => simp [setLoop]
    | succ n ih => rw [foldl_range_succ, ih, setLoop_succ, setLoop_succ]
  unfold Hw2.createCluster
  simp only [key]

/-- C12. Cluster creation: for every point and every `D`, the cluster `createCluster`
returns has `centroid` and `prev` equal to the point on the coordinates `0..D-1`, an empty
point list and size 0; this holds for the version of `kmeans_module.c`, whose arrays have
`D` slots, and for the version of `hw2.c`, whose arrays have `D + 1` slots (the last one
stays 0), so the two give the same cluster on those `D` coordinates. -/
theorem createCluster_copies_point (point : List Dbl) (D : Nat) :
    ((createCluster D point).point_list = [] ∧ (createCluster D point).size = 0 ∧
      (createCluster D point).centroid.length = D ∧ (createCluster D point).prev.length = D ∧
      ∀ d, d < D → rd (createCluster D point).centroid d = rd point d ∧
        rd (createCluster D point).prev d = rd point d) ∧
    ((Hw2.createCluster point D).point_list = [] ∧ (Hw2.createCluster point D).size = 0 ∧
      (Hw2.createCluster point D).centroid.length = D + 1 ∧
      (Hw2.createCluster point D).prev.length = D + 1 ∧
      rd (Hw2.createCluster point D).centroid D = Dbl.fin 0 ∧
      rd (Hw2.createCluster point D).prev D = Dbl.fin 0 ∧
      ∀ d, d < D → rd (Hw2.createCluster point D).centroid d = rd point d ∧
        rd (Hw2.createCluster point D).prev d = rd point d) ∧
    ((Hw2.createCluster point D).point_list = (createCluster D point).point_list ∧
      (Hw2.createCluster point D).size = (createCluster D point).size ∧
      ∀ d, d < D →
        rd (Hw2.createCluster point D).centroid d = rd (createCluster D point).centroid d ∧
        rd (Hw2.createCluster point D).prev d = rd (createCluster D point).prev d) := by
  have h1 : ∀ d, d < D → rd (createCluster D point).centroid d = rd point d ∧
      rd (createCluster D point).prev d = rd point d := fun d hd =>
    ⟨rd_createCluster_centroid D point d hd, rd_createCluster_prev D point d hd⟩
  have h2 : ∀ d, d < D → rd (Hw2.createCluster point D).centroid d = rd point d ∧
      rd (Hw2.createCluster point D).prev d = rd point d := by
    intro d hd
    simp [createClusterHw2_eq, rd_setLoop, hd]
  have h3 : rd (Hw2.createCluster point D).centroid D = Dbl.fin 0 ∧
      rd (Hw2.createCluster point D).prev D = Dbl.fin 0 := by
    have hz : rd (List.replicate (D + 1) (Dbl.fin 0)) D = Dbl.fin 0 := by
      simp [rd, List.getD_eq_getElem?_getD, List.getElem?_replicate]
    have hs : rd (setLoop (rd point) D (List.replicate (D + 1) (Dbl.fin 0))) D = Dbl.fin 0 := by
      rw [rd_setLoop _ _ _ (by simp)]
      simp [hz]
    rw [createClusterHw2_eq]
    exact ⟨hs, hs⟩
  refine ⟨⟨(createCluster_point_list D point).1, (createCluster_point_list D point).2,
    createCluster_centroid_length D point, createCluster_prev_length D point, h1⟩,
    ⟨by simp [createClusterHw2_eq], by simp [createClusterHw2_eq], by simp [createClusterHw2_eq],
      by simp [createClusterHw2_eq], h3.1, h3.2, h2⟩,
    ⟨by simp [createClusterHw2_eq, createCluster_eq], by simp [createClusterHw2_eq, createCluster_eq], ?_⟩⟩
  intro d hd
  rw [(h1 d hd).1, (h1 d hd).2, (h2 d hd).1, (h2 d hd).2]
  exact ⟨rfl, rfl⟩

/-- C13. Frame of `clearCluster`: for every cluster, `clearCluster` (of either file) leaves
the point list empty and the size 0, and leaves `centroid` and `prev` as they were, in
every slot. -/
theorem clearCluster_frame (c : CLUSTER) :
    ((clearCluster c).point_list = [] ∧ (clearCluster c).size = 0 ∧
      (clearCluster c).centroid = c.centroid ∧ (clearCluster c).prev = c.prev ∧
      ∀ d, rd (clearCluster c).centroid d = rd c.centroid d ∧
        rd (clearCluster c).prev d = rd c.prev d) ∧
    ((Hw2.clearCluster c).point_list = [] ∧ (Hw2.clearCluster c).size = 0 ∧
      (Hw2.clearCluster c).centroid = c.centroid ∧ (Hw2.clearCluster c).prev = c.prev ∧
      ∀ d, rd (Hw2.clearCluster c).centroid d = rd c.centroid d ∧
        rd (Hw2.clearCluster c).prev d = rd c.prev d) :=
  ⟨⟨rfl, rfl, rfl, rfl, fun _ => ⟨rfl, rfl⟩⟩, ⟨rfl, rfl, rfl, rfl, fun _ => ⟨rfl, rfl⟩⟩⟩

theorem addPoint_length (pl : List POINT_LIST) (i : Nat) :
    (addPoint pl i).length = pl.length + 1 := by
  cases pl <;> simp [addPoint]

theorem addPoint_head_size (pl : List POINT_LIST) (i : Nat)
    (h : ∀ n, pl.head? = some n → n.size = (pl.length : Int)) :
    ∀ n, (addPoint pl i).head? = some n → n.size = ((addPoint pl i).length : Int) := by
  intro n hn
  cases pl with
  | nil =>
    simp only [addPoint, List.head?_cons, Option.some.injEq] at hn
    subst hn
    simp [addPoint]
  | cons old rest =>
    simp only [addPoint, List.head?_cons, Option.some.injEq] at hn
    subst hn
    have := h old rfl
    simp only [addPoint, List.length_cons]
    rw [this]
    simp

/-- C14. Member-count invariant: in every cluster reachable from `createCluster` by the
two statements of `addPointsToClusters` (`addPoint`, then `size++`), by `clearCluster` and
by the centroid updates of an iteration, `size` is the number of nodes of the point list,
and when the list is not empty the `size` field of its head node is that number too. -/
theorem size_counts_members (c : CLUSTER) (h : ReachableCluster c) :
    c.size = (c.point_list.length : Int) ∧
    ∀ n, c.point_list.head? = some n → n.size = (c.point_list.length : Int) := by
  induction h with
  | create D point =>
    rw [(createCluster_point_list D point).1, (createCluster_point_list D point).2]
    simp
  | createHw2 point D =>
    simp [createClusterHw2_eq]
  | add c i _ ih =>
    refine ⟨?_, addPoint_head_size c.point_list i ih.2⟩
    show c.size + 1 = ((addPoint c.point_list i).length : Int)
    rw [addPoint_length, ih.1]
    simp
  | save D c _ ih =>
    rw [savePrev_eq]
    exact ih
  | update data D c _ ih =>
    rw [updateCentroid_eq]
    exact ih
  | clear c _ _ =>
    simp [clearCluster]

theorem size_counts_members_witness :
    (addToCluster (addToCluster (createCluster 1 [Dbl.fin 1]) 0) 3).size
      = ((addToCluster (addToCluster (createCluster 1 [Dbl.fin 1]) 0) 3).point_list.length : Int) ∧
    ∀ n, (addToCluster (addToCluster (createCluster 1 [Dbl.fin 1]) 0) 3).point_list.head? = some n →
      n.size = ((addToCluster (addToCluster (createCluster 1 [Dbl.fin 1]) 0) 3).point_list.length : Int) :=
  size_counts_members _
    (ReachableCluster.add _ 3 (ReachableCluster.add _ 0 (ReachableCluster.create 1 [Dbl.fin 1])))

theorem rd_updateCentroid (data : List (List Dbl)) (D : Nat) (c : CLUSTER) (d : Nat)
    (hd : d < D) (halloc : D ≤ c.centroid.length) :
    rd (updateCentroid data D c).centroid d
      = Dbl.divInt (coordSum data c.point_list d) c.size := by
  simp [updateCentroid_eq, rd_setLoop _ _ _ halloc, hd]

theorem Dbl.divInt_zero_not_fin (x : Dbl) : (Dbl.divInt x 0).isFin = false := by
  cases x with
  | fin a =>
    by_cases ha : a = 0
    · simp [Dbl.divInt, ha, Dbl.isFin]
    · by_cases hp : 0 < a <;> simp [Dbl.divInt, ha, hp, Dbl.signedInf, Dbl.isFin]
  | pinf => simp [Dbl.divInt, Dbl.signedInf, Dbl.isFin]
  | ninf => simp [Dbl.divInt, Dbl.signedInf, Dbl.isFin]
  | nan => simp [Dbl.divInt, Dbl.isFin]

/-- C15. Degenerate cluster: in `updateCentroid` (the same function in both files) the new
value of coordinate `d < D` is `sum / size` whatever `size` is.  With `size` 0 the divisor
is 0 and the value is not a number (NaN when the point list is empty, as the sum is then
0.0); with `size > 0` and a sum of numbers it is their quotient.  And the first case
occurs on an input that meets the interface preconditions: for the data `[[1],[1]]` and
the seed indices `[0,1]` (`K = 2`, `D = 1`, `N = 2`, distinct seeds in range, equal
points) the second cluster of the list has size 0 and no point when the iteration calls
`updateCentroid` on it, and its centroid becomes NaN. -/
theorem updateCentroid_division (data : List (List Dbl)) (D : Nat) (c : CLUSTER) (d : Nat)
    (hd : d < D) (halloc : D ≤ c.centroid.length) :
    rd (updateCentroid data D c).centroid d
      = Dbl.divInt (coordSum data c.point_list d) c.size ∧
    Hw2.updateCentroid data c D = updateCentroid data D c ∧
    (c.size = 0 → (rd (updateCentroid data D c).centroid d).isFin = false) ∧
    (c.size = 0 → c.point_list = [] → rd (updateCentroid data D c).centroid d = Dbl.nan) ∧
    (0 < c.size → (coordSum data c.point_list d).isFin = true →
      rd (updateCentroid data D c).centroid d
        = Dbl.fin ((coordSum data c.point_list d).val / (c.size : ℚ))) ∧
    (ValidInput [[Dbl.fin 1], [Dbl.fin 1]] [0, 1] ∧ ([0, 1] : List Nat).Nodup ∧
      kmeansSetup { initialState with iter := 1, eps := Dbl.fin (1 / 10000) }
        [[Dbl.fin 1], [Dbl.fin 1]] [0, 1] = some twinState ∧
      1 ≤ twinState.K ∧ 1 ≤ twinState.D ∧ twinState.K ≤ twinState.N ∧
      ∃ t c0, addPointsToClusters twinState = some t ∧ t.cluster_list[1]? = some c0 ∧
        c0.size = 0 ∧ c0.point_list = [] ∧
        rd (updateCentroid t.data t.D (savePrev t.D c0)).centroid 0 = Dbl.nan) := by
  have hval := rd_updateCentroid data D c d hd halloc
  refine ⟨hval, rfl, ?_, ?_, ?_, ?_⟩
  · intro h0
    rw [hval, h0]
    exact Dbl.divInt_zero_not_fin _
  · intro h0 hnil
    rw [hval, h0, hnil]
    simp [coordSum, Dbl.divInt]
  · intro hpos hfin
    rw [hval, Dbl.eq_fin_val hfin, Dbl.divInt_fin _ _ (by omega)]
    rfl
  · refine ⟨by decide!, by decide, by decide!, by decide, by decide, by decide, ?_⟩
    refine ⟨{ twinState with cluster_list :=
        [⟨[Dbl.fin 1], [Dbl.fin 1], [⟨1, 2⟩, ⟨0, 1⟩], 2⟩, ⟨[Dbl.fin 1], [Dbl.fin 1], [], 0⟩] },
      ⟨[Dbl.fin 1], [Dbl.fin 1], [], 0⟩, by decide!, by decide!, rfl, rfl, by decide!⟩

theorem updateCentroid_division_witness :
    rd (updateCentroid twinState.data 1 ⟨[Dbl.fin 1], [Dbl.fin 1], [], 0⟩).centroid 0
      = Dbl.divInt (coordSum twinState.data
          (⟨[Dbl.fin 1], [Dbl.fin 1], [], 0⟩ : CLUSTER).point_list 0)
          (⟨[Dbl.fin 1], [Dbl.fin 1], [], 0⟩ : CLUSTER).size ∧
    Hw2.updateCentroid twinState.data ⟨[Dbl.fin 1], [Dbl.fin 1], [], 0⟩ 1
      = updateCentroid twinState.data 1 ⟨[Dbl.fin 1], [Dbl.fin 1], [], 0⟩ ∧
    ((⟨[Dbl.fin 1], [Dbl.fin 1], [], 0⟩ : CLUSTER).size = 0 →
      (rd (updateCentroid twinState.data 1 ⟨[Dbl.fin 1], [Dbl.fin 1], [], 0⟩).centroid 0).isFin = false) ∧
    ((⟨[Dbl.fin 1], [Dbl.fin 1], [], 0⟩ : CLUSTER).size = 0 →
      (⟨[Dbl.fin 1], [Dbl.fin 1], [], 0⟩ : CLUSTER).point_list = [] →
      rd (updateCentroid twinState.data 1 ⟨[Dbl.fin 1], [Dbl.fin 1], [], 0⟩).centroid 0 = Dbl.nan) ∧
    (0 < (⟨[Dbl.fin 1], [Dbl.fin 1], [], 0⟩ : CLUSTER).size →
      (coordSum twinState.data (⟨[Dbl.fin 1], [Dbl.fin 1], [], 0⟩ : CLUSTER).point_list 0).isFin = true →
      rd (updateCentroid twinState.data 1 ⟨[Dbl.fin 1], [Dbl.fin 1], [], 0⟩).centroid 0
        = Dbl.fin ((coordSum twinState.data
            (⟨[Dbl.fin 1], [Dbl.fin 1], [], 0⟩ : CLUSTER).point_list 0).val
            / ((⟨[Dbl.fin 1], [Dbl.fin 1], [], 0⟩ : CLUSTER).size : ℚ))) ∧
    (ValidInput [[Dbl.fin 1], [Dbl.fin 1]] [0, 1] ∧ ([0, 1] : List Nat).Nodup ∧
      kmeansSetup { initialState with iter := 1, eps := Dbl.fin (1 / 10000) }
        [[Dbl.fin 1], [Dbl.fin 1]] [0, 1] = some twinState ∧
      1 ≤ twinState.K ∧ 1 ≤ twinState.D ∧ twinState.K ≤ twinState.N ∧
      ∃ t c0, addPointsToClusters twinState = some t ∧ t.cluster_list[1]? = some c0 ∧
        c0.size = 0 ∧ c0.point_list = [] ∧
        rd (updateCentroid t.data t.D (savePrev t.D c0)).centroid 0 = Dbl.nan) :=
  updateCentroid_division twinState.data 1 ⟨[Dbl.fin 1], [Dbl.fin 1], [], 0⟩ 0 (by decide) (by decide)

/-- The flag of an iteration in terms of the clusters it leaves: it is 1 exactly when one
of them has `prev` and `centroid` more than `eps` apart. -/
theorem kmeansIteration_flag_prev (s s' : KState) (flag : Int)
    (hit : kmeansIteration s = some (s', flag)) :
    (flag = 1 ∨ flag = 0) ∧
    (flag = 1 ↔ ∃ (k : Nat) (c' : CLUSTER), s'.cluster_list[k]? = some c' ∧
      Root.gt (calculateDistance s.D c'.prev c'.centroid) s.eps = true) := by
  obtain ⟨-, -, -, -, -, -, -, -, cs1, -, hcs, hflag, -, -⟩ := kmeansIteration_spec s s' flag hit
  have hany : cs1.any (moved s) = true ↔ ∃ (k : Nat) (c' : CLUSTER),
      s'.cluster_list[k]? = some c' ∧
      Root.gt (calculateDistance s.D c'.prev c'.centroid) s.eps = true := by
    rw [List.any_eq_true]
    constructor
    · rintro ⟨c1, hmem, hmv⟩
      obtain ⟨k, hk⟩ := List.mem_iff_getElem?.mp hmem
      refine ⟨k, clearCluster (recompute s c1), ?_, hmv⟩
      rw [hcs, List.getElem?_map, hk]; rfl
    · rintro ⟨k, c', hc', hgt⟩
      rw [hcs, List.getElem?_map] at hc'
      cases hk : cs1[k]? with
      | none => rw [hk] at hc'; simp at hc'
      | some c1 =>
        rw [hk] at hc'
        obtain rfl : clearCluster (recompute s c1) = c' := by simpa using hc'
        exact ⟨c1, List.getElem?_mem hk, hgt⟩
  by_cases h : cs1.any (moved s) = true
  · have hf : flag = 1 := by rw [hflag]; simp [h]
    exact ⟨Or.inl hf, fun _ => hany.mp h, fun _ => hf⟩
  · have hf : flag = 0 := by rw [hflag]; simp [h]
    refine ⟨Or.inr hf, fun h1 => ?_, fun hex => absurd (hany.mpr hex) h⟩
    rw [hf] at h1
    exact absurd h1 (by decide)

/-- C16. Snapshot of the previous centroid: a call of `kmeansIteration` returns when the
data rows hold numbers and one centroid does; after a call that returns, the `prev` of
each cluster equals, on the coordinates `0..D-1`, the centroid the cluster had when the
call began (the `prev` arrays having their `D` slots); the flag is 1 exactly when for some
cluster the distance between `prev` and `centroid` is `> eps`, and that distance is the
distance between the centroid before the call and the centroid after it. -/
theorem kmeansIteration_prev_snapshot (s : KState)
    (halloc : ∀ c ∈ s.cluster_list, s.D ≤ c.prev.length) :
    ((∀ i, i < s.N → FinVec s.D (row s.data i)) →
      (∃ c ∈ s.cluster_list, FinVec s.D c.centroid) → ∃ r, kmeansIteration s = some r) ∧
    ∀ (s' : KState) (flag : Int), kmeansIteration s = some (s', flag) →
      (∀ (k : Nat) (c c' : CLUSTER), s.cluster_list[k]? = some c →
        s'.cluster_list[k]? = some c' →
        (∀ d, d < s.D → rd c'.prev d = rd c.centroid d) ∧
        calculateDistance s.D c'.prev c'.centroid
          = calculateDistance s.D c.centroid c'.centroid) ∧
      (flag = 1 ↔ ∃ (k : Nat) (c' : CLUSTER), s'.cluster_list[k]? = some c' ∧
        Root.gt (calculateDistance s.D c'.prev c'.centroid) s.eps = true) := by
  refine ⟨kmeansIteration_isSome s, ?_⟩
  intro s' flag hit
  refine ⟨?_, (kmeansIteration_flag_prev s s' flag hit).2⟩
  obtain ⟨-, -, -, -, -, -, -, -, cs1, -, hcs, -, -, hcl⟩ := kmeansIteration_spec s s' flag hit
  intro k c c' hc hc'
  obtain ⟨c1, hc1, e1, e2, -, -⟩ := hcl k c hc
  rw [hcs, List.getElem?_map, hc1] at hc'
  obtain rfl : clearCluster (recompute s c1) = c' := by simpa using hc'
  have hprev : ∀ d, d < s.D → rd (clearCluster (recompute s c1)).prev d = rd c.centroid d := by
    intro d hd
    show rd (recompute s c1).prev d = _
    rw [rd_recompute_prev s c1 (by rw [e2]; exact halloc c (List.getElem?_mem hc)) d hd, e1]
  exact ⟨hprev, calculateDistance_congr _ _ _ _ _ hprev (fun _ _ => rfl)⟩

theorem kmeansIteration_prev_snapshot_witness :
    ((∀ i, i < twinState.N → FinVec twinState.D (row twinState.data i)) →
      (∃ c ∈ twinState.cluster_list, FinVec twinState.D c.centroid) →
      ∃ r, kmeansIteration twinState = some r) ∧
    ∀ (s' : KState) (flag : Int), kmeansIteration twinState = some (s', flag) →
      (∀ (k : Nat) (c c' : CLUSTER), twinState.cluster_list[k]? = some c →
        s'.cluster_list[k]? = some c' →
        (∀ d, d < twinState.D → rd c'.prev d = rd c.centroid d) ∧
        calculateDistance twinState.D c'.prev c'.centroid
          = calculateDistance twinState.D c.centroid c'.centroid) ∧
      (flag = 1 ↔ ∃ (k : Nat) (c' : CLUSTER), s'.cluster_list[k]? = some c' ∧
        Root.gt (calculateDistance twinState.D c'.prev c'.centroid) twinState.eps = true) :=
  kmeansIteration_prev_snapshot twinState (by decide)

theorem kmeansIteration_empties (s s' : KState) (flag : Int)
    (hit : kmeansIteration s = some (s', flag)) :
    ∀ c ∈ s'.cluster_list, c.point_list = [] ∧ c.size = 0 := by
  obtain ⟨-, -, -, -, -, -, -, -, cs1, -, hcs, -, -, -⟩ := kmeansIteration_spec s s' flag hit
  intro c hc
  rw [hcs] at hc
  obtain ⟨c1, -, rfl⟩ := List.mem_map.mp hc
  exact ⟨rfl, rfl⟩

theorem kmeansSetup_clusters (s s1 : KState) (data_py : List (List Dbl))
    (centroids_py : List Nat) (h : kmeansSetup s data_py centroids_py = some s1) :
    ∀ c ∈ s1.cluster_list, c ∈ s.cluster_list ∨ ∃ D point, c = createCluster D point := by
  cases data_py with
  | nil => simp [kmeansSetup] at h
  | cons row0 rest =>
    simp only [kmeansSetup, initializeClusters, initializeLoop_eq, Option.some.injEq] at h
    subst h
    intro c hc
    simp only [List.mem_append, List.mem_map, List.mem_reverse] at hc
    rcases hc with ⟨j, -, rfl⟩ | hc
    · exact Or.inr ⟨_, _, rfl⟩
    · exact Or.inl hc

theorem stateAfter_empties (n : Nat) (s t : KState)
    (hs : ∀ c ∈ s.cluster_list, c.point_list = [] ∧ c.size = 0)
    (h : stateAfter s n = some t) :
    ∀ c ∈ t.cluster_list, c.point_list = [] ∧ c.size = 0 := by
  induction n generalizing s with
  | zero =>
    simp only [stateAfter, Option.some.injEq] at h
    subst h
    exact hs
  | succ n ih =>
    unfold stateAfter at h
    cases hit : kmeansIteration s with
    | none => rw [hit] at h; simp at h
    | some r =>
      obtain ⟨s1, flag⟩ := r
      rw [hit] at h
      exact ih { s1 with iter := s1.iter - 1 } (kmeansIteration_empties s s1 flag hit) h

/-- C17. Membership is rebuilt from scratch: after every call of `kmeansIteration` that
returns, whichever flag it returns, every cluster of the list has an empty point list and
size 0; and as `createCluster` makes clusters with an empty point list and size 0, in a
run set up by `kmeansSetup` (on globals whose clusters, if any, are empty) every iteration
starts from a state whose memberships are all empty. -/
theorem memberships_empty_between_iterations (s s1 : KState) (data_py : List (List Dbl))
    (centroids_py : List Nat)
    (hs : ∀ c ∈ s.cluster_list, c.point_list = [] ∧ c.size = 0)
    (hsetup : kmeansSetup s data_py centroids_py = some s1) :
    (∀ (t t' : KState) (flag : Int), kmeansIteration t = some (t', flag) →
      ∀ c ∈ t'.cluster_list, c.point_list = [] ∧ c.size = 0) ∧
    (∀ c ∈ s1.cluster_list, c.point_list = [] ∧ c.size = 0) ∧
    ∀ (n : Nat) (t : KState), stateAfter s1 n = some t →
      ∀ c ∈ t.cluster_list, c.point_list = [] ∧ c.size = 0 := by
  have h1 : ∀ c ∈ s1.cluster_list, c.point_list = [] ∧ c.size = 0 := by
    intro c hc
    rcases kmeansSetup_clusters s s1 data_py centroids_py hsetup c hc with hold | ⟨D, p, rfl⟩
    · exact hs c hold
    · exact createCluster_point_list D p
  exact ⟨kmeansIteration_empties, h1, fun n t h => stateAfter_empties n s1 t h1 h⟩

theorem memberships_empty_between_iterations_witness :
    (∀ (t t' : KState) (flag : Int), kmeansIteration t = some (t', flag) →
      ∀ c ∈ t'.cluster_list, c.point_list = [] ∧ c.size = 0) ∧
    (∀ c ∈ scenarioState.cluster_list, c.point_list = [] ∧ c.size = 0) ∧
    ∀ (n : Nat) (t : KState), stateAfter scenarioState n = some t →
      ∀ c ∈ t.cluster_list, c.point_list = [] ∧ c.size = 0 :=
  memberships_empty_between_iterations
    { initialState with iter := 10, eps := Dbl.fin (1 / 10000) } scenarioState
    [[Dbl.fin 1], [Dbl.fin 2], [Dbl.fin 10], [Dbl.fin 11]] [0, 2] (by decide) (by decide!)

/-! ## The clustering cost -/

theorem minList_le (l : List ℚ) (y : ℚ) (hy : y ∈ l) : minList l ≤ y := by
  induction l with
  | nil => simp at hy
  | cons x xs ih =>
    cases xs with
    | nil =>
      simp only [List.mem_singleton] at hy
      subst hy
      simp [minList]
    | cons z zs =>
      simp only [minList]
      rcases List.mem_cons.mp hy with rfl | hmem
      · exact min_le_left _ _
      · exact le_trans (min_le_right _ _) (ih hmem)

theorem le_minList (l : List ℚ) (v : ℚ) (hne : l ≠ []) (hmin : ∀ y ∈ l, v ≤ y) :
    v ≤ minList l := by
  induction l with
  | nil => exact absurd rfl hne
  | cons x xs ih =>
    cases xs with
    | nil => simpa [minList] using hmin x (by simp)
    | cons z zs =>
      simp only [minList]
      apply le_min (hmin x (by simp))
      exact ih (by simp) (fun y hy => hmin y (List.mem_cons_of_mem _ hy))

theorem minList_eq (l : List ℚ) (v : ℚ) (hv : v ∈ l) (hmin : ∀ y ∈ l, v ≤ y) :
    minList l = v :=
  le_antisymm (minList_le l v hv) (le_minList l v (List.ne_nil_of_mem hv) hmin)

/-- The sum of squared deviations from `c` over a list, expanded. -/
theorem sum_sq_sub (l : List Nat) (x : Nat → ℚ) (c : ℚ) :
    (l.map (fun i => (x i - c) ^ 2)).sum
      = (l.map (fun i => x i ^ 2)).sum - 2 * c * (l.map x).sum + (l.length : ℚ) * c ^ 2 := by
  induction l with
  | nil => simp
  | cons a l ih =>
    simp only [List.map_cons, List.sum_cons, List.length_cons, ih]
    push_cast
    ring

/-- The mean minimises the sum of squared deviations. -/
theorem sum_sq_mean_le (l : List Nat) (x : Nat → ℚ) (c : ℚ) (hne : l ≠ []) :
    (l.map (fun i => (x i - (l.map x).sum / (l.length : ℚ)) ^ 2)).sum
      ≤ (l.map (fun i => (x i - c) ^ 2)).sum := by
  have hn : (0 : ℚ) < (l.length : ℚ) := by exact_mod_cast List.length_pos.mpr hne
  rw [sum_sq_sub, sum_sq_sub]
  set n : ℚ := (l.length : ℚ) with hn'
  set S : ℚ := (l.map x).sum with hS
  have hm : S = n * (S / n) := by field_simp
  have key : n * c ^ 2 - 2 * c * S - (n * (S / n) ^ 2 - 2 * (S / n) * S) = n * (c - S / n) ^ 2 := by
    have : n * (c - S / n) ^ 2 = n * c ^ 2 - 2 * c * (n * (S / n)) + n * (S / n) ^ 2 := by ring
    rw [this, ← hm]
    have h2 : 2 * (S / n) * S = 2 * n * (S / n) ^ 2 := by
      calc 2 * (S / n) * S = 2 * (S / n) * (n * (S / n)) := by rw [← hm]
        _ = 2 * n * (S / n) ^ 2 := by ring
    rw [h2]; ring
  have hpos : 0 ≤ n * (c - S / n) ^ 2 := by positivity
  linarith

/-- Exchange of the two sums of a double sum over lists. -/
theorem sum_sum_swap (l : List Nat) (D : Nat) (G : Nat → Nat → ℚ) :
    (l.map (fun i => ((List.range D).map (fun d => G i d)).sum)).sum
      = ((List.range D).map (fun d => (l.map (fun i => G i d)).sum)).sum := by
  induction l with
  | nil => simp
  | cons a l ih =>
    simp only [List.map_cons, List.sum_cons, ih]
    rw [← List.sum_map_add]

theorem sum_map_ite_eq_range (K j : Nat) (hj : j < K) (f : Nat → ℚ) :
    ((List.range K).map (fun k => if j = k then f k else 0)).sum = f j := by
  induction K with
  | zero => omega
  | succ K ih =>
    rw [sum_range_succ_map]
    by_cases h : j = K
    · subst h
      have : ((List.range j).map (fun k => if j = k then f k else 0)).sum = 0 := by
        apply List.sum_eq_zero
        intro y hy
        obtain ⟨k, hk, rfl⟩ := List.mem_map.mp hy
        have : k < j := List.mem_range.mp hk
        have hne : ¬ j = k := by omega
        simp [hne]
      rw [this]; simp
    · rw [ih (by omega)]
      simp [h]

/-- A sum over a list, regrouped by the class `a i` of its elements. -/
theorem sum_regroup (l : List Nat) (a : Nat → Nat) (K : Nat) (F : Nat → Nat → ℚ)
    (h : ∀ i ∈ l, a i < K) :
    (l.map (fun i => F i (a i))).sum
      = ((List.range K).map
          (fun k => ((l.filter (fun i => decide (a i = k))).map (fun i => F i k)).sum)).sum := by
  induction l with
  | nil => simp
  | cons i l ih =>
    have hi : a i < K := h i (List.mem_cons_self _ _)
    rw [List.map_cons, List.sum_cons, ih (fun j hj => h j (List.mem_cons_of_mem _ hj))]
    have hstep : ∀ k, (((i :: l).filter (fun i => decide (a i = k))).map (fun i => F i k)).sum
        = (if a i = k then F i k else 0)
          + ((l.filter (fun i => decide (a i = k))).map (fun i => F i k)).sum := by
      intro k
      by_cases hk : a i = k
      · simp [List.filter_cons, hk]
      · simp [List.filter_cons, hk]
    simp only [hstep]
    rw [List.sum_map_add, sum_map_ite_eq_range K (a i) hi (fun k => F i k)]

theorem sqDist_eq (D : Nat) (a b : List Dbl) :
    sqDist D a b = ((List.range D).map (fun d => ((rd a d).val - (rd b d).val) ^ 2)).sum := rfl

/-- Within one class of rows, moving the centre to the mean of the class does not increase
the sum of the squared distances. -/
theorem sum_sqDist_mean_le (data : List (List Dbl)) (D : Nat) (A : List Nat) (hA : A ≠ [])
    (v v' : List Dbl)
    (hmean : ∀ d, d < D → (rd v' d).val
      = (A.map (fun i => (rd (row data i) d).val)).sum / (A.length : ℚ)) :
    (A.map (fun i => sqDist D (row data i) v')).sum
      ≤ (A.map (fun i => sqDist D (row data i) v)).sum := by
  simp only [sqDist_eq]
  rw [sum_sum_swap A D (fun i d => ((rd (row data i) d).val - (rd v' d).val) ^ 2),
    sum_sum_swap A D (fun i d => ((rd (row data i) d).val - (rd v d).val) ^ 2)]
  apply List.sum_le_sum
  intro d hd
  rw [hmean d (List.mem_range.mp hd)]
  exact sum_sq_mean_le A (fun i => (rd (row data i) d).val) (rd v d).val hA

theorem centroidAt_eq (cs : List CLUSTER) (k : Nat) (c : CLUSTER) (h : cs[k]? = some c) :
    centroidAt cs k = c.centroid := by
  simp [centroidAt, h]

theorem assignment_eq (s : KState) (i k : Nat)
    (h : findClosestCluster s (row s.data i) = some k) : assignment s i = k := by
  simp [assignment, h]

/-- The rows given to cluster `k`, as the class of `k` under `assignment`. -/
theorem assignedTo_eq_filter (s : KState) (k : Nat)
    (hsome : ∀ i, i < s.N → ∃ j, findClosestCluster s (row s.data i) = some j) :
    assignedTo s (List.range s.N) k
      = (List.range s.N).filter (fun i => decide (assignment s i = k)) := by
  unfold assignedTo
  apply List.filter_congr
  intro i hi
  obtain ⟨j, hj⟩ := hsome i (List.mem_range.mp hi)
  rw [assignment_eq s i j hj, hj]
  simp

/-- With finite centroids the nearest squared distance of a row is the one to the cluster
`findClosestCluster` gives it. -/
theorem nearestSq_eq (s : KState) (i : Nat) (hp : FinVec s.D (row s.data i))
    (hne : s.cluster_list ≠ []) (hfin : ∀ c ∈ s.cluster_list, FinVec s.D c.centroid) :
    assignment s i < s.cluster_list.length ∧
    nearestSq s i = sqDist s.D (row s.data i) (centroidAt s.cluster_list (assignment s i)) := by
  obtain ⟨k, c, hk, hc, hmin, -⟩ := findClosestCluster_fin s (row s.data i) hp hne hfin
  rw [assignment_eq s i k hk, centroidAt_eq _ k c hc]
  refine ⟨(List.getElem?_eq_some_iff.mp hc).1, ?_⟩
  unfold nearestSq
  apply minList_eq
  · exact List.mem_map.mpr ⟨c, List.getElem?_mem hc, rfl⟩
  · intro y hy
    obtain ⟨c', hc', rfl⟩ := List.mem_map.mp hy
    obtain ⟨j, hj⟩ := List.mem_iff_getElem?.mp hc'
    exact hmin j c' hj

theorem nearestSq_le (s : KState) (i k : Nat) (hk : k < s.cluster_list.length) :
    nearestSq s i ≤ sqDist s.D (row s.data i) (centroidAt s.cluster_list k) := by
  rw [centroidAt_eq _ k _ (List.getElem?_eq_getElem hk)]
  unfold nearestSq
  apply minList_le
  exact List.mem_map.mpr ⟨_, List.getElem_mem hk, rfl⟩

/-- The cost does not increase in an iteration that gives every cluster a point, when the
centroids before it hold numbers. -/
theorem cost_le_of_fin (s s' : KState) (flag : Int)
    (hempty : ∀ c ∈ s.cluster_list, c.point_list = [] ∧ c.size = 0)
    (halloc : ∀ c ∈ s.cluster_list, s.D ≤ c.centroid.length)
    (hdata : ∀ i, i < s.N → FinVec s.D (row s.data i))
    (hfin : ∀ c ∈ s.cluster_list, FinVec s.D c.centroid)
    (hit : kmeansIteration s = some (s', flag))
    (hall : ∀ k, k < s.cluster_list.length → assignedTo s (List.range s.N) k ≠ []) :
    cost s' ≤ cost s := by
  obtain ⟨e1, -, e3, e4, -, -, hlen, hsome, cs1, hlen1, hcs, -, -, hcl⟩ :=
    kmeansIteration_spec s s' flag hit
  by_cases hnil : s.cluster_list = []
  · have hnil' : s'.cluster_list = [] := by
      apply List.eq_nil_of_length_eq_zero
      rw [hlen, hnil]; rfl
    have h0 : ∀ t : KState, t.cluster_list = [] → cost t = 0 := by
      intro t ht
      unfold cost
      apply List.sum_eq_zero
      intro y hy
      obtain ⟨i, -, rfl⟩ := List.mem_map.mp hy
      simp [nearestSq, ht, minList]
    rw [h0 s hnil, h0 s' hnil']
  -- the new centroid of each cluster is the mean of its rows
  have hnew : ∀ k, k < s.cluster_list.length → ∀ d, d < s.D →
      (rd (centroidAt s'.cluster_list k) d).val
        = ((assignedTo s (List.range s.N) k).map (fun i => (rd (row s.data i) d).val)).sum
          / ((assignedTo s (List.range s.N) k).length : ℚ) := by
    intro k hk d hd
    have hmem : s.cluster_list[k] ∈ s.cluster_list := List.getElem_mem hk
    obtain ⟨c1, hc1, q1, -, q3, q4⟩ := hcl k s.cluster_list[k] (List.getElem?_eq_getElem hk)
    rw [(hempty _ hmem).1] at q3
    rw [(hempty _ hmem).2] at q4
    have hc' : s'.cluster_list[k]? = some (clearCluster (recompute s c1)) := by
      rw [hcs, List.getElem?_map, hc1]; rfl
    rw [centroidAt_eq _ k _ hc']
    rw [recompute_mean s c1 _ (by simpa using q3) (by simpa using q4) (hall k hk)
      (fun i hi => hdata i (List.mem_range.mp ((mem_assignedTo _ _ _ _).mp hi).1))
      (by rw [q1]; exact halloc _ hmem) d hd]
    rfl
  have ha : ∀ i ∈ List.range s.N, assignment s i < s.cluster_list.length := fun i hi =>
    (nearestSq_eq s i (hdata i (List.mem_range.mp hi)) hnil hfin).1
  -- the cost before, along the assignment
  have hold : cost s = ((List.range s.N).map
      (fun i => sqDist s.D (row s.data i) (centroidAt s.cluster_list (assignment s i)))).sum := by
    unfold cost
    congr 1
    apply List.map_congr_left
    intro i hi
    exact (nearestSq_eq s i (hdata i (List.mem_range.mp hi)) hnil hfin).2
  -- the cost after is at most the sum along the old assignment
  have hnewle : cost s' ≤ ((List.range s.N).map
      (fun i => sqDist s.D (row s.data i) (centroidAt s'.cluster_list (assignment s i)))).sum := by
    unfold cost
    rw [e4]
    apply List.sum_le_sum
    intro i hi
    have := nearestSq_le s' i (assignment s i) (by rw [hlen]; exact ha i hi)
    rw [e3, e1] at this
    exact this
  rw [hold]
  refine le_trans hnewle ?_
  rw [sum_regroup (List.range s.N) (assignment s) s.cluster_list.length
      (fun i k => sqDist s.D (row s.data i) (centroidAt s'.cluster_list k)) ha,
    sum_regroup (List.range s.N) (assignment s) s.cluster_list.length
      (fun i k => sqDist s.D (row s.data i) (centroidAt s.cluster_list k)) ha]
  apply List.sum_le_sum
  intro k hk
  have hk' : k < s.cluster_list.length := List.mem_range.mp hk
  rw [← assignedTo_eq_filter s k hsome]
  exact sum_sqDist_mean_le s.data s.D _ (hall k hk') _ _ (hnew k hk')

theorem Dbl.isFin_of_add (x y : Dbl) (h : (x + y).isFin = true) :
    x.isFin = true ∧ y.isFin = true := by
  change (Dbl.add x y).isFin = true at h
  cases x <;> cases y <;> simp_all [Dbl.add, Dbl.isFin]

theorem Dbl.isFin_of_mul_self (x : Dbl) (h : (x * x).isFin = true) : x.isFin = true := by
  change (Dbl.mul x x).isFin = true at h
  cases x <;> simp_all [Dbl.mul, Dbl.isFin]

theorem Dbl.isFin_of_fin_sub (a : ℚ) (y : Dbl) (h : (Dbl.fin a - y).isFin = true) :
    y.isFin = true := by
  change (Dbl.add (Dbl.fin a) (Dbl.neg y)).isFin = true at h
  cases y <;> simp_all [Dbl.add, Dbl.neg, Dbl.isFin]

theorem Dbl.sqrt_radicand_fin (y : Dbl) (m : Root) (h : Root.lt (Dbl.sqrt y) m = true) :
    y.isFin = true := by
  rcases m with ⟨m⟩
  cases y with
  | fin q => rfl
  | pinf => cases m <;> simp [Dbl.sqrt, Root.lt, Dbl.lt] at h
  | ninf => cases m <;> simp [Dbl.sqrt, Root.lt, Dbl.lt] at h
  | nan => cases m <;> simp [Dbl.sqrt, Root.lt, Dbl.lt] at h

/-- A distance from a point of numbers that is below some bound comes from a centroid of
numbers. -/
theorem finVec_of_distance_lt (D : Nat) (a b : List Dbl) (m : Root) (ha : FinVec D a)
    (h : Root.lt (calculateDistance D a b) m = true) : FinVec D b := by
  have hfold := Dbl.sqrt_radicand_fin _ m h
  have key : ∀ n, n ≤ D → ((List.range n).foldl
      (fun sum i => let diff := rd a i - rd b i; sum + diff * diff) (Dbl.fin 0)).isFin = true →
      ∀ i, i < n → (rd b i).isFin = true := by
    intro n
    induction n with
    | zero => intro _ _ i hi; omega
    | succ n ih =>
      intro hn hf i hi
      rw [foldl_range_succ] at hf
      obtain ⟨h1, h2⟩ := Dbl.isFin_of_add _ _ hf
      by_cases hin : i = n
      · subst hin
        have h3 := Dbl.isFin_of_mul_self _ h2
        rw [Dbl.eq_fin_val (ha i hn)] at h3
        exact Dbl.isFin_of_fin_sub _ _ h3
      · exact ih (Nat.le_of_succ_le hn) h1 i (by omega)
  exact key D le_rfl hfold

/-- The cluster the loop returns, when it is one of the list, was closer than the running
minimum at the time. -/
theorem findClosestLoop_chosen (D : Nat) (point : List Dbl) (cs : List CLUSTER) (idx : Nat)
    (m : Root) (cl : Option Nat) (r : Nat)
    (h : findClosestLoop D point cs idx m cl = some r) :
    cl = some r ∨ ∃ c m', idx ≤ r ∧ cs[r - idx]? = some c ∧
      Root.lt (calculateDistance D point c.centroid) m' = true := by
  induction cs generalizing idx m cl with
  | nil => left; simpa [findClosestLoop] using h
  | cons c next ih =>
    unfold findClosestLoop at h
    simp only [] at h
    split at h
    · rename_i hlt
      rcases ih _ _ _ h with h1 | ⟨c', m', h1, h2, h3⟩
      · right
        simp only [Option.some.injEq] at h1
        subst h1
        exact ⟨c, m, le_rfl, by simp, hlt⟩
      · right
        refine ⟨c', m', by omega, ?_, h3⟩
        have : r - idx = (r - (idx + 1)) + 1 := by omega
        rw [this]
        simpa using h2
    · rcases ih _ _ _ h with h1 | ⟨c', m', h1, h2, h3⟩
      · left; exact h1
      · right
        refine ⟨c', m', by omega, ?_, h3⟩
        have : r - idx = (r - (idx + 1)) + 1 := by omega
        rw [this]
        simpa using h2

/-- A cluster that `findClosestCluster` gives to a row of numbers has a centroid of
numbers. -/
theorem finVec_of_chosen (s : KState) (point : List Dbl) (k : Nat) (c : CLUSTER)
    (hp : FinVec s.D point) (hk : findClosestCluster s point = some k)
    (hc : s.cluster_list[k]? = some c) : FinVec s.D c.centroid := by
  rcases findClosestLoop_chosen _ _ _ _ _ _ _ hk with h1 | ⟨c', m', -, h2, h3⟩
  · simp at h1
  · simp only [Nat.sub_zero] at h2
    rw [hc] at h2
    obtain rfl : c = c' := by simpa using h2
    exact finVec_of_distance_lt _ _ _ m' hp h3

/-- C19. The clustering cost never increases, arithmetic being exact: with `cost` the sum
over the `N` rows of the squared Euclidean distance from the row to its nearest centroid,
for every state with empty memberships (centroid arrays of `D` slots, data rows of
numbers) from which `kmeansIteration` returns having given at least one row to every
cluster, the state `s'` it leaves satisfies `cost s' <= cost s`. -/
theorem cost_not_increasing (s s' : KState) (flag : Int)
    (hempty : ∀ c ∈ s.cluster_list, c.point_list = [] ∧ c.size = 0)
    (halloc : ∀ c ∈ s.cluster_list, s.D ≤ c.centroid.length)
    (hdata : ∀ i, i < s.N → FinVec s.D (row s.data i))
    (hit : kmeansIteration s = some (s', flag))
    (hall : ∀ k, k < s.cluster_list.length → assignedTo s (List.range s.N) k ≠ []) :
    cost s' ≤ cost s := by
  apply cost_le_of_fin s s' flag hempty halloc hdata _ hit hall
  intro c hc
  obtain ⟨k, hk⟩ := List.mem_iff_getElem?.mp hc
  have hklt : k < s.cluster_list.length := (List.getElem?_eq_some_iff.mp hk).1
  obtain ⟨i, hi⟩ := List.exists_mem_of_ne_nil _ (hall k hklt)
  rw [mem_assignedTo] at hi
  exact finVec_of_chosen s _ k c (hdata i (List.mem_range.mp hi.1)) hi.2 hk

theorem cost_not_increasing_witness : cost scenarioAfterOne ≤ cost scenarioState :=
  cost_not_increasing scenarioState scenarioAfterOne 1 (by decide!) (by decide!) (by decide!)
    (by decide!) (by decide!)

/-- With the exact operations the functions are those of exact arithmetic. -/
theorem gen_exact_calculateDistance (D : Nat) (a b : List Dbl) :
    Gen.calculateDistance exactArith D a b = calculateDistance D a b := rfl

theorem gen_exact_findClosestLoop (D : Nat) (point : List Dbl) (cs : List CLUSTER) (idx : Nat)
    (m : Root) (cl : Option Nat) :
    Gen.findClosestLoop exactArith D point cs idx m cl = findClosestLoop D point cs idx m cl := by
  induction cs generalizing idx m cl with
  | nil => rfl
  | cons c next ih =>
    unfold Gen.findClosestLoop findClosestLoop
    simp only [ih, gen_exact_calculateDistance]
    rfl

theorem gen_exact_findClosestCluster (s : KState) (point : List Dbl) :
    Gen.findClosestCluster exactArith s point = findClosestCluster s point :=
  gen_exact_findClosestLoop _ _ _ _ _ _

theorem gen_exact_addPointsLoop (s : KState) (l : List Nat) :
    Gen.addPointsLoop exactArith s l = addPointsLoop s l := by
  induction l generalizing s with
  | nil => rfl
  | cons i rest ih =>
    unfold Gen.addPointsLoop addPointsLoop
    rw [gen_exact_findClosestCluster]
    cases findClosestCluster s (row s.data i) with
    | none => rfl
    | some k => exact ih _

theorem gen_exact_iterationLoop (s : KState) (cs : List CLUSTER) (flag : Int) :
    Gen.iterationLoop exactArith s cs flag = iterationLoop s cs flag := by
  induction cs generalizing flag with
  | nil => rfl
  | cons c next ih =>
    unfold Gen.iterationLoop iterationLoop
    simp only [ih]
    rfl

theorem gen_exact_kmeansIteration (s : KState) :
    Gen.kmeansIteration exactArith s = kmeansIteration s := by
  unfold Gen.kmeansIteration kmeansIteration Gen.addPointsToClusters addPointsToClusters
  rw [gen_exact_addPointsLoop]
  cases addPointsLoop s (List.range s.N) with
  | none => rfl
  | some s1 => simp only [gen_exact_iterationLoop]

theorem gen_exact_kmeansLoop (s : KState) (n : Nat) :
    Gen.kmeansLoop exactArith s n = kmeansLoop s n := by
  induction n generalizing s with
  | zero => rfl
  | succ n ih =>
    unfold Gen.kmeansLoop kmeansLoop
    rw [gen_exact_kmeansIteration]
    cases kmeansIteration s with
    | none => rfl
    | some r =>
      obtain ⟨s1, flag⟩ := r
      simp only [ih]

theorem gen_exact_kmeans (s : KState) (iter : Int) (eps : Dbl) (data_py : List (List Dbl))
    (centroids_py : List Nat) :
    Gen.kmeans exactArith s iter eps data_py centroids_py = kmeans s iter eps data_py centroids_py := by
  unfold Gen.kmeans kmeans
  cases kmeansSetup { s with iter := iter, eps := eps } data_py centroids_py with
  | none => rfl
  | some s1 => simp only [gen_exact_kmeansLoop]

/-- The binary64 operations on some known values: `0.1`, `1/3` and `0.0001` round to the
doubles they denote in C; a sum half-way between two doubles goes to the one with an even
last bit; the largest double plus half a unit in the last place overflows, slightly less
does not; half the smallest positive double rounds to 0; `sqrt 2` and `sqrt 3` are the
correctly rounded roots, `sqrt 4` is `2`; `0.0 / 0` is NaN and `1.0 / 0` is `+inf`. -/
theorem ieee_examples :
    Ieee.round (1 / 10) = Dbl.fin (3602879701896397 / 2 ^ 55) ∧
    Ieee.round (1 / 3) = Dbl.fin (6004799503160661 / 2 ^ 54) ∧
    Ieee.round (1 / 10000) = Dbl.fin (7378697629483821 / 2 ^ 66) ∧
    Ieee.add (Dbl.fin 1) (Dbl.two (-53)) = Dbl.fin 1 ∧
    Ieee.add (Dbl.fin (1 + 1 / 2 ^ 52)) (Dbl.two (-53)) = Dbl.fin (1 + 1 / 2 ^ 51) ∧
    Ieee.add (Dbl.fin 1) (Dbl.two (-60)) = Dbl.fin 1 ∧
    Ieee.add (Dbl.fin (2 ^ 1024 - 2 ^ 971)) (Dbl.two 970) = Dbl.pinf ∧
    Ieee.add (Dbl.fin (2 ^ 1024 - 2 ^ 971)) (Dbl.two 969) = Dbl.fin (2 ^ 1024 - 2 ^ 971) ∧
    Ieee.mul (Dbl.two (-1074)) (Dbl.two (-1)) = Dbl.fin 0 ∧
    Ieee.mul (Dbl.fin (3 / 2 ^ 1074)) (Dbl.two (-1)) = Dbl.two (-1073) ∧
    Ieee.mul (Dbl.two (-601)) (Dbl.two (-601)) = Dbl.fin 0 ∧
    Ieee.mul (Dbl.two 601) (Dbl.two 601) = Dbl.pinf ∧
    Ieee.sqrt (Dbl.fin 2) = Dbl.fin (6369051672525773 / 2 ^ 52) ∧
    Ieee.sqrt (Dbl.fin 3) = Dbl.fin (3900231685776981 / 2 ^ 51) ∧
    Ieee.sqrt (Dbl.fin 4) = Dbl.fin 2 ∧
    Ieee.divInt (Dbl.fin 0) 0 = Dbl.nan ∧ Ieee.divInt (Dbl.fin 1) 0 = Dbl.pinf ∧
    Ieee.divInt (Dbl.fin 7) 3 = Dbl.fin (5254199565265579 / 2 ^ 51) := by
  decide!

theorem Dbl.lt_self (x : Dbl) : Dbl.lt x x = false := by
  cases x <;> simp [Dbl.lt]

theorem Dbl.lt_chain (x y z : Dbl) (h1 : Dbl.lt x y = true) (h2 : Dbl.lt y z = true) :
    Dbl.lt x z = true := by
  cases x <;> cases y <;> cases z <;> simp_all [Dbl.lt]
  exact lt_trans h1 h2

theorem Dbl.eq_of_not_lt (x y z : Dbl) (h1 : Dbl.lt x z = true) (h2 : Dbl.lt y z = true)
    (h3 : Dbl.lt x y = false) (h4 : Dbl.lt y x = false) : x = y := by
  cases x <;> cases y <;> cases z <;> simp_all [Dbl.lt]
  all_goals exact le_antisymm (by assumption) (by assumption)

/-- The comparison of IEEE doubles has the order laws. -/
theorem ieeeArith_ordered : ieeeArith.Ordered :=
  ⟨Dbl.lt_self, Dbl.lt_chain, Dbl.eq_of_not_lt⟩

/-- The comparison of exact distances has the order laws. -/
theorem exactArith_ordered : exactArith.Ordered :=
  ⟨fun x => Dbl.lt_self _, fun x y z => Dbl.lt_chain _ _ _,
   fun x y z h1 h2 h3 h4 => by
     cases x; cases y
     exact congrArg Root.mk (Dbl.eq_of_not_lt _ _ z.radicand h1 h2 h3 h4)⟩

/-! ### `findClosestCluster` -/

/-- Once a cluster has been chosen the loop returns a cluster. -/
theorem gen_findClosestLoop_some {R : Type} (A : Arith R) (D : Nat) (point : List Dbl)
    (cs : List CLUSTER) (idx : Nat) (m : R) (k : Nat) :
    ∃ r, Gen.findClosestLoop A D point cs idx m (some k) = some r := by
  induction cs generalizing idx m k with
  | nil => exact ⟨k, rfl⟩
  | cons c next ih =>
    unfold Gen.findClosestLoop
    simp only []
    split
    · exact ih _ _ _
    · exact ih _ _ _

/-- The loop returns `NULL` exactly when no cluster had been chosen and no cluster of the
list compares below the running minimum. -/
theorem gen_findClosestLoop_none {R : Type} (A : Arith R) (D : Nat) (point : List Dbl)
    (cs : List CLUSTER) (idx : Nat) (m : R) (cl : Option Nat) :
    Gen.findClosestLoop A D point cs idx m cl = none ↔
      cl = none ∧ ∀ c ∈ cs, A.lt (Gen.calculateDistance A D point c.centroid) m = false := by
  induction cs generalizing idx m cl with
  | nil => simp [Gen.findClosestLoop]
  | cons c next ih =>
    unfold Gen.findClosestLoop
    simp only []
    split
    · rename_i hlt
      obtain ⟨r, hr⟩ := gen_findClosestLoop_some A D point next (idx + 1)
        (Gen.calculateDistance A D point c.centroid) idx
      rw [hr]
      constructor
      · intro h; exact absurd h (by simp)
      · rintro ⟨-, h⟩
        have := h c (List.mem_cons_self _ _)
        rw [hlt] at this
        exact absurd this (by simp)
    · rename_i hlt
      rw [ih]
      constructor
      · rintro ⟨h1, h2⟩
        refine ⟨h1, ?_⟩
        intro c' hc'
        rcases List.mem_cons.mp hc' with rfl | hmem
        · simpa using hlt
        · exact h2 c' hmem
      · rintro ⟨h1, h2⟩
        exact ⟨h1, fun c' hc' => h2 c' (List.mem_cons_of_mem _ hc')⟩

/-- `findClosestCluster` returns `NULL` exactly when no cluster of the list is at a
computed distance that compares below `INFINITY`. -/
theorem gen_findClosestCluster_none {R : Type} (A : Arith R) (s : KState) (point : List Dbl) :
    Gen.findClosestCluster A s point = none ↔
      ∀ c ∈ s.cluster_list,
        A.lt (Gen.calculateDistance A s.D point c.centroid) A.infinity = false := by
  unfold Gen.findClosestCluster
  rw [gen_findClosestLoop_none]
  simp

/-- `findClosestCluster` returns a cluster as soon as one is at a computed distance that
compares below `INFINITY`. -/
theorem gen_findClosestCluster_isSome {R : Type} (A : Arith R) (s : KState) (point : List Dbl)
    (h : ∃ c ∈ s.cluster_list,
      A.lt (Gen.calculateDistance A s.D point c.centroid) A.infinity = true) :
    ∃ k, Gen.findClosestCluster A s point = some k := by
  cases hf : Gen.findClosestCluster A s point with
  | some k => exact ⟨k, rfl⟩
  | none =>
    obtain ⟨c, hc, hlt⟩ := h
    have := (gen_findClosestCluster_none A s point).mp hf c hc
    rw [hlt] at this
    exact absurd this (by simp)

/-- The loop under the order laws: either nothing compares below the running minimum `m`
and the choice made before stands, or the result is a cluster of the list that compares
below `m`, below which no cluster of the list compares, and every cluster met before it
either does not compare below `m` or is strictly farther. -/
theorem gen_findClosestLoop_min {R : Type} (A : Arith R) (hA : A.Ordered) (D : Nat)
    (point : List Dbl) (cs : List CLUSTER) (idx : Nat) (m : R) (cl : Option Nat) :
    (Gen.findClosestLoop A D point cs idx m cl = cl ∧
        ∀ c ∈ cs, A.lt (Gen.calculateDistance A D point c.centroid) m = false) ∨
    ∃ j c, cs[j]? = some c ∧ Gen.findClosestLoop A D point cs idx m cl = some (idx + j) ∧
      A.lt (Gen.calculateDistance A D point c.centroid) m = true ∧
      (∀ (i : Nat) (c' : CLUSTER), cs[i]? = some c' →
        A.lt (Gen.calculateDistance A D point c'.centroid)
          (Gen.calculateDistance A D point c.centroid) = false) ∧
      (∀ (i : Nat) (c' : CLUSTER), i < j → cs[i]? = some c' →
        A.lt (Gen.calculateDistance A D point c'.centroid) m = false ∨
        A.lt (Gen.calculateDistance A D point c.centroid)
          (Gen.calculateDistance A D point c'.centroid) = true) := by
  induction cs generalizing idx m cl with
  | nil => left; simp [Gen.findClosestLoop]
  | cons c next ih =>
    unfold Gen.findClosestLoop
    simp only []
    split
    · rename_i hlt
      right
      rcases ih (idx + 1) (Gen.calculateDistance A D point c.centroid) (some idx) with
        ⟨h1, h2⟩ | ⟨j, c', hj, h1, h2, h3, h4⟩
      · refine ⟨0, c, by simp, by simpa using h1, hlt, ?_, ?_⟩
        · intro i c' hi
          cases i with
          | zero => simp at hi; subst hi; exact hA.irrefl _
          | succ i => exact h2 c' (List.getElem?_mem (by simpa using hi))
        · intro i c' hi; omega
      · refine ⟨j + 1, c', by simpa using hj, ?_, hA.trans _ _ _ h2 hlt, ?_, ?_⟩
        · rw [h1]; congr 1; omega
        · intro i c'' hi
          cases i with
          | zero =>
            simp at hi; subst hi
            by_contra hne
            have hlt2 : A.lt (Gen.calculateDistance A D point c.centroid)
                (Gen.calculateDistance A D point c'.centroid) = true := by simpa using hne
            have := hA.trans _ _ _ hlt2 h2
            rw [hA.irrefl] at this
            exact absurd this (by simp)
          | succ i => exact h3 i c'' (by simpa using hi)
        · intro i c'' hij hi
          cases i with
          | zero => simp at hi; subst hi; exact Or.inr h2
          | succ i =>
            have hi' : next[i]? = some c'' := by simpa using hi
            rcases h4 i c'' (by omega) hi' with h5 | h5
            · by_cases hm : A.lt (Gen.calculateDistance A D point c''.centroid) m = true
              · right
                by_cases h6 : A.lt (Gen.calculateDistance A D point c.centroid)
                    (Gen.calculateDistance A D point c''.centroid) = true
                · exact hA.trans _ _ _ h2 h6
                · have heq := hA.total _ _ _ hlt hm (by simpa using h6) h5
                  rw [← heq]; exact h2
              · left; simpa using hm
            · exact Or.inr h5
    · rename_i hlt
      rcases ih (idx + 1) m cl with ⟨h1, h2⟩ | ⟨j, c', hj, h1, h2, h3, h4⟩
      · left
        refine ⟨h1, ?_⟩
        intro c' hc'
        rcases List.mem_cons.mp hc' with rfl | hmem
        · simpa using hlt
        · exact h2 c' hmem
      · right
        refine ⟨j + 1, c', by simpa using hj, ?_, h2, ?_, ?_⟩
        · rw [h1]; congr 1; omega
        · intro i c'' hi
          cases i with
          | zero =>
            simp at hi; subst hi
            by_contra hne
            have hlt2 : A.lt (Gen.calculateDistance A D point c.centroid)
                (Gen.calculateDistance A D point c'.centroid) = true := by simpa using hne
            exact hlt (hA.trans _ _ _ hlt2 h2)
          | succ i => exact h3 i c'' (by simpa using hi)
        · intro i c'' hij hi
          cases i with
          | zero => simp at hi; subst hi; left; simpa using hlt
          | succ i => exact h4 i c'' (by omega) (by simpa using hi)

/-- `findClosestCluster` under the order laws, when a cluster compares below `INFINITY`:
the result is a cluster of the list below `INFINITY`, no cluster of the list is strictly
nearer, and every cluster met before it is strictly farther or not below `INFINITY`. -/
theorem gen_findClosestCluster_min {R : Type} (A : Arith R) (hA : A.Ordered) (s : KState)
    (point : List Dbl)
    (hnear : ∃ c ∈ s.cluster_list,
      A.lt (Gen.calculateDistance A s.D point c.centroid) A.infinity = true) :
    ∃ k c, Gen.findClosestCluster A s point = some k ∧ s.cluster_list[k]? = some c ∧
      A.lt (Gen.calculateDistance A s.D point c.centroid) A.infinity = true ∧
      (∀ (i : Nat) (c' : CLUSTER), s.cluster_list[i]? = some c' →
        A.lt (Gen.calculateDistance A s.D point c'.centroid)
          (Gen.calculateDistance A s.D point c.centroid) = false) ∧
      (∀ (i : Nat) (c' : CLUSTER), i < k → s.cluster_list[i]? = some c' →
        A.lt (Gen.calculateDistance A s.D point c'.centroid) A.infinity = false ∨
        A.lt (Gen.calculateDistance A s.D point c.centroid)
          (Gen.calculateDistance A s.D point c'.centroid) = true) := by
  rcases gen_findClosestLoop_min A hA s.D point s.cluster_list 0 A.infinity none with
    ⟨-, h2⟩ | ⟨j, c, hj, h1, h2, h3, h4⟩
  · obtain ⟨c, hc, hlt⟩ := hnear
    have := h2 c hc
    rw [hlt] at this
    exact absurd this (by simp)
  · exact ⟨j, c, by simpa [Gen.findClosestCluster] using h1, hj, h2, h3, h4⟩

/-! ### `addPointsToClusters` -/

theorem gen_findClosestLoop_updateAt {R : Type} (A : Arith R) (D : Nat) (point : List Dbl)
    (i k : Nat) (cs : List CLUSTER) (idx : Nat) (m : R) (cl : Option Nat) :
    Gen.findClosestLoop A D point (updateAt (fun c => addToCluster c i) k cs) idx m cl
      = Gen.findClosestLoop A D point cs idx m cl := by
  induction cs generalizing k idx m cl with
  | nil => cases k <;> rfl
  | cons c next ih =>
    cases k with
    | zero => simp [updateAt, Gen.findClosestLoop, addToCluster]
    | succ k => simp [updateAt, Gen.findClosestLoop, ih]

/-- The rows a cluster holds after it received the rows `l` one by one, newest first, and
its size. -/
theorem foldl_addToCluster (l : List Nat) (c : CLUSTER) :
    (l.foldl addToCluster c).centroid = c.centroid ∧ (l.foldl addToCluster c).prev = c.prev ∧
    (l.foldl addToCluster c).point_list.map (fun n => n.head)
      = l.reverse ++ c.point_list.map (fun n => n.head) ∧
    (l.foldl addToCluster c).size = c.size + l.length := by
  induction l generalizing c with
  | nil => simp
  | cons i rest ih =>
    obtain ⟨h1, h2, h3, h4⟩ := ih (addToCluster c i)
    simp only [List.foldl_cons]
    refine ⟨h1, h2, ?_, ?_⟩
    · rw [h3]; simp [addToCluster, addPoint_heads]
    · rw [h4]; simp [addToCluster]; ring

/-- What the loop of `addPointsToClusters` leaves when it does not dereference `NULL`: the
globals other than the cluster list are kept, every row found a cluster, and the cluster
at each position is the old one after it received the rows given to that position. -/
theorem gen_addPointsLoop_spec {R : Type} (A : Arith R) (l : List Nat) (s s1 : KState)
    (h : Gen.addPointsLoop A s l = some s1) :
    s1.data = s.data ∧ s1.K = s.K ∧ s1.D = s.D ∧ s1.N = s.N ∧ s1.iter = s.iter ∧ s1.eps = s.eps ∧
    s1.cluster_list.length = s.cluster_list.length ∧
    (∀ i ∈ l, ∃ k, Gen.findClosestCluster A s (row s.data i) = some k) ∧
    ∀ (k : Nat) (c : CLUSTER), s.cluster_list[k]? = some c →
      s1.cluster_list[k]? = some ((Gen.assignedTo A s l k).foldl addToCluster c) := by
  induction l generalizing s with
  | nil =>
    simp only [Gen.addPointsLoop, Option.some.injEq] at h
    subst h
    simp [Gen.assignedTo]
  | cons i rest ih =>
    unfold Gen.addPointsLoop at h
    split at h
    · exact absurd h (by simp)
    · rename_i k hk
      obtain ⟨h1, h2, h3, h4, h5, h6, h7, h9, h10⟩ := ih _ h
      have hfind : ∀ p, Gen.findClosestCluster A
          { s with cluster_list := updateAt (fun c => addToCluster c i) k s.cluster_list } p
          = Gen.findClosestCluster A s p := fun p => gen_findClosestLoop_updateAt A _ _ _ _ _ _ _ _
      have hassign : ∀ k', Gen.assignedTo A
          { s with cluster_list := updateAt (fun c => addToCluster c i) k s.cluster_list } rest k'
          = Gen.assignedTo A s rest k' := by
        intro k'; unfold Gen.assignedTo; simp only [hfind]
      refine ⟨h1, h2, h3, h4, h5, h6, by simpa using h7, ?_, ?_⟩
      · intro j hj
        rcases List.mem_cons.mp hj with rfl | hmem
        · exact ⟨k, hk⟩
        · obtain ⟨k', hk'⟩ := h9 j hmem
          exact ⟨k', by rw [← hfind]; exact hk'⟩
      · intro k' c hc
        have hc' : (updateAt (fun c => addToCluster c i) k s.cluster_list)[k']?
            = some (if k' = k then addToCluster c i else c) := by
          rw [updateAt_getElem?, hc]; split <;> rfl
        rw [h10 k' _ hc', hassign]
        by_cases hkk : k' = k
        · subst hkk
          simp [Gen.assignedTo, hk]
        · have : ¬ k = k' := fun e => hkk e.symm
          simp [Gen.assignedTo, hk, hkk, this]

/-- The loop of `addPointsToClusters` returns when every row finds a cluster. -/
theorem gen_addPointsLoop_isSome {R : Type} (A : Arith R) (l : List Nat) (s : KState)
    (h : ∀ i ∈ l, ∃ k, Gen.findClosestCluster A s (row s.data i) = some k) :
    ∃ s1, Gen.addPointsLoop A s l = some s1 := by
  induction l generalizing s with
  | nil => exact ⟨s, rfl⟩
  | cons i rest ih =>
    obtain ⟨k, hk⟩ := h i (List.mem_cons_self _ _)
    unfold Gen.addPointsLoop
    rw [hk]
    apply ih
    intro j hj
    obtain ⟨k', hk'⟩ := h j (List.mem_cons_of_mem _ hj)
    refine ⟨k', ?_⟩
    show Gen.findClosestLoop A _ _ (updateAt _ _ _) _ _ _ = _
    rw [gen_findClosestLoop_updateAt]
    exact hk'

/-- `addPointsToClusters` returns exactly when every row has a cluster at a computed
distance that compares below `INFINITY`. -/
theorem gen_addPointsToClusters_isSome {R : Type} (A : Arith R) (s : KState) :
    (∃ s1, Gen.addPointsToClusters A s = some s1) ↔
      ∀ i, i < s.N → ∃ c ∈ s.cluster_list,
        A.lt (Gen.calculateDistance A s.D (row s.data i) c.centroid) A.infinity = true := by
  constructor
  · rintro ⟨s1, h⟩ i hi
    obtain ⟨-, -, -, -, -, -, -, h9, -⟩ := gen_addPointsLoop_spec A _ _ _ h
    obtain ⟨k, hk⟩ := h9 i (List.mem_range.mpr hi)
    by_contra hno
    have hnone := (gen_findClosestCluster_none A s (row s.data i)).mpr (by
      intro c hc
      by_contra hlt
      exact hno ⟨c, hc, by simpa using hlt⟩)
    rw [hnone] at hk
    exact absurd hk (by simp)
  · intro h
    exact gen_addPointsLoop_isSome A _ s
      (fun i hi => gen_findClosestCluster_isSome A s _ (h i (List.mem_range.mp hi)))

/-! ### `kmeansIteration` -/

theorem gen_iterationLoop_eq {R : Type} (A : Arith R) (s : KState) (cs : List CLUSTER)
    (flag : Int) :
    Gen.iterationLoop A s cs flag
      = (cs.map (fun c => clearCluster (Gen.recompute A s c)),
         if cs.any (Gen.moved A s) then 1 else flag) := by
  induction cs generalizing flag with
  | nil => simp [Gen.iterationLoop]
  | cons c next ih =>
    unfold Gen.iterationLoop
    simp only [ih, List.map_cons, List.any_cons]
    by_cases h1 : Gen.moved A s c = true
    · have : A.gt (Gen.calculateDistance A s.D
          (Gen.updateCentroid A s.data s.D (savePrev s.D c)).prev
          (Gen.updateCentroid A s.data s.D (savePrev s.D c)).centroid) s.eps = true := h1
      simp [h1, this, Gen.recompute]
    · have : ¬ A.gt (Gen.calculateDistance A s.D
          (Gen.updateCentroid A s.data s.D (savePrev s.D c)).prev
          (Gen.updateCentroid A s.data s.D (savePrev s.D c)).centroid) s.eps = true := h1
      simp [h1, this, Gen.recompute]

theorem gen_kmeansIteration_eq {R : Type} (A : Arith R) (s : KState) :
    Gen.kmeansIteration A s = (Gen.addPointsToClusters A s).map (fun s1 =>
      ({ s1 with cluster_list := s1.cluster_list.map (fun c => clearCluster (Gen.recompute A s1 c)) },
       if s1.cluster_list.any (Gen.moved A s1) then 1 else 0)) := by
  unfold Gen.kmeansIteration
  cases h : Gen.addPointsToClusters A s with
  | none => rfl
  | some s1 => simp [gen_iterationLoop_eq]

theorem gen_updateCentroid_eq {R : Type} (A : Arith R) (data : List (List Dbl)) (D : Nat)
    (c : CLUSTER) :
    Gen.updateCentroid A data D c =
      { c with centroid :=
          setLoop (fun i => A.divInt (Gen.coordSum A data c.point_list i) c.size) D c.centroid } := by
  have key : ∀ n, (List.range n).foldl
      (fun c i =>
        let sum := c.point_list.foldl (fun sum curr => A.add sum (rd (row data curr.head) i)) (Dbl.fin 0)
        { c with centroid := c.centroid.set i (A.divInt sum c.size) }) c
      = { c with centroid :=
          setLoop (fun i => A.divInt (Gen.coordSum A data c.point_list i) c.size) n c.centroid } := by
    intro n
    induction n with
    | zero => simp [setLoop]
    | succ n ih => rw [foldl_range_succ, ih, setLoop_succ]; rfl
  exact key D

theorem gen_rd_recompute_prev {R : Type} (A : Arith R) (s : KState) (c : CLUSTER)
    (h : s.D ≤ c.prev.length) (d : Nat) (hd : d < s.D) :
    rd (Gen.recompute A s c).prev d = rd c.centroid d := by
  simp [Gen.recompute, gen_updateCentroid_eq, savePrev_eq, rd_setLoop _ _ _ h, hd]

theorem gen_recompute_congr {R : Type} (A : Arith R) (s t : KState) (hd : t.data = s.data)
    (hD : t.D = s.D) (c : CLUSTER) : Gen.recompute A t c = Gen.recompute A s c := by
  unfold Gen.recompute; rw [hd, hD]

theorem gen_moved_congr {R : Type} (A : Arith R) (s t : KState) (hd : t.data = s.data)
    (hD : t.D = s.D) (he : t.eps = s.eps) (c : CLUSTER) : Gen.moved A t c = Gen.moved A s c := by
  unfold Gen.moved; rw [gen_recompute_congr A s t hd hD, hD, he]

theorem gen_calculateDistance_congr {R : Type} (A : Arith R) (D : Nat) (a a' b b' : List Dbl)
    (ha : ∀ i, i < D → rd a i = rd a' i) (hb : ∀ i, i < D → rd b i = rd b' i) :
    Gen.calculateDistance A D a b = Gen.calculateDistance A D a' b' := by
  have key : ∀ n, n ≤ D → (List.range n).foldl
      (fun sum i => let diff := A.sub (rd a i) (rd b i); A.add sum (A.mul diff diff)) (Dbl.fin 0)
      = (List.range n).foldl
      (fun sum i => let diff := A.sub (rd a' i) (rd b' i); A.add sum (A.mul diff diff)) (Dbl.fin 0) := by
    intro n
    induction n with
    | zero => intro _; rfl
    | succ n ih =>
      intro hn
      rw [foldl_range_succ, foldl_range_succ, ih (Nat.le_of_succ_le hn)]
      simp only []
      rw [ha n hn, hb n hn]
  unfold Gen.calculateDistance
  rw [key D le_rfl]

/-- One call of `kmeansIteration` that returns: the globals other than the cluster list are
kept, every row found a cluster, the cluster at each position is what `stepCluster` makes
of the cluster that was at that position, and the flag is 1 exactly when for one position
the test `diff > eps` held. -/
theorem gen_kmeansIteration_spec {R : Type} (A : Arith R) (s s' : KState) (flag : Int)
    (hit : Gen.kmeansIteration A s = some (s', flag)) :
    s'.data = s.data ∧ s'.K = s.K ∧ s'.D = s.D ∧ s'.N = s.N ∧ s'.iter = s.iter ∧ s'.eps = s.eps ∧
    s'.cluster_list.length = s.cluster_list.length ∧
    (∀ i, i < s.N → ∃ k, Gen.findClosestCluster A s (row s.data i) = some k) ∧
    (∀ (k : Nat) (c : CLUSTER), s.cluster_list[k]? = some c →
      s'.cluster_list[k]? = some (Gen.stepCluster A s k c)) ∧
    (flag = 1 ∨ flag = 0) ∧
    (flag = 1 ↔ ∃ (k : Nat) (c : CLUSTER), s.cluster_list[k]? = some c ∧
      Gen.moved A s ((Gen.assignedTo A s (List.range s.N) k).foldl addToCluster c) = true) := by
  rw [gen_kmeansIteration_eq] at hit
  cases h1 : Gen.addPointsToClusters A s with
  | none => rw [h1] at hit; simp at hit
  | some s1 =>
    rw [h1] at hit
    simp only [Option.map_some', Option.some.injEq, Prod.mk.injEq] at hit
    obtain ⟨hs', hflag⟩ := hit
    obtain ⟨e1, e2, e3, e4, e5, e6, e7, e9, e10⟩ := gen_addPointsLoop_spec A _ _ _ h1
    have hrec : ∀ c, Gen.recompute A s1 c = Gen.recompute A s c := gen_recompute_congr A s s1 e1 e3
    have hmov : Gen.moved A s1 = Gen.moved A s := funext (gen_moved_congr A s s1 e1 e3 e6)
    subst hs'
    have hany : s1.cluster_list.any (Gen.moved A s) = true ↔
        ∃ (k : Nat) (c : CLUSTER), s.cluster_list[k]? = some c ∧
          Gen.moved A s ((Gen.assignedTo A s (List.range s.N) k).foldl addToCluster c) = true := by
      rw [List.any_eq_true]
      constructor
      · rintro ⟨c1, hmem, hmv⟩
        obtain ⟨k, hk⟩ := List.mem_iff_getElem?.mp hmem
        have hklt : k < s.cluster_list.length := by
          rw [← e7]; exact (List.getElem?_eq_some_iff.mp hk).1
        have := e10 k _ (List.getElem?_eq_getElem hklt)
        rw [hk] at this
        obtain rfl : c1 = _ := by simpa using this
        exact ⟨k, _, List.getElem?_eq_getElem hklt, hmv⟩
      · rintro ⟨k, c, hc, hmv⟩
        exact ⟨_, List.getElem?_mem (e10 k c hc), hmv⟩
    refine ⟨e1, e2, e3, e4, e5, e6, by simpa using e7, ?_, ?_, ?_, ?_⟩
    · intro i hi; exact e9 i (List.mem_range.mpr hi)
    · intro k c hc
      simp only [List.getElem?_map, e10 k c hc, Option.map_some', hrec]
      rfl
    · rw [← hflag]; split <;> simp
    · rw [← hflag, hmov, ← hany]
      by_cases hb : s1.cluster_list.any (Gen.moved A s) = true
      · simp [hb]
      · simp [hb]

/-- A call of `kmeansIteration` returns exactly when every row has a cluster at a computed
distance that compares below `INFINITY`. -/
theorem gen_kmeansIteration_isSome {R : Type} (A : Arith R) (s : KState) :
    (∃ r, Gen.kmeansIteration A s = some r) ↔
      ∀ i, i < s.N → ∃ c ∈ s.cluster_list,
        A.lt (Gen.calculateDistance A s.D (row s.data i) c.centroid) A.infinity = true := by
  rw [← gen_addPointsToClusters_isSome, gen_kmeansIteration_eq]
  cases Gen.addPointsToClusters A s with
  | none => simp
  | some s1 => simp

/-! ### The loop of `kmeans` -/

theorem gen_stateAfter_succ {R : Type} (A : Arith R) (s s1 : KState) (flag : Int)
    (hit : Gen.kmeansIteration A s = some (s1, flag)) (n : Nat) :
    Gen.stateAfter A s (n + 1) = Gen.stateAfter A { s1 with iter := s1.iter - 1 } n := by
  simp [Gen.stateAfter, hit]

/-- The globals that an iteration does not write are those of the start after any number
of rounds, and the cluster list keeps its length. -/
theorem gen_stateAfter_fields {R : Type} (A : Arith R) (n : Nat) (s t : KState)
    (h : Gen.stateAfter A s n = some t) :
    t.data = s.data ∧ t.K = s.K ∧ t.D = s.D ∧ t.N = s.N ∧ t.eps = s.eps ∧
    t.cluster_list.length = s.cluster_list.length := by
  induction n generalizing s with
  | zero =>
    simp only [Gen.stateAfter, Option.some.injEq] at h
    subst h
    exact ⟨rfl, rfl, rfl, rfl, rfl, rfl⟩
  | succ n ih =>
    cases hit : Gen.kmeansIteration A s with
    | none => simp [Gen.stateAfter, hit] at h
    | some r =>
      obtain ⟨s1, flag⟩ := r
      rw [gen_stateAfter_succ A s s1 flag hit] at h
      obtain ⟨e1, e2, e3, e4, -, e6, e7, -⟩ := gen_kmeansIteration_spec A s s1 flag hit
      obtain ⟨q1, q2, q3, q4, q5, q6⟩ := ih _ h
      exact ⟨q1.trans e1, q2.trans e2, q3.trans e3, q4.trans e4, q5.trans e6, q6.trans e7⟩

/-- From one round to the next every cluster stays at its position: the cluster at
position `i` after round `m + 1` is what the iteration made of the cluster at position `i`
after round `m`. -/
theorem gen_stateAfter_step {R : Type} (A : Arith R) (m : Nat) (s t t' : KState)
    (h1 : Gen.stateAfter A s m = some t) (h2 : Gen.stateAfter A s (m + 1) = some t') :
    ∀ (i : Nat) (c : CLUSTER), t.cluster_list[i]? = some c →
      t'.cluster_list[i]? = some (Gen.stepCluster A t i c) := by
  induction m generalizing s with
  | zero =>
    simp only [Gen.stateAfter, Option.some.injEq] at h1
    subst h1
    cases hit : Gen.kmeansIteration A s with
    | none => simp [Gen.stateAfter, hit] at h2
    | some r =>
      obtain ⟨s1, flag⟩ := r
      rw [gen_stateAfter_succ A s s1 flag hit] at h2
      simp only [Gen.stateAfter, Option.some.injEq] at h2
      subst h2
      exact (gen_kmeansIteration_spec A s s1 flag hit).2.2.2.2.2.2.2.2.1
  | succ m ih =>
    cases hit : Gen.kmeansIteration A s with
    | none => simp [Gen.stateAfter, hit] at h1
    | some r =>
      obtain ⟨s1, flag⟩ := r
      rw [gen_stateAfter_succ A s s1 flag hit] at h1 h2
      exact ih _ h1 h2

/-- When the loop returns after `calls` calls, its globals are those after `calls` rounds,
`iter` apart (the last round of a loop left by `break` does not decrement it). -/
theorem gen_kmeansLoop_state {R : Type} (A : Arith R) (M : Nat) (s s2 : KState) (calls : Nat)
    (h : Gen.kmeansLoop A s M = some (s2, calls)) :
    ∃ t, Gen.stateAfter A s calls = some t ∧ t.cluster_list = s2.cluster_list ∧
      t.data = s2.data ∧ t.K = s2.K ∧ t.D = s2.D ∧ t.N = s2.N ∧ t.eps = s2.eps := by
  induction M generalizing s s2 calls with
  | zero =>
    simp only [Gen.kmeansLoop, Option.some.injEq, Prod.mk.injEq] at h
    obtain ⟨rfl, rfl⟩ := h
    exact ⟨s, rfl, rfl, rfl, rfl, rfl, rfl, rfl⟩
  | succ M ih =>
    unfold Gen.kmeansLoop at h
    cases hit : Gen.kmeansIteration A s with
    | none => rw [hit] at h; simp at h
    | some r =>
      obtain ⟨s1, flag⟩ := r
      rw [hit] at h
      simp only [] at h
      by_cases hflag : flag = 0
      · rw [if_pos hflag] at h
        simp only [Option.some.injEq, Prod.mk.injEq] at h
        obtain ⟨rfl, rfl⟩ := h
        refine ⟨{ s1 with iter := s1.iter - 1 }, ?_, rfl, rfl, rfl, rfl, rfl, rfl⟩
        rw [gen_stateAfter_succ A s s1 flag hit]
        rfl
      · rw [if_neg hflag] at h
        cases hloop : Gen.kmeansLoop A { s1 with iter := s1.iter - 1 } M with
        | none => rw [hloop] at h; simp at h
        | some r2 =>
          obtain ⟨s3, c⟩ := r2
          rw [hloop] at h
          simp only [Option.some.injEq, Prod.mk.injEq] at h
          obtain ⟨rfl, rfl⟩ := h
          obtain ⟨t, ht, q⟩ := ih _ _ c hloop
          exact ⟨t, by rw [gen_stateAfter_succ A s s1 flag hit]; exact ht, q⟩

/-! ### `kmeansSetup` -/

/-- `kmeansSetup` on globals without clusters: one cluster per entry of the seed list,
created from the row of the copied data that the entry names, the last entry first. -/
theorem kmeansSetup_list (s s1 : KState) (data_py : List (List Dbl)) (centroids_py : List Nat)
    (hs : s.cluster_list = []) (h : kmeansSetup s data_py centroids_py = some s1) :
    s1.K = centroids_py.length ∧ s1.D = (data_py.headD []).length ∧ s1.N = data_py.length ∧
    s1.iter = s.iter ∧ s1.eps = s.eps ∧
    ((∀ r ∈ data_py, r.length = (data_py.headD []).length) → s1.data = data_py) ∧
    s1.cluster_list = centroids_py.reverse.map (fun j => createCluster s1.D (row s1.data j)) := by
  cases data_py with
  | nil => simp [kmeansSetup] at h
  | cons row0 rest =>
    simp only [kmeansSetup, initializeClusters, initializeLoop_eq, Option.some.injEq,
      List.take_length] at h
    subst h
    refine ⟨rfl, rfl, rfl, rfl, rfl, ?_, by simp [hs]⟩
    intro hrect
    have := processMatrix_rect (row0 :: rest) row0.length (by simpa using hrect)
    simpa using this

/-- The cluster created from entry `t` of the seed list is at position `K - 1 - t`. -/
theorem kmeansSetup_position (s s1 : KState) (data_py : List (List Dbl))
    (centroids_py : List Nat) (hs : s.cluster_list = [])
    (h : kmeansSetup s data_py centroids_py = some s1) (t j : Nat)
    (hj : centroids_py[t]? = some j) :
    s1.cluster_list[centroids_py.length - 1 - t]? = some (createCluster s1.D (row s1.data j)) := by
  obtain ⟨-, -, -, -, -, -, hcl⟩ := kmeansSetup_list s s1 data_py centroids_py hs h
  have ht : t < centroids_py.length := (List.getElem?_eq_some_iff.mp hj).1
  have ht' : centroids_py.length - 1 - t < centroids_py.length := by omega
  rw [hcl, List.getElem?_map, List.getElem?_reverse ht']
  have : centroids_py.length - 1 - (centroids_py.length - 1 - t) = t := by omega
  rw [this, hj]
  rfl

/-- C3 (as stated it fails): the point `[1]` is equidistant from the clusters seeded at
`[0]` (first seed) and `[2]` (second seed), in exact and in IEEE arithmetic, and it is
given to the cluster of the second seed, which is at position 0 of the list. -/
theorem tie_goes_to_later_seed :
    kmeansSetup { initialState with iter := 1, eps := Dbl.fin (1 / 10000) }
        [[Dbl.fin 0], [Dbl.fin 2], [Dbl.fin 1]] [0, 1] = some tieState ∧
    tieState.cluster_list[0]? = some (createCluster 1 (row tieState.data 1)) ∧
    tieState.cluster_list[1]? = some (createCluster 1 (row tieState.data 0)) ∧
    calculateDistance 1 (row tieState.data 2) [Dbl.fin 0]
      = calculateDistance 1 (row tieState.data 2) [Dbl.fin 2] ∧
    findClosestCluster tieState (row tieState.data 2) = some 0 ∧
    (addPointsToClusters tieState).map (fun t => t.cluster_list.map (fun c => c.point_list.map (fun n => n.head)))
      = some [[2, 1], [0]] ∧
    Gen.calculateDistance ieeeArith 1 (row tieDoubles.data 2) [Dbl.fin 0] = Dbl.fin 1 ∧
    Gen.calculateDistance ieeeArith 1 (row tieDoubles.data 2) [Dbl.fin 2] = Dbl.fin 1 ∧
    Gen.findClosestCluster ieeeArith tieDoubles (row tieDoubles.data 2) = some 0 ∧
    (Gen.addPointsToClusters ieeeArith tieDoubles).map
        (fun t => t.cluster_list.map (fun c => c.point_list.map (fun n => n.head)))
      = some [[2, 1], [0]] := by
  decide!

/-- C3, amended. Tie-break by list order, which is the reverse of the seed order, for the
distances the code computes.  In a run set up by `kmeansSetup` (on globals without
clusters) the cluster created from entry `t` of the seed list is at position `K - 1 - t` of
the cluster list (`addCluster` inserts at the head), and every iteration leaves each
cluster at its position.  Whatever the double operations compute, as long as `<` has the
order laws of doubles: if in the state after any number of rounds the computed distances
from a point to the clusters of the seed entries `a < b` are equal, the point is never
given to the cluster of the earlier entry `a`; and it is given to the cluster of the later
entry `b` when that distance is below `INFINITY`, no cluster is at a strictly smaller
computed distance and every cluster seeded after `b` is strictly farther. -/
theorem tie_break_reverse_seed_order {R : Type} (A : Arith R) (hA : A.Ordered) (s : KState)
    (data_py : List (List Dbl)) (centroids_py : List Nat) (hs : s.cluster_list = [])
    (s1 : KState) (hsetup : kmeansSetup s data_py centroids_py = some s1)
    (n : Nat) (s2 : KState) (hrun : Gen.stateAfter A s1 n = some s2)
    (point : List Dbl) (a b : Nat) (hab : a < b) (hb : b < centroids_py.length)
    (ca cb : CLUSTER)
    (hca : s2.cluster_list[centroids_py.length - 1 - a]? = some ca)
    (hcb : s2.cluster_list[centroids_py.length - 1 - b]? = some cb)
    (htie : Gen.calculateDistance A s2.D point ca.centroid
      = Gen.calculateDistance A s2.D point cb.centroid) :
    (∀ (t j : Nat), centroids_py[t]? = some j →
      s1.cluster_list[centroids_py.length - 1 - t]?
        = some (createCluster s1.D (row s1.data j))) ∧
    ((∀ r ∈ data_py, r.length = (data_py.headD []).length) → s1.data = data_py) ∧
    (∀ (m : Nat) (t t' : KState), Gen.stateAfter A s1 m = some t →
      Gen.stateAfter A s1 (m + 1) = some t' →
      ∀ (i : Nat) (c : CLUSTER), t.cluster_list[i]? = some c →
        t'.cluster_list[i]? = some (Gen.stepCluster A t i c)) ∧
    s2.cluster_list.length = centroids_py.length ∧
    Gen.findClosestCluster A s2 point ≠ some (centroids_py.length - 1 - a) ∧
    (A.lt (Gen.calculateDistance A s2.D point cb.centroid) A.infinity = true →
      (∀ (i : Nat) (c : CLUSTER), s2.cluster_list[i]? = some c →
        A.lt (Gen.calculateDistance A s2.D point c.centroid)
          (Gen.calculateDistance A s2.D point cb.centroid) = false) →
      (∀ (i : Nat) (c : CLUSTER), i < centroids_py.length - 1 - b → s2.cluster_list[i]? = some c →
        A.lt (Gen.calculateDistance A s2.D point cb.centroid)
          (Gen.calculateDistance A s2.D point c.centroid) = true) →
      Gen.findClosestCluster A s2 point = some (centroids_py.length - 1 - b)) := by
  obtain ⟨-, -, -, -, -, hdata, hcl⟩ := kmeansSetup_list s s1 data_py centroids_py hs hsetup
  obtain ⟨-, -, -, -, -, hlen⟩ := gen_stateAfter_fields A n s1 s2 hrun
  have hlen1 : s1.cluster_list.length = centroids_py.length := by rw [hcl]; simp
  refine ⟨fun t j hj => kmeansSetup_position s s1 data_py centroids_py hs hsetup t j hj, hdata,
    fun m t t' h1 h2 => gen_stateAfter_step A m s1 t t' h1 h2, by rw [hlen, hlen1], ?_, ?_⟩
  · intro hfind
    have hnear : ∃ c ∈ s2.cluster_list,
        A.lt (Gen.calculateDistance A s2.D point c.centroid) A.infinity = true := by
      by_contra hno
      have := (gen_findClosestCluster_none A s2 point).mpr (by
        intro c hc
        by_contra hlt
        exact hno ⟨c, hc, by simpa using hlt⟩)
      rw [this] at hfind
      exact absurd hfind (by simp)
    obtain ⟨k, c, hk, hc, h2, -, h4⟩ := gen_findClosestCluster_min A hA s2 point hnear
    rw [hfind] at hk
    obtain rfl : centroids_py.length - 1 - a = k := by simpa using hk
    rw [hca] at hc
    obtain rfl : ca = c := by simpa using hc
    rcases h4 (centroids_py.length - 1 - b) cb (by omega) hcb with h5 | h5
    · rw [← htie, h2] at h5
      exact absurd h5 (by simp)
    · rw [htie, hA.irrefl] at h5
      exact absurd h5 (by simp)
  · intro hlt hmin hstrict
    obtain ⟨k, c, hk, hc, h2, h3, h4⟩ := gen_findClosestCluster_min A hA s2 point
      ⟨cb, List.getElem?_mem hcb, hlt⟩
    rw [hk]
    congr 1
    by_contra hne
    rcases Nat.lt_or_gt_of_ne hne with hlt' | hgt
    · have h5 := hstrict k c hlt' hc
      rw [h3 _ cb hcb] at h5
      exact absurd h5 (by simp)
    · rcases h4 (centroids_py.length - 1 - b) cb hgt hcb with h5 | h5
      · rw [hlt] at h5
        exact absurd h5 (by simp)
      · rw [hmin k c hc] at h5
        exact absurd h5 (by simp)

theorem tie_break_reverse_seed_order_witness :
    (∀ (t j : Nat), ([0, 1] : List Nat)[t]? = some j →
      tieDoubles.cluster_list[([0, 1] : List Nat).length - 1 - t]?
        = some (createCluster tieDoubles.D (row tieDoubles.data j))) ∧
    ((∀ r ∈ ([[Dbl.fin 0], [Dbl.fin 2], [Dbl.fin 1]] : List (List Dbl)),
        r.length = (([[Dbl.fin 0], [Dbl.fin 2], [Dbl.fin 1]] : List (List Dbl)).headD []).length) →
      tieDoubles.data = [[Dbl.fin 0], [Dbl.fin 2], [Dbl.fin 1]]) ∧
    (∀ (m : Nat) (t t' : KState), Gen.stateAfter ieeeArith tieDoubles m = some t →
      Gen.stateAfter ieeeArith tieDoubles (m + 1) = some t' →
      ∀ (i : Nat) (c : CLUSTER), t.cluster_list[i]? = some c →
        t'.cluster_list[i]? = some (Gen.stepCluster ieeeArith t i c)) ∧
    tieAfterOne.cluster_list.length = ([0, 1] : List Nat).length ∧
    Gen.findClosestCluster ieeeArith tieAfterOne [Dbl.fin (3 / 4)]
      ≠ some (([0, 1] : List Nat).length - 1 - 0) ∧
    (ieeeArith.lt (Gen.calculateDistance ieeeArith tieAfterOne.D [Dbl.fin (3 / 4)]
        (⟨[Dbl.fin (3 / 2)], [Dbl.fin 2], [], 0⟩ : CLUSTER).centroid) ieeeArith.infinity = true →
      (∀ (i : Nat) (c : CLUSTER), tieAfterOne.cluster_list[i]? = some c →
        ieeeArith.lt (Gen.calculateDistance ieeeArith tieAfterOne.D [Dbl.fin (3 / 4)] c.centroid)
          (Gen.calculateDistance ieeeArith tieAfterOne.D [Dbl.fin (3 / 4)]
            (⟨[Dbl.fin (3 / 2)], [Dbl.fin 2], [], 0⟩ : CLUSTER).centroid) = false) →
      (∀ (i : Nat) (c : CLUSTER), i < ([0, 1] : List Nat).length - 1 - 1 →
        tieAfterOne.cluster_list[i]? = some c →
        ieeeArith.lt (Gen.calculateDistance ieeeArith tieAfterOne.D [Dbl.fin (3 / 4)]
            (⟨[Dbl.fin (3 / 2)], [Dbl.fin 2], [], 0⟩ : CLUSTER).centroid)
          (Gen.calculateDistance ieeeArith tieAfterOne.D [Dbl.fin (3 / 4)] c.centroid) = true) →
      Gen.findClosestCluster ieeeArith tieAfterOne [Dbl.fin (3 / 4)]
        = some (([0, 1] : List Nat).length - 1 - 1)) :=
  tie_break_reverse_seed_order ieeeArith ieeeArith_ordered
    { initialState with iter := 2, eps := Ieee.round (1 / 10000) }
    [[Dbl.fin 0], [Dbl.fin 2], [Dbl.fin 1]] [0, 1] (by decide)
    tieDoubles (by decide!) 1 tieAfterOne (by decide!) [Dbl.fin (3 / 4)] 0 1 (by decide)
    (by decide) ⟨[Dbl.fin 0], [Dbl.fin 0], [], 0⟩ ⟨[Dbl.fin (3 / 2)], [Dbl.fin 2], [], 0⟩
    (by decide!) (by decide!) (by decide!)

/-- In exact arithmetic `kmeans` returns on every valid input. -/
theorem kmeans_returns_of_valid (s : KState) (iter : Int) (eps : Dbl)
    (data_py : List (List Dbl)) (centroids_py : List Nat)
    (hv : ValidInput data_py centroids_py) (hs : s.cluster_list = []) :
    ∃ s1 s2 calls,
      kmeansSetup { s with iter := iter, eps := eps } data_py centroids_py = some s1 ∧
      kmeansLoop s1 iter.toNat = some (s2, calls) ∧
      ∃ rows, kmeans s iter eps data_py centroids_py = some (rows, freeMemory s2) := by
  obtain ⟨s1, hsetup, hgood, -, -, hD, hK, -, -, hcl⟩ :=
    kmeansSetup_good { s with iter := iter, eps := eps } data_py centroids_py hv hs
  obtain ⟨s2, calls, hloop, hgood2, hD2, hK2, hlen2⟩ := kmeansLoop_good iter.toNat s1 hgood
  have hconv : convert_c_matrix_to_py_list s2
      = some (s2.cluster_list.map (centroidRow (data_py.headD []).length)) := by
    unfold convert_c_matrix_to_py_list
    rw [convertLoop_eq _ _ _ (le_of_eq hgood2.2.2.2.1), hgood2.2.2.2.1, List.take_length, hD2, hD]
  refine ⟨s1, s2, calls, hsetup, hloop,
    s2.cluster_list.map (centroidRow (data_py.headD []).length), ?_⟩
  unfold kmeans
  rw [hsetup]
  simp only []
  rw [hloop]
  simp only []
  rw [hconv]

/-- What `convert_c_matrix_to_py_list` returns when it returns: `K` rows, row `i` read from
the cluster at position `i`. -/
theorem convertLoop_rows (D n : Nat) (cs : List CLUSTER) (rows : List (List Dbl))
    (h : convertLoop D n cs = some rows) :
    n ≤ cs.length ∧ rows = (cs.take n).map (centroidRow D) := by
  induction n generalizing cs rows with
  | zero =>
    simp only [convertLoop, Option.some.injEq] at h
    subst h
    simp
  | succ n ih =>
    cases cs with
    | nil => simp [convertLoop] at h
    | cons c next =>
      simp only [convertLoop] at h
      cases hr : convertLoop D n next with
      | none => rw [hr] at h; simp at h
      | some rows' =>
        rw [hr] at h
        simp only [Option.some.injEq] at h
        subst h
        obtain ⟨h1, h2⟩ := ih next rows' hr
        exact ⟨by simpa using h1, by rw [h2]; simp [centroidRow]⟩

/-- C4 (as stated it fails).  The rows come in list order, which is the reverse of the seed
order: with seeds `[0,1]` on `[[1],[2]]` and no iteration, row 0 is `[2]`, the centroid of
the cluster created from the second seed, while the cluster created from the first seed
has centroid `[1]`; in the worked scenario row 0 is `[10.5]`, the final centroid of the
cluster seeded second (in exact and in IEEE arithmetic).  And in IEEE arithmetic `kmeans`
does not return on every valid input: on `[[-2^600], [2^600]]`, seeds `[0]`, the first
iteration dereferences `NULL`. -/
theorem kmeans_rows_reversed :
    (kmeans initialState 0 (Dbl.fin (1 / 10000)) [[Dbl.fin 1], [Dbl.fin 2]] [0, 1]).map (fun r => r.1)
      = some [[Dbl.fin 2], [Dbl.fin 1]] ∧
    centroidRow 1 (createCluster 1 (row [[Dbl.fin 1], [Dbl.fin 2]] 0)) = [Dbl.fin 1] ∧
    (kmeans initialState 10 (Dbl.fin (1 / 10000))
        [[Dbl.fin 1], [Dbl.fin 2], [Dbl.fin 10], [Dbl.fin 11]] [0, 2]).map (fun r => r.1)
      = some [[Dbl.fin (21 / 2)], [Dbl.fin (3 / 2)]] ∧
    (Gen.kmeans ieeeArith initialState 0 (Ieee.round (1 / 10000))
        [[Dbl.fin 1], [Dbl.fin 2]] [0, 1]).map (fun r => r.1)
      = some [[Dbl.fin 2], [Dbl.fin 1]] ∧
    (Gen.kmeans ieeeArith initialState 10 (Ieee.round (1 / 10000))
        [[Dbl.fin 1], [Dbl.fin 2], [Dbl.fin 10], [Dbl.fin 11]] [0, 2]).map (fun r => r.1)
      = some [[Dbl.fin (21 / 2)], [Dbl.fin (3 / 2)]] ∧
    ValidInput [[Dbl.fin (-Ieee.pow2 600)], [Dbl.two 600]] [0] ∧
    Gen.kmeans ieeeArith initialState 10 (Ieee.round (1 / 10000))
      [[Dbl.fin (-Ieee.pow2 600)], [Dbl.two 600]] [0] = none := by
  decide!

/-- C4, amended. Output order, whatever the double operations compute: whenever `kmeans`
(called on globals without clusters) returns, it returns exactly `K` rows of `D` values;
the cluster at position `i` of the list is the one created from entry `K - 1 - i` of the
seed list (the list holds the clusters in the reverse of the seed order), every iteration
leaves each cluster at its position, and row `i` is the centroid that cluster has when the
loop ends.  In exact arithmetic `kmeans` returns on every valid input (in IEEE arithmetic
an iteration can dereference `NULL`, and then no row is returned). -/
theorem kmeans_output_order {R : Type} (A : Arith R) (s : KState) (iter : Int) (eps : Dbl)
    (data_py : List (List Dbl)) (centroids_py : List Nat) (hs : s.cluster_list = []) :
    (∀ (rows : List (List Dbl)) (g : KState),
      Gen.kmeans A s iter eps data_py centroids_py = some (rows, g) →
      ∃ s1 s2 calls t,
        kmeansSetup { s with iter := iter, eps := eps } data_py centroids_py = some s1 ∧
        Gen.kmeansLoop A s1 iter.toNat = some (s2, calls) ∧ g = freeMemory s2 ∧
        Gen.stateAfter A s1 calls = some t ∧ t.cluster_list = s2.cluster_list ∧
        s1.K = centroids_py.length ∧ s1.D = (data_py.headD []).length ∧
        ((∀ r ∈ data_py, r.length = (data_py.headD []).length) → s1.data = data_py) ∧
        rows.length = centroids_py.length ∧
        (∀ r ∈ rows, r.length = (data_py.headD []).length) ∧
        (∀ (i j : Nat), i < centroids_py.length →
          centroids_py[centroids_py.length - 1 - i]? = some j →
          s1.cluster_list[i]? = some (createCluster s1.D (row s1.data j))) ∧
        (∀ (m : Nat) (u u' : KState), Gen.stateAfter A s1 m = some u →
          Gen.stateAfter A s1 (m + 1) = some u' →
          ∀ (i : Nat) (c : CLUSTER), u.cluster_list[i]? = some c →
            u'.cluster_list[i]? = some (Gen.stepCluster A u i c)) ∧
        (∀ (i : Nat), i < centroids_py.length →
          ∃ c, s2.cluster_list[i]? = some c ∧ rows[i]? = some (centroidRow s1.D c))) ∧
    ((∃ rows g, Gen.kmeans A s iter eps data_py centroids_py = some (rows, g)) ↔
      ∃ s1 s2 calls,
        kmeansSetup { s with iter := iter, eps := eps } data_py centroids_py = some s1 ∧
        Gen.kmeansLoop A s1 iter.toNat = some (s2, calls)) ∧
    (ValidInput data_py centroids_py →
      ∃ rows g, Gen.kmeans exactArith s iter eps data_py centroids_py = some (rows, g)) := by
  have hsizes : ∀ (s1 s2 : KState) (calls : Nat),
      kmeansSetup { s with iter := iter, eps := eps } data_py centroids_py = some s1 →
      Gen.kmeansLoop A s1 iter.toNat = some (s2, calls) →
      s2.cluster_list.length = centroids_py.length ∧ s2.K = centroids_py.length ∧ s2.D = s1.D := by
    intro s1 s2 calls hsetup hloop
    obtain ⟨hK, -, -, -, -, -, hcl⟩ :=
      kmeansSetup_list { s with iter := iter, eps := eps } s1 data_py centroids_py hs hsetup
    obtain ⟨t, ht, q1, -, q3, q4, -, -⟩ := gen_kmeansLoop_state A _ _ _ _ hloop
    obtain ⟨-, p2, p3, -, -, p6⟩ := gen_stateAfter_fields A _ _ _ ht
    have hlen1 : s1.cluster_list.length = centroids_py.length := by rw [hcl]; simp
    exact ⟨by rw [← q1, p6, hlen1], by rw [← q3, p2, hK], by rw [← q4, p3]⟩
  refine ⟨?_, ?_, ?_⟩
  · intro rows g hret
    unfold Gen.kmeans at hret
    cases hsetup : kmeansSetup { s with iter := iter, eps := eps } data_py centroids_py with
    | none => rw [hsetup] at hret; simp at hret
    | some s1 =>
      rw [hsetup] at hret
      simp only [] at hret
      cases hloop : Gen.kmeansLoop A s1 iter.toNat with
      | none => rw [hloop] at hret; simp at hret
      | some r =>
        obtain ⟨s2, calls⟩ := r
        rw [hloop] at hret
        simp only [] at hret
        cases hconv : convert_c_matrix_to_py_list s2 with
        | none => rw [hconv] at hret; simp at hret
        | some newdata =>
          rw [hconv] at hret
          simp only [Option.some.injEq, Prod.mk.injEq] at hret
          obtain ⟨rfl, rfl⟩ := hret
          obtain ⟨hK, hD, -, -, -, hdata, hcl⟩ :=
            kmeansSetup_list { s with iter := iter, eps := eps } s1 data_py centroids_py hs hsetup
          obtain ⟨t, ht, q1, -⟩ := gen_kmeansLoop_state A _ _ _ _ hloop
          obtain ⟨hlen2, hK2, hD2⟩ := hsizes s1 s2 calls hsetup hloop
          obtain ⟨-, hrows⟩ := convertLoop_rows _ _ _ _ hconv
          rw [hK2, ← hlen2, List.take_length, hD2] at hrows
          refine ⟨s1, s2, calls, t, rfl, hloop, rfl, ht, q1, hK, hD, hdata, ?_, ?_, ?_,
            fun m u u' h1 h2 => gen_stateAfter_step A m s1 u u' h1 h2, ?_⟩
          · rw [hrows]; simp [hlen2]
          · intro r hr
            rw [hrows] at hr
            obtain ⟨c, -, rfl⟩ := List.mem_map.mp hr
            simp [centroidRow, hD]
          · intro i j hi hj
            have := kmeansSetup_position { s with iter := iter, eps := eps } s1 data_py centroids_py hs hsetup
              (centroids_py.length - 1 - i) j hj
            have hidx : centroids_py.length - 1 - (centroids_py.length - 1 - i) = i := by omega
            rw [hidx] at this
            exact this
          · intro i hi
            have hi2 : i < s2.cluster_list.length := by rw [hlen2]; exact hi
            refine ⟨s2.cluster_list[i], List.getElem?_eq_getElem hi2, ?_⟩
            rw [hrows, List.getElem?_map, List.getElem?_eq_getElem hi2]
            rfl
  · constructor
    · rintro ⟨rows, g, hret⟩
      unfold Gen.kmeans at hret
      cases hsetup : kmeansSetup { s with iter := iter, eps := eps } data_py centroids_py with
      | none => rw [hsetup] at hret; simp at hret
      | some s1 =>
        rw [hsetup] at hret
        simp only [] at hret
        cases hloop : Gen.kmeansLoop A s1 iter.toNat with
        | none => rw [hloop] at hret; simp at hret
        | some r => exact ⟨s1, r.1, r.2, rfl, hloop⟩
    · rintro ⟨s1, s2, calls, hsetup, hloop⟩
      obtain ⟨hlen2, hK2, -⟩ := hsizes s1 s2 calls hsetup hloop
      refine ⟨(s2.cluster_list.take s2.K).map (centroidRow s2.D), freeMemory s2, ?_⟩
      unfold Gen.kmeans
      rw [hsetup]
      simp only []
      rw [hloop]
      simp only []
      unfold convert_c_matrix_to_py_list
      rw [convertLoop_eq _ _ _ (by rw [hK2, hlen2])]
  · intro hv
    obtain ⟨s1, s2, calls, -, -, rows, hk⟩ :=
      kmeans_returns_of_valid s iter eps data_py centroids_py hv hs
    exact ⟨rows, freeMemory s2, by rw [gen_exact_kmeans]; exact hk⟩

theorem kmeans_output_order_witness :
    ∃ s1 s2 calls t,
      kmeansSetup { initialState with iter := 10, eps := Ieee.round (1 / 10000) }
        [[Dbl.fin 1], [Dbl.fin 2], [Dbl.fin 10], [Dbl.fin 11]] [0, 2] = some s1 ∧
      Gen.kmeansLoop ieeeArith s1 (10 : Int).toNat = some (s2, calls) ∧
      (⟨[], 2, 1, 4, 9, Ieee.round (1 / 10000), []⟩ : KState) = freeMemory s2 ∧
      Gen.stateAfter ieeeArith s1 calls = some t ∧ t.cluster_list = s2.cluster_list ∧
      s1.K = ([0, 2] : List Nat).length ∧
      s1.D = (([[Dbl.fin 1], [Dbl.fin 2], [Dbl.fin 10], [Dbl.fin 11]] : List (List Dbl)).headD []).length ∧
      ((∀ r ∈ ([[Dbl.fin 1], [Dbl.fin 2], [Dbl.fin 10], [Dbl.fin 11]] : List (List Dbl)),
          r.length
            = (([[Dbl.fin 1], [Dbl.fin 2], [Dbl.fin 10], [Dbl.fin 11]] : List (List Dbl)).headD []).length) →
        s1.data = [[Dbl.fin 1], [Dbl.fin 2], [Dbl.fin 10], [Dbl.fin 11]]) ∧
      ([[Dbl.fin (21 / 2)], [Dbl.fin (3 / 2)]] : List (List Dbl)).length = ([0, 2] : List Nat).length ∧
      (∀ r ∈ ([[Dbl.fin (21 / 2)], [Dbl.fin (3 / 2)]] : List (List Dbl)), r.length
        = (([[Dbl.fin 1], [Dbl.fin 2], [Dbl.fin 10], [Dbl.fin 11]] : List (List Dbl)).headD []).length) ∧
      (∀ (i j : Nat), i < ([0, 2] : List Nat).length →
        ([0, 2] : List Nat)[([0, 2] : List Nat).length - 1 - i]? = some j →
        s1.cluster_list[i]? = some (createCluster s1.D (row s1.data j))) ∧
      (∀ (m : Nat) (u u' : KState), Gen.stateAfter ieeeArith s1 m = some u →
        Gen.stateAfter ieeeArith s1 (m + 1) = some u' →
        ∀ (i : Nat) (c : CLUSTER), u.cluster_list[i]? = some c →
          u'.cluster_list[i]? = some (Gen.stepCluster ieeeArith u i c)) ∧
      (∀ (i : Nat), i < ([0, 2] : List Nat).length →
        ∃ c, s2.cluster_list[i]? = some c ∧
          ([[Dbl.fin (21 / 2)], [Dbl.fin (3 / 2)]] : List (List Dbl))[i]?
            = some (centroidRow s1.D c)) :=
  (kmeans_output_order ieeeArith initialState 10 (Ieee.round (1 / 10000))
    [[Dbl.fin 1], [Dbl.fin 2], [Dbl.fin 10], [Dbl.fin 11]] [0, 2] (by decide)).1
    [[Dbl.fin (21 / 2)], [Dbl.fin (3 / 2)]] ⟨[], 2, 1, 4, 9, Ieee.round (1 / 10000), []⟩
    (by decide!)

/-- C5 (as stated it fails).  In IEEE arithmetic the returned cluster need not be at the
least Euclidean distance: for the point `(0, 0)` and the centroids `(1, 2^-30)` and
`(1, 0)`, in this order, the sum `1 + 2^-60` rounds to `1`, both computed distances are
`1`, and the first cluster is returned although its Euclidean distance (the root of
`1 + 2^-60`) is not at most that of the second one (the root of `1`).  And a NaN centroid,
which the unguarded `0.0 / 0` of `updateCentroid` leaves in a cluster that received no
point, makes every test `dist < minDist` false: a list of NaN centroids gives `NULL`, and
in the state a run reaches from the data `[[1],[1],[5]]`, seeds `[0,1]`, the returned
cluster's distance is not `<=` the NaN distance of the empty cluster. -/
theorem findClosestCluster_not_nearest :
    nearState.cluster_list
      = [⟨[Dbl.fin 1, Dbl.two (-30)], [Dbl.fin 1, Dbl.two (-30)], [], 0⟩,
         ⟨[Dbl.fin 1, Dbl.fin 0], [Dbl.fin 1, Dbl.fin 0], [], 0⟩] ∧
    Gen.calculateDistance ieeeArith 2 [Dbl.fin 0, Dbl.fin 0] [Dbl.fin 1, Dbl.two (-30)] = Dbl.fin 1 ∧
    Gen.calculateDistance ieeeArith 2 [Dbl.fin 0, Dbl.fin 0] [Dbl.fin 1, Dbl.fin 0] = Dbl.fin 1 ∧
    Gen.findClosestCluster ieeeArith nearState [Dbl.fin 0, Dbl.fin 0] = some 0 ∧
    sqDist 2 [Dbl.fin 0, Dbl.fin 0] [Dbl.fin 1, Dbl.fin 0]
      < sqDist 2 [Dbl.fin 0, Dbl.fin 0] [Dbl.fin 1, Dbl.two (-30)] ∧
    nanState.cluster_list ≠ [] ∧ findClosestCluster nanState [Dbl.fin 1] = none ∧
    Gen.findClosestCluster ieeeArith nanDoubles [Dbl.fin 1] = none ∧
    (kmeansSetup { initialState with iter := 5, eps := Dbl.fin (1 / 10000) }
        [[Dbl.fin 1], [Dbl.fin 1], [Dbl.fin 5]] [0, 1]).bind kmeansIteration
      = some (degenerateState, 1) ∧
    (kmeansSetup { initialState with iter := 5, eps := Ieee.round (1 / 10000) }
        [[Dbl.fin 1], [Dbl.fin 1], [Dbl.fin 4]] [0, 1]).bind (Gen.kmeansIteration ieeeArith)
      = some (emptiedState, 1) ∧
    findClosestCluster degenerateState [Dbl.fin 1] = some 0 ∧
    Root.le (calculateDistance 1 [Dbl.fin 1] [Dbl.fin (7 / 3)])
      (calculateDistance 1 [Dbl.fin 1] [Dbl.nan]) = false := by
  decide!

/-- C5, amended. Nearest cluster, for the distances the code computes: whatever the double
operations compute, as long as the comparison `<` has the order laws of doubles, for every
point and every cluster list in which at least one cluster is at a computed distance below
`INFINITY`, `findClosestCluster` returns a cluster of the list whose computed distance is
below `INFINITY`; no cluster of the list is at a strictly smaller computed distance; it is
at most the computed distance of every cluster that is below `INFINITY`; and every
cluster met before it in the traversal is strictly farther or not below `INFINITY` (NaN
or `+inf`): it is the first one at the minimum.  In exact arithmetic the computed distance
between arrays of numbers is the Euclidean distance (the square root of `sqDist`), and
comparing two of them is comparing the square roots. -/
theorem findClosestCluster_nearest_first {R : Type} (A : Arith R) (hA : A.Ordered) (s : KState)
    (point : List Dbl)
    (hnear : ∃ c ∈ s.cluster_list,
      A.lt (Gen.calculateDistance A s.D point c.centroid) A.infinity = true) :
    (∃ k c, Gen.findClosestCluster A s point = some k ∧ s.cluster_list[k]? = some c ∧
      A.lt (Gen.calculateDistance A s.D point c.centroid) A.infinity = true ∧
      (∀ (i : Nat) (c' : CLUSTER), s.cluster_list[i]? = some c' →
        A.lt (Gen.calculateDistance A s.D point c'.centroid)
          (Gen.calculateDistance A s.D point c.centroid) = false) ∧
      (∀ (i : Nat) (c' : CLUSTER), s.cluster_list[i]? = some c' →
        A.lt (Gen.calculateDistance A s.D point c'.centroid) A.infinity = true →
        (A.lt (Gen.calculateDistance A s.D point c.centroid)
            (Gen.calculateDistance A s.D point c'.centroid) = true ∨
          Gen.calculateDistance A s.D point c.centroid
            = Gen.calculateDistance A s.D point c'.centroid)) ∧
      (∀ (i : Nat) (c' : CLUSTER), i < k → s.cluster_list[i]? = some c' →
        A.lt (Gen.calculateDistance A s.D point c.centroid)
            (Gen.calculateDistance A s.D point c'.centroid) = true ∨
          A.lt (Gen.calculateDistance A s.D point c'.centroid) A.infinity = false)) ∧
    (∀ (a b : List Dbl), FinVec s.D a → FinVec s.D b →
      Gen.calculateDistance exactArith s.D a b = ⟨Dbl.fin (sqDist s.D a b)⟩ ∧
      0 ≤ sqDist s.D a b) ∧
    (∀ (x y : ℚ), 0 ≤ x →
      (exactArith.lt ⟨Dbl.fin x⟩ ⟨Dbl.fin y⟩ = true ↔ Real.sqrt (x : ℝ) < Real.sqrt (y : ℝ))) := by
  refine ⟨?_, fun a b ha hb => ⟨calculateDistance_fin _ a b ha hb, sqDist_nonneg _ _ _⟩,
    fun x y hx => Root.lt_iff_sqrt x y hx⟩
  obtain ⟨k, c, hk, hc, h2, h3, h4⟩ := gen_findClosestCluster_min A hA s point hnear
  refine ⟨k, c, hk, hc, h2, h3, ?_, ?_⟩
  · intro i c' hi hlt
    by_cases h5 : A.lt (Gen.calculateDistance A s.D point c.centroid)
        (Gen.calculateDistance A s.D point c'.centroid) = true
    · exact Or.inl h5
    · exact Or.inr (hA.total _ _ _ h2 hlt (by simpa using h5) (h3 i c' hi))
  · intro i c' hik hi
    rcases h4 i c' hik hi with h5 | h5
    · exact Or.inr h5
    · exact Or.inl h5

theorem findClosestCluster_nearest_first_witness :
    ∃ k c, Gen.findClosestCluster ieeeArith emptiedState [Dbl.fin 1] = some k ∧
      emptiedState.cluster_list[k]? = some c ∧
      ieeeArith.lt (Gen.calculateDistance ieeeArith emptiedState.D [Dbl.fin 1] c.centroid)
        ieeeArith.infinity = true ∧
      (∀ (i : Nat) (c' : CLUSTER), emptiedState.cluster_list[i]? = some c' →
        ieeeArith.lt (Gen.calculateDistance ieeeArith emptiedState.D [Dbl.fin 1] c'.centroid)
          (Gen.calculateDistance ieeeArith emptiedState.D [Dbl.fin 1] c.centroid) = false) ∧
      (∀ (i : Nat) (c' : CLUSTER), emptiedState.cluster_list[i]? = some c' →
        ieeeArith.lt (Gen.calculateDistance ieeeArith emptiedState.D [Dbl.fin 1] c'.centroid)
          ieeeArith.infinity = true →
        (ieeeArith.lt (Gen.calculateDistance ieeeArith emptiedState.D [Dbl.fin 1] c.centroid)
            (Gen.calculateDistance ieeeArith emptiedState.D [Dbl.fin 1] c'.centroid) = true ∨
          Gen.calculateDistance ieeeArith emptiedState.D [Dbl.fin 1] c.centroid
            = Gen.calculateDistance ieeeArith emptiedState.D [Dbl.fin 1] c'.centroid)) ∧
      (∀ (i : Nat) (c' : CLUSTER), i < k → emptiedState.cluster_list[i]? = some c' →
        ieeeArith.lt (Gen.calculateDistance ieeeArith emptiedState.D [Dbl.fin 1] c.centroid)
            (Gen.calculateDistance ieeeArith emptiedState.D [Dbl.fin 1] c'.centroid) = true ∨
          ieeeArith.lt (Gen.calculateDistance ieeeArith emptiedState.D [Dbl.fin 1] c'.centroid)
            ieeeArith.infinity = false) :=
  (findClosestCluster_nearest_first ieeeArith ieeeArith_ordered emptiedState [Dbl.fin 1]
    ⟨⟨[Dbl.fin 2], [Dbl.fin 1], [], 0⟩, by decide!, by decide!⟩).1

/-- The test `diff > eps` for the cluster at one position, in terms of its centroid before
the call and after it. -/
theorem gen_moved_eq {R : Type} (A : Arith R) (s : KState) (k : Nat) (c : CLUSTER)
    (halloc : s.D ≤ c.prev.length) :
    Gen.moved A s ((Gen.assignedTo A s (List.range s.N) k).foldl addToCluster c)
      = A.gt (Gen.calculateDistance A s.D c.centroid (Gen.stepCluster A s k c).centroid) s.eps := by
  obtain ⟨h1, h2, -, -⟩ := foldl_addToCluster (Gen.assignedTo A s (List.range s.N) k) c
  unfold Gen.moved
  congr 1
  apply gen_calculateDistance_congr
  · intro i hi
    rw [gen_rd_recompute_prev A s _ (by rw [h2]; exact halloc) i hi, h1]
  · intro i _; rfl

/-- For doubles, `diff > eps` is false exactly when `diff <= eps` holds or one of the two
is NaN. -/
theorem Dbl.gt_eq_false (d e : Dbl) :
    ieeeArith.gt d e = false ↔ (Dbl.le d e = true ∨ d = Dbl.nan ∨ e = Dbl.nan) := by
  cases d <;> cases e <;> simp [ieeeArith, Dbl.lt, Dbl.le]

/-- C7 (as stated it fails).  In IEEE arithmetic the flag can be 0 although a centroid moved
by more than `eps`: from the data `[[0], [2^-600]]` with the seed list `[0]` and
`eps = 2^-900` the centroid goes from `[0]` to `[2^-601]`, the square of the difference is
below the smallest double and rounds to 0, the computed distance is `0`, which is not
`> eps`, and the iteration returns 0, while the Euclidean distance `2^-601` is `> eps`.
And from the data `[[1],[1]]` with seeds `[0,1]` the iteration returns 0 although the
cluster that received no point has a NaN centroid, whose distance to the old one is not
`<= eps`. -/
theorem kmeansIteration_flag_wrong :
    ValidInput [[Dbl.fin 0], [Dbl.two (-600)]] [0] ∧
    kmeansSetup { initialState with iter := 10, eps := Dbl.two (-900) }
      [[Dbl.fin 0], [Dbl.two (-600)]] [0] = some tinyState ∧
    Gen.kmeansIteration ieeeArith tinyState
      = some ({ tinyState with cluster_list := [⟨[Dbl.two (-601)], [Dbl.fin 0], [], 0⟩] }, 0) ∧
    Gen.calculateDistance ieeeArith 1 [Dbl.fin 0] [Dbl.two (-601)] = Dbl.fin 0 ∧
    Dbl.lt tinyState.eps (Dbl.two (-601)) = true ∧
    Root.gt (calculateDistance 1 [Dbl.fin 0] [Dbl.two (-601)]) tinyState.eps = true ∧
    kmeansSetup { initialState with iter := 1, eps := Dbl.fin (1 / 10000) }
        [[Dbl.fin 1], [Dbl.fin 1]] [0, 1] = some twinState ∧
    kmeansIteration twinState
      = some ({ twinState with cluster_list :=
          [⟨[Dbl.fin 1], [Dbl.fin 1], [], 0⟩, ⟨[Dbl.nan], [Dbl.fin 1], [], 0⟩] }, 0) ∧
    Root.leEps (calculateDistance twinState.D [Dbl.fin 1] [Dbl.nan]) twinState.eps = false := by
  decide!

/-- C7, amended. Changed flag, for the distances the code computes: whatever the double
operations compute, a call of `kmeansIteration` returns exactly when every data row has a
cluster at a computed distance below `INFINITY`; when it returns, the flag is 1 or 0; it is
1 if and only if for at least one cluster the computed distance (the double
`calculateDistance` returns) between its centroid before the call and its centroid after
it compares `> eps`; it is 0 if and only if for every cluster that comparison is false,
which for doubles means that the computed distance is `<= eps` or one side is NaN (the
recomputed centroid of a cluster that received no point is NaN).  The `prev` arrays are
assumed to have their `D` slots. -/
theorem kmeansIteration_flag {R : Type} (A : Arith R) (s : KState)
    (halloc : ∀ c ∈ s.cluster_list, s.D ≤ c.prev.length) :
    ((∃ r, Gen.kmeansIteration A s = some r) ↔
      ∀ i, i < s.N → ∃ c ∈ s.cluster_list,
        A.lt (Gen.calculateDistance A s.D (row s.data i) c.centroid) A.infinity = true) ∧
    (∀ (s' : KState) (flag : Int), Gen.kmeansIteration A s = some (s', flag) →
      (flag = 1 ∨ flag = 0) ∧
      (flag = 1 ↔ ∃ (k : Nat) (c c' : CLUSTER), s.cluster_list[k]? = some c ∧
          s'.cluster_list[k]? = some c' ∧
          A.gt (Gen.calculateDistance A s.D c.centroid c'.centroid) s.eps = true) ∧
      (flag = 0 ↔ ∀ (k : Nat) (c c' : CLUSTER), s.cluster_list[k]? = some c →
          s'.cluster_list[k]? = some c' →
          A.gt (Gen.calculateDistance A s.D c.centroid c'.centroid) s.eps = false)) ∧
    (∀ (d e : Dbl), ieeeArith.gt d e = false ↔ (Dbl.le d e = true ∨ d = Dbl.nan ∨ e = Dbl.nan)) ∧
    (∀ (x e : Dbl), exactArith.gt (exactArith.sqrt x) e = false ↔
      (Root.leEps (Dbl.sqrt x) e = true ∨ (Dbl.sqrt x).radicand = Dbl.nan ∨ e = Dbl.nan)) := by
  refine ⟨gen_kmeansIteration_isSome A s, ?_, Dbl.gt_eq_false, Root.gt_sqrt_eq_false⟩
  intro s' flag hit
  obtain ⟨-, -, -, -, -, -, hlen, -, hstep, h01, hflag⟩ := gen_kmeansIteration_spec A s s' flag hit
  have hone : flag = 1 ↔ ∃ (k : Nat) (c c' : CLUSTER), s.cluster_list[k]? = some c ∧
      s'.cluster_list[k]? = some c' ∧
      A.gt (Gen.calculateDistance A s.D c.centroid c'.centroid) s.eps = true := by
    rw [hflag]
    constructor
    · rintro ⟨k, c, hc, hmv⟩
      refine ⟨k, c, _, hc, hstep k c hc, ?_⟩
      rw [← gen_moved_eq A s k c (halloc c (List.getElem?_mem hc))]
      exact hmv
    · rintro ⟨k, c, c', hc, hc', hgt⟩
      refine ⟨k, c, hc, ?_⟩
      rw [hstep k c hc] at hc'
      obtain rfl : Gen.stepCluster A s k c = c' := by simpa using hc'
      rw [gen_moved_eq A s k c (halloc c (List.getElem?_mem hc))]
      exact hgt
  refine ⟨h01, hone, ?_⟩
  constructor
  · intro h0 k c c' hc hc'
    by_contra hne
    have hgt : A.gt (Gen.calculateDistance A s.D c.centroid c'.centroid) s.eps = true := by
      simpa using hne
    have := hone.mpr ⟨k, c, c', hc, hc', hgt⟩
    rw [h0] at this
    exact absurd this (by decide)
  · intro hall
    rcases h01 with h1 | h0
    · obtain ⟨k, c, c', hc, hc', hgt⟩ := hone.mp h1
      rw [hall k c c' hc hc'] at hgt
      exact absurd hgt (by simp)
    · exact h0

theorem kmeansIteration_flag_witness :
    ((0 : Int) = 1 ∨ (0 : Int) = 0) ∧
    ((0 : Int) = 1 ↔ ∃ (k : Nat) (c c' : CLUSTER), tinyState.cluster_list[k]? = some c ∧
        ({ tinyState with cluster_list := [⟨[Dbl.two (-601)], [Dbl.fin 0], [], 0⟩] } :
          KState).cluster_list[k]? = some c' ∧
        ieeeArith.gt (Gen.calculateDistance ieeeArith tinyState.D c.centroid c'.centroid)
          tinyState.eps = true) ∧
    ((0 : Int) = 0 ↔ ∀ (k : Nat) (c c' : CLUSTER), tinyState.cluster_list[k]? = some c →
        ({ tinyState with cluster_list := [⟨[Dbl.two (-601)], [Dbl.fin 0], [], 0⟩] } :
          KState).cluster_list[k]? = some c' →
        ieeeArith.gt (Gen.calculateDistance ieeeArith tinyState.D c.centroid c'.centroid)
          tinyState.eps = false) :=
  (kmeansIteration_flag ieeeArith tinyState (by decide)).2.1
    { tinyState with cluster_list := [⟨[Dbl.two (-601)], [Dbl.fin 0], [], 0⟩] } 0 (by decide!)

end Kmeans
